import Mathlib

/-!
# QLocalServer (Unix back end) and the JUnit test logger: a shallow embedding

The file has two parts.  The small one, namespace `QJUnitTestLogger`, embeds
`addIncident` of `src/testlib/qjunittestlogger.cpp`.  The large one, namespace
`QLocalServer`, is described here.

The definitions of namespace `QLocalServer` follow
`src/network/socket/qlocalserver_unix.cpp` function by function.  The private
object `QLocalServerPrivate` becomes a record; the thread-local `errno` and the
log of operating-system calls that the functions issue are carried next to it
in `World`.  The outcome of every
operating-system call is an explicit argument, so each function is a total,
computable function of the prior state and of those outcomes.

Everything the file takes from headers that are not among the sources
(`<errno.h>`, `<sys/un.h>`, `<poll.h>`, `qlocalserver.h`, `qlocalserver_p.h`)
is a field of `Platform`, the permission-class bits of `<sys/stat.h>` apart,
whose values POSIX fixes; no theorem depends on a particular value of a field
unless it says so in a hypothesis.  `linux`, `bsd` and `linuxArabic` are sample
platforms for evaluating the functions on concrete inputs.  The message texts
are built by `arg`, which follows the place-marker rules of `QString::arg`.
-/

/-! ## QJUnitTestLogger: the result of a test case

`src/testlib/qjunittestlogger.cpp`, functions `addIncident`, `addTag` and
`addMessage`.  The logger is a record of the two counters they touch, the
`result` attribute and the child elements of the current test case, and the two
system log elements.  The data tags, which come from `QTestResult`, are
arguments.
-/

namespace QJUnitTestLogger

/-- The enumerators of `QAbstractTestLogger::IncidentTypes` named by the `switch` of
`addIncident`. -/
inductive IncidentTypes
  | Pass
  | XFail
  | Fail
  | XPass
  | BlacklistedPass
  | BlacklistedFail
  | BlacklistedXPass
  | BlacklistedXFail
  deriving DecidableEq, Repr

/-- The enumerators of `QAbstractTestLogger::MessageTypes` named by the `switch` of `addMessage`. -/
inductive MessageTypes
  | Warn
  | QSystem
  | QDebug
  | QInfo
  | QWarning
  | QFatal
  | Skip
  | Info
  deriving DecidableEq, Repr

/-- A child element added to the current test case: a `LET_Failure` with its
result and message, or a `LET_Message` with its type and message; `tag` is the
`AI_Tag` attribute, when `addTag` adds one. -/
inductive QTestElement
  | failure (result message : String) (tag : Option String)
  | message (type message : String) (tag : Option String)
  deriving DecidableEq, Repr

/-- The members of the logger that `addIncident` and `addMessage` read or write.
`result` is the `AI_Result` attribute of `currentLogElement` (`none` when the
element has no such attribute); a system log element is `none` when its pointer
is null, and otherwise the messages added to it. -/
structure Logger where
  failureCounter : Nat
  errorCounter : Nat
  result : Option String
  children : List QTestElement
  systemOutputElement : Option (List String)
  systemErrorElement : Option (List String)
  deriving DecidableEq, Repr

/-- The logger right after `enterTestFunction`: a new test case element without result. -/
def entered (failureCounter errorCounter : Nat) : Logger where
  failureCounter := failureCounter
  errorCounter := errorCounter
  result := none
  children := []
  systemOutputElement := some []
  systemErrorElement := some []

/-- Source function `QJUnitTestLogger::addTag` (lines 256-275): the tag attribute
it adds to an element, if any.  `none` stands for a null pointer. -/
def addTag (tag gtag : Option String) : Option String :=
  let filler := if tag.isSome && gtag.isSome then ":" else ""
  if (tag.isNone || tag == some "") && (gtag.isNone || gtag == some "") then none
  else some (gtag.getD "" ++ filler ++ tag.getD "")

/-- Lines 286-317 of `addMessage`: the text for the message type. -/
def messageTypeBuf : MessageTypes → String
  | MessageTypes.Warn => "warn"
  | MessageTypes.QSystem => "system"
  | MessageTypes.QDebug => "qdebug"
  | MessageTypes.QInfo => "qinfo"
  | MessageTypes.QWarning => "qwarn"
  | MessageTypes.QFatal => "qfatal"
  | MessageTypes.Skip => "skip"
  | MessageTypes.Info => "info"

/-- Lines 286-317 of `addMessage`: the message goes to the system error element for
warnings and fatal messages, to the system output element otherwise. -/
def toSystemError : MessageTypes → Bool
  | MessageTypes.Warn => true
  | MessageTypes.QWarning => true
  | MessageTypes.QFatal => true
  | _ => false

/-- Source function `QJUnitTestLogger::addMessage` (lines 277-332). -/
def addMessage (type : MessageTypes) (message : String) (tag gtag : Option String)
    (s : Logger) : Logger :=
  let s : Logger := { s with
    children := s.children ++ [QTestElement.message (messageTypeBuf type) message (addTag tag gtag)],
    errorCounter := s.errorCounter + 1 }
  if toSystemError type then
    { s with systemErrorElement := s.systemErrorElement.map fun l => l ++ [message] }
  else
    { s with systemOutputElement := s.systemOutputElement.map fun l => l ++ [message] }

/-- Lines 171-203 of `addIncident`: the text for the incident type. -/
def typeBuf : IncidentTypes → String
  | IncidentTypes.XPass => "xpass"
  | IncidentTypes.Pass => "pass"
  | IncidentTypes.XFail => "xfail"
  | IncidentTypes.Fail => "fail"
  | IncidentTypes.BlacklistedPass => "bpass"
  | IncidentTypes.BlacklistedFail => "bfail"
  | IncidentTypes.BlacklistedXPass => "bxpass"
  | IncidentTypes.BlacklistedXFail => "bxfail"

/-- Lines 171-203 of `addIncident`: the incident types that increment `failureCounter`. -/
def countsAsFailure : IncidentTypes → Bool
  | IncidentTypes.XPass => true
  | IncidentTypes.Fail => true
  | IncidentTypes.BlacklistedFail => true
  | IncidentTypes.BlacklistedXFail => true
  | _ => false

/-- Lines 221-238 of `addIncident`: the flag `overwrite`, from the stored result
(compared with `strcmp`) and the new incident type. -/
def overwrite (oldResult : String) (type : IncidentTypes) : Bool :=
  if oldResult == "pass" then
    true
  else if oldResult == "bpass" || oldResult == "bxfail" then
    (type == IncidentTypes.XPass || type == IncidentTypes.Fail) || (type == IncidentTypes.XFail)
      || (type == IncidentTypes.BlacklistedFail) || (type == IncidentTypes.BlacklistedXPass)
  else if oldResult == "bfail" || oldResult == "bxpass" then
    (type == IncidentTypes.XPass || type == IncidentTypes.Fail) || (type == IncidentTypes.XFail)
  else if oldResult == "xfail" then
    (type == IncidentTypes.XPass || type == IncidentTypes.Fail)
  else if oldResult == "xpass" then
    (type == IncidentTypes.Fail)
  else
    false

/-- Lines 218-245 of `addIncident`: the result attribute after the incident. -/
def storeResult (resultAttr : Option String) (type : IncidentTypes) : Option String :=
  match resultAttr with
  | some oldResult => if overwrite oldResult type then some (typeBuf type) else some oldResult
  | none => some (typeBuf type)

/-- Source function `QJUnitTestLogger::addIncident` (lines 166-254); `file` and
`line` are only passed on to `addMessage`, which does not use them. -/
def addIncident (type : IncidentTypes) (description : String) (tag gtag : Option String)
    (s : Logger) : Logger :=
  let s : Logger :=
    if countsAsFailure type then { s with failureCounter := s.failureCounter + 1 } else s
  let s : Logger :=
    if type = IncidentTypes.Fail ∨ type = IncidentTypes.XPass then
      { s with children :=
          s.children ++ [QTestElement.failure (typeBuf type) description (addTag tag gtag)] }
    else s
  let s : Logger := { s with result := storeResult s.result type }
  if type = IncidentTypes.XFail then
    addMessage MessageTypes.Info description tag gtag s
  else s

/-- A run of incidents reported for one test case, each with its type and description. -/
def addIncidents (incidents : List (IncidentTypes × String)) (tag gtag : Option String)
    (s : Logger) : Logger :=
  incidents.foldl (fun s i => addIncident i.1 i.2 tag gtag s) s

/-- The severity ranking of results, in the order
pass < bpass = bxfail < bfail = bxpass < xfail < xpass < fail. -/
def severity : IncidentTypes → Nat
  | IncidentTypes.Pass => 0
  | IncidentTypes.BlacklistedPass => 1
  | IncidentTypes.BlacklistedXFail => 1
  | IncidentTypes.BlacklistedFail => 2
  | IncidentTypes.BlacklistedXPass => 2
  | IncidentTypes.XFail => 3
  | IncidentTypes.XPass => 4
  | IncidentTypes.Fail => 5

end QJUnitTestLogger

namespace QLocalServer

/-! ## Platform constants and collaborators -/

/-- Constants and pure collaborators that the source takes from headers outside
the sources at hand.  `QFlags` values are bit masks held in a `Nat`. -/
structure Platform where
  /-- errno constants of `<errno.h>` -/
  EAGAIN : Int
  EACCES : Int
  ELOOP : Int
  ENOENT : Int
  ENAMETOOLONG : Int
  EROFS : Int
  ENOTDIR : Int
  EADDRINUSE : Int
  EBADF : Int
  /-- enumerators of `QLocalServer::SocketOption` -/
  UserAccessOption : Nat
  GroupAccessOption : Nat
  OtherAccessOption : Nat
  WorldAccessOption : Nat
  AbstractNamespaceOption : Nat
  /-- the compile-time constant `PlatformSupportsAbstractNamespace` -/
  PlatformSupportsAbstractNamespace : Bool
  /-- the value of `sizeof(addr.sun_path)` -/
  sunPathSize : Nat
  /-- the value of `offsetof(sockaddr_un, sun_path)` -/
  sunPathOffset : Nat
  /-- the value of `sizeof(sockaddr_un)` -/
  sockaddrSize : Nat
  /-- the `POLLNVAL` bit of `<poll.h>` -/
  POLLNVAL : Nat
  /-- the value of `QDir::cleanPath(QDir::tempPath())` -/
  tempPath : String
  /-- the function `QFile::encodeName` (bytes of the name, without the final NUL) -/
  encodeName : String → List Nat
  /-- the function `QFileInfo(path).absolutePath()` -/
  absolutePath : String → String
  /-- the text of a number in the default `QLocale`, which `QString::arg(int)` puts at the
  `%L` place markers -/
  localeNumber : Int → String
  /-- the digit test of the place-marker scan of `QString::arg`: the value of a character
  that counts as a digit, `none` for any other character -/
  argDigitValue : Char → Option Nat

/-- Owner class bits `S_IRWXU` of `<sys/stat.h>` (octal 0700, fixed by POSIX). -/
def S_IRWXU : Nat := 448

/-- Group class bits `S_IRWXG` (octal 070). -/
def S_IRWXG : Nat := 56

/-- Other class bits `S_IRWXO` (octal 07). -/
def S_IRWXO : Nat := 7

/-- The `case` labels of the `switch` in `setError` are pairwise different, as
C requires of the labels of one `switch`. -/
def Platform.CaseLabelsDistinct (P : Platform) : Prop :=
  [P.EACCES, P.ELOOP, P.ENOENT, P.ENAMETOOLONG, P.EROFS, P.ENOTDIR, P.EADDRINUSE].Nodup

instance (P : Platform) : Decidable P.CaseLabelsDistinct := by
  unfold Platform.CaseLabelsDistinct; infer_instance

/-- The function `qArgDigitValue`: the value of an ASCII digit, `none` for any other character. -/
def qArgDigitValue (ch : Char) : Option Nat :=
  if 48 ≤ ch.toNat ∧ ch.toNat ≤ 57 then some (ch.toNat - 48) else none

/-- The digit test of `QString::arg` knows the digits of the two place markers of the message
templates, `%1` and `%2`, and does not take the colon that follows `%1` for a digit. -/
def Platform.ArgDigitsKnown (P : Platform) : Prop :=
  P.argDigitValue '1' = some 1 ∧ P.argDigitValue '2' = some 2 ∧ P.argDigitValue ':' = none

instance (P : Platform) : Decidable P.ArgDigitsKnown := by
  unfold Platform.ArgDigitsKnown; infer_instance

/-- A sample platform: Linux errno numbers, the enumerator values of Qt, a
108-byte `sun_path`, abstract-namespace support, `/tmp` as temporary directory,
one byte per character as file-name encoding. -/
def linux : Platform where
  EAGAIN := 11
  EACCES := 13
  ELOOP := 40
  ENOENT := 2
  ENAMETOOLONG := 36
  EROFS := 30
  ENOTDIR := 20
  EADDRINUSE := 98
  EBADF := 9
  UserAccessOption := 1
  GroupAccessOption := 2
  OtherAccessOption := 4
  WorldAccessOption := 7
  AbstractNamespaceOption := 8
  PlatformSupportsAbstractNamespace := true
  sunPathSize := 108
  sunPathOffset := 2
  sockaddrSize := 110
  POLLNVAL := 32
  tempPath := "/tmp"
  encodeName := fun s => s.toList.map (fun c => c.toNat % 256)
  absolutePath := fun s =>
    String.intercalate "/" ((s.splitOn "/").dropLast)
  localeNumber := fun n => toString n
  argDigitValue := qArgDigitValue

/-- The sample platform with abstract-namespace support compiled out (any
Unix other than Linux and Android). -/
def bsd : Platform :=
  { linux with PlatformSupportsAbstractNamespace := false, sunPathSize := 104,
               sockaddrSize := 106 }

/-- The Arabic-Indic digit (U+0660 to U+0669) for an ASCII digit; other characters are kept. -/
def arabicIndicDigit (c : Char) : Char :=
  if 48 ≤ c.toNat ∧ c.toNat ≤ 57 then Char.ofNat (c.toNat + 1584) else c

/-- The sample platform with a default locale that writes numbers in Arabic-Indic digits. -/
def linuxArabic : Platform :=
  { linux with localeNumber := fun n => String.mk ((toString n).data.map arabicIndicDigit) }

/-! ## QFlags -/

/-- The method `QFlags::testFlag`: every bit of `flag` is set, and a zero `flag`
is only contained in the zero value. -/
def testFlag (i flag : Nat) : Bool :=
  (i &&& flag) == flag && (flag != 0 || i == flag)

/-- The truth value of `options & flag` used as a condition: some bit of `flag` is set. -/
def anyFlag (i flag : Nat) : Bool :=
  (i &&& flag) != 0

/-- The method `QFlags::setFlag(flag, on)`: `i |= flag` when the argument is true, `i &= ~flag`
otherwise. -/
def setFlag (i flag : Nat) (enable : Bool) : Nat :=
  if enable then i ||| flag else i ^^^ (i &&& flag)

/-- Source function `optionsForPlatform` (lines 64-77). -/
def optionsForPlatform (P : Platform) (srcOptions : Nat) : Nat :=
  if testFlag srcOptions P.AbstractNamespaceOption then
    if P.PlatformSupportsAbstractNamespace then P.AbstractNamespaceOption
    else P.WorldAccessOption
  else srcOptions

/-! ## State -/

/-- The values of `QAbstractSocket::SocketError` that `QLocalServer` can hold. -/
inductive SocketError
  | ConnectionRefusedError
  | RemoteHostClosedError
  | HostNotFoundError
  | SocketAccessError
  | SocketResourceError
  | SocketTimeoutError
  | AddressInUseError
  | UnknownSocketError
  deriving DecidableEq, Repr

/-- A `QSocketNotifier` of type `Read`: the descriptor it watches and whether it is enabled. -/
structure QSocketNotifier where
  socket : Int
  enabled : Bool
  deriving DecidableEq, Repr

/-- The members of `QLocalServerPrivate` that the Unix back end reads or writes.
`socketNotifier = none` is the null pointer; `listenSocket = -1` is the absent
descriptor. -/
structure QLocalServerPrivate where
  socketOptions : Nat
  listenSocket : Int
  socketNotifier : Option QSocketNotifier
  serverName : String
  fullServerName : String
  errorString : String
  error : SocketError
  maxPendingConnections : Int
  listenBacklog : Int
  pendingConnections : List Int
  deriving DecidableEq, Repr

/-- One call that leaves the process. -/
inductive OsCall
  | tempDirCreate (templatePath : String)
  | tempDirRemove (path : String)
  | socket
  | bind (fd : Int) (sunPath : List Nat) (addrSize : Nat)
  | listen (fd : Int) (backlog : Int)
  | chmod (path : List Nat) (mode : Nat)
  | rename (oldPath newPath : List Nat)
  | close (fd : Int)
  | fileExists (path : String)
  | fileRemove (path : String)
  | fcntl (fd : Int)
  | getsockname (fd : Int)
  | accept (fd : Int)
  | poll (fd : Int) (msec : Int)
  deriving DecidableEq, Repr

/-- The private object together with the thread-local `errno` and the log of
the calls issued so far (oldest first). -/
structure World where
  d : QLocalServerPrivate
  errno : Int
  calls : List OsCall
  deriving DecidableEq, Repr

/-- Append one call to the log. -/
def World.log (w : World) (c : OsCall) : World :=
  { w with calls := w.calls ++ [c] }

/-- A freshly constructed, closed server in a process whose `errno` is `e`. -/
def initial (socketOptions : Nat) (maxPendingConnections listenBacklog e : Int) : World where
  d := { socketOptions := socketOptions
         listenSocket := -1
         socketNotifier := none
         serverName := ""
         fullServerName := ""
         errorString := ""
         error := SocketError.UnknownSocketError
         maxPendingConnections := maxPendingConnections
         listenBacklog := listenBacklog
         pendingConnections := [] }
  errno := e
  calls := []

/-! ## QString::arg and tr -/

/-- The digits of a place marker: one digit and, when the character after it is a digit too,
that digit as well.  `skipped` counts the characters between the `%` and the first digit; the
result is the marker's number, whether it is a `%L` marker, and how many characters after the
`%` belong to it. -/
def digitsAfter (P : Platform) (localized : Bool) (skipped : Nat) :
    List Char → Option (Nat × Bool × Nat)
  | [] => none
  | d1 :: rest =>
    match P.argDigitValue d1 with
    | none => none
    | some v1 =>
      match rest with
      | [] => some (v1, localized, skipped + 1)
      | d2 :: _ =>
        match P.argDigitValue d2 with
        | some v2 => some (10 * v1 + v2, localized, skipped + 2)
        | none => some (v1, localized, skipped + 1)

/-- The place marker, if any, that the characters after a `%` complete: an optional `L`, then
one or two digits. -/
def escapeAfterPercent (P : Platform) : List Char → Option (Nat × Bool × Nat)
  | [] => none
  | c :: cs => if c = 'L' then digitsAfter P true 1 cs else digitsAfter P false 0 (c :: cs)

/-- What the scan of `QString::arg` sees in a string: a plain character, or a place marker
with its number, its `L` flag and the characters it is written with. -/
inductive ArgToken
  | text (c : Char)
  | marker (number : Nat) (localized : Bool) (raw : List Char)
  deriving DecidableEq, Repr

/-- The left-to-right scan shared by `findArgEscapes` and `replaceArgEscapes`.  A `%` that no
marker follows is a plain character and the scan goes on with the character after it; `skip`
is the number of characters still belonging to the marker just read. -/
def tokenize (P : Platform) : Nat → List Char → List ArgToken
  | _, [] => []
  | skip + 1, _ :: cs => tokenize P skip cs
  | 0, c :: cs =>
    if c = '%' then
      match escapeAfterPercent P cs with
      | some (n, l, len) => ArgToken.marker n l (c :: cs.take len) :: tokenize P len cs
      | none => ArgToken.text c :: tokenize P 0 cs
    else ArgToken.text c :: tokenize P 0 cs

/-- The field `min_escape` that `findArgEscapes` computes: the lowest marker number, `none`
when the string holds no marker. -/
def minEscape : List ArgToken → Option Nat
  | [] => none
  | ArgToken.text _ :: ts => minEscape ts
  | ArgToken.marker n _ _ :: ts =>
    match minEscape ts with
    | none => some n
    | some m => some (min n m)

/-- The function `replaceArgEscapes` with field width 0: every marker numbered `minEsc` is
replaced, by `larg` when it is a `%L` marker and by `arg` otherwise; everything else is
copied. -/
def replaceArgEscapes (minEsc : Nat) (arg larg : List Char) : List ArgToken → List Char
  | [] => []
  | ArgToken.text c :: ts => c :: replaceArgEscapes minEsc arg larg ts
  | ArgToken.marker n l raw :: ts =>
    (if n = minEsc then (if l then larg else arg) else raw) ++ replaceArgEscapes minEsc arg larg ts

/-- Every place marker among the tokens is numbered above `k`. -/
def markersAbove (k : Nat) : List ArgToken → Bool
  | [] => true
  | ArgToken.text _ :: ts => markersAbove k ts
  | ArgToken.marker n _ _ :: ts => decide (k < n) && markersAbove k ts

/-- Modelled from the spec: `QString::arg` is not among the sources, and the spec
only says that the classifier gives a message for an operation name and an errno
value.  The message is built as the source builds it, by `arg` on the result of
`arg`, with the place-marker rules of `QString::arg`: the markers `%n` and `%Ln`
with the lowest number `n` (one or two digits) are all replaced, by `arg` or,
for `%L`, by `larg`; a string without a marker is returned as it is. -/
def argWith (P : Platform) (s arg larg : String) : String :=
  match minEscape (tokenize P 0 s.data) with
  | none => s
  | some m => String.mk (replaceArgEscapes m arg.data larg.data (tokenize P 0 s.data))

/-- The overload `QString::arg(const QString &)`: the same text at plain and at `%L` markers. -/
def arg (P : Platform) (s a : String) : String := argWith P s a a

/-- The overload `QString::arg(int)`: the decimal text of the C locale at plain markers, the
text of the default locale at `%L` markers. -/
def argInt (P : Platform) (s : String) (a : Int) : String :=
  argWith P s (toString a) (P.localeNumber a)

/-- Modelled from the spec: `QLocalServer::tr` is not among the sources; the spec
knows no translation of the messages, so the source text is returned, as `tr`
does while no translator is installed. -/
def tr (sourceText : String) : String := sourceText

/-! ## setError (lines 339-370) -/

/-- The text `tr("%1: Permission denied").arg(function)`. -/
def permissionDeniedText (P : Platform) (function : String) : String :=
  arg P (tr "%1: Permission denied") function

/-- The text `tr("%1: Name error").arg(function)`. -/
def nameErrorText (P : Platform) (function : String) : String :=
  arg P (tr "%1: Name error") function

/-- The text `tr("%1: Address in use").arg(function)`. -/
def addressInUseText (P : Platform) (function : String) : String :=
  arg P (tr "%1: Address in use") function

/-- The text `tr("%1: Unknown error %2").arg(function).arg(errno)`: the second `arg` scans
the result of the first, the inserted operation name included. -/
def unknownErrorText (P : Platform) (function : String) (e : Int) : String :=
  argInt P (arg P (tr "%1: Unknown error %2") function) e

/-- Source function `QLocalServerPrivate::setError`, as a function of the value of `errno`. -/
def setErrorWith (P : Platform) (e : Int) (function : String)
    (d : QLocalServerPrivate) : QLocalServerPrivate :=
  if P.EAGAIN = e then d
  else if e = P.EACCES then
    { d with errorString := permissionDeniedText P function, error := SocketError.SocketAccessError }
  else if e = P.ELOOP ∨ e = P.ENOENT ∨ e = P.ENAMETOOLONG ∨ e = P.EROFS ∨ e = P.ENOTDIR then
    { d with errorString := nameErrorText P function, error := SocketError.HostNotFoundError }
  else if e = P.EADDRINUSE then
    { d with errorString := addressInUseText P function, error := SocketError.AddressInUseError }
  else
    { d with errorString := unknownErrorText P function e, error := SocketError.UnknownSocketError }

/-- Source function `QLocalServerPrivate::setError`: it classifies the current `errno`. -/
def setError (P : Platform) (function : String) (w : World) : World :=
  { w with d := setErrorWith P w.errno function w.d }

/-! ## closeServer (lines 267-286) -/

/-- Source function `QLocalServerPrivate::closeServer`.  The results of `QT_CLOSE` and
`QFile::remove` are ignored by the source and no statement after them reads errno, here or in a
caller; the value either call may leave in errno when it fails is not modelled (the `errno`
field passes through), so errno after a teardown stands for the value before it only. -/
def closeServer (P : Platform) (w : World) : World :=
  -- if (socketNotifier) { setEnabled(false); deleteLater(); socketNotifier = nullptr; }
  let w1 : World := { w with d := { w.d with socketNotifier := none } }
  -- if (-1 != listenSocket) QT_CLOSE(listenSocket);
  let w2 : World := if w1.d.listenSocket ≠ -1 then w1.log (OsCall.close w1.d.listenSocket) else w1
  -- listenSocket = -1;
  let w3 : World := { w2 with d := { w2.d with listenSocket := -1 } }
  -- if (!fullServerName.isEmpty() && !optionsForPlatform(socketOptions).testFlag(Abstract...))
  let w4 : World :=
    if w3.d.fullServerName ≠ "" ∧
        testFlag (optionsForPlatform P w3.d.socketOptions) P.AbstractNamespaceOption = false then
      w3.log (OsCall.fileRemove w3.d.fullServerName)
    else w3
  -- serverName.clear(); fullServerName.clear();
  { w4 with d := { w4.d with serverName := "", fullServerName := "" } }

/-! ## listen(name) (lines 99-225) -/

/-- Outcomes of the operating-system calls that one `listen(name)` can make.
A failing call is given with the `errno` it leaves; a successful call leaves
`errno` as it was.  `socket` returns a non-negative descriptor on success. -/
structure ListenOutcomes where
  /-- result of `QTemporaryDir`: the path of the created directory, or invalid -/
  tempDir : Except Int String
  /-- result of `qt_safe_socket` -/
  socket : Except Int Nat
  /-- result of `QT_SOCKET_BIND` -/
  bind : Option Int
  /-- result of `qt_safe_listen` -/
  listen : Option Int
  /-- result of `chmod` -/
  chmod : Option Int
  /-- result of `rename` -/
  rename : Option Int

/-- The method `QString::startsWith(QChar)`. -/
def startsWith (s : String) (c : Char) : Bool :=
  match s.toList with
  | [] => false
  | x :: _ => x == c

/-- The literal `QLatin1String("QLocalServer::listen")`. -/
def fnListen : String := "QLocalServer::listen"

/-- Lines 106-113: the full server path that `listen(name)` stores in `fullServerName`. -/
def resolveFullServerName (P : Platform) (options : Nat) (requestedServerName : String) : String :=
  if testFlag options P.AbstractNamespaceOption || startsWith requestedServerName '/' then
    requestedServerName
  else
    P.tempPath ++ "/" ++ requestedServerName

/-- Line 145: `extraCharacters = PlatformSupportsAbstractNamespace ? 2 : 1`. -/
def extraCharacters (P : Platform) : Nat :=
  if P.PlatformSupportsAbstractNamespace then 2 else 1

/-- Line 147: the condition under which the name is refused for its length. -/
def nameTooLong (P : Platform) (encodedFullServerName : List Nat) : Bool :=
  decide (P.sunPathSize < encodedFullServerName.length + extraCharacters P)

/-- Lines 194-203: the mode handed to `chmod`. -/
def accessMode (P : Platform) (options : Nat) : Nat :=
  let mode : Nat := 0
  let mode := if anyFlag options P.UserAccessOption then mode ||| S_IRWXU else mode
  let mode := if anyFlag options P.GroupAccessOption then mode ||| S_IRWXG else mode
  let mode := if anyFlag options P.OtherAccessOption then mode ||| S_IRWXO else mode
  mode

/-- The call `memcpy(dst + offset, src, |src|)` on a buffer held as a list of bytes.
A copy that runs past the end of `dst` shows as a result longer than `dst`. -/
def memcpy (dst : List Nat) (offset : Nat) (src : List Nat) : List Nat :=
  dst.take offset ++ src ++ dst.drop (offset + src.length)

/-- The bytes `constData()` exposes for copying `size() + 1` bytes: the content and the final
NUL. -/
def withNul (bytes : List Nat) : List Nat := bytes ++ [0]

/-- Lines 218-224: create the read notifier on `listenSocket`, enabled when
`maxPendingConnections > 0`. -/
def registerNotifier (w : World) : World :=
  { w with d := { w.d with
      socketNotifier := some { socket := w.d.listenSocket,
                               enabled := decide (w.d.maxPendingConnections > 0) } } }

/-- The recurring failure exit `setError(...); closeServer(); return false;` after a call left
errno `e`. -/
def failWith (P : Platform) (e : Int) (w : World) : Bool × World :=
  (false, closeServer P (setError P fnListen { w with errno := e }))

/-- Lines 186-225: `listen(2)`, then for WorldAccess `chmod` and `rename`, then the notifier. -/
def listenAfterBind (P : Platform) (os : ListenOutcomes) (options : Nat)
    (encodedTempPath encodedFullServerName : List Nat) (w : World) : Bool × World :=
  let w := w.log (OsCall.listen w.d.listenSocket w.d.listenBacklog)
  match os.listen with
  | some e => failWith P e w
  | none =>
    if anyFlag options P.WorldAccessOption then
      let w := w.log (OsCall.chmod encodedTempPath (accessMode P options))
      match os.chmod with
      | some e => failWith P e w
      | none =>
        let w := w.log (OsCall.rename encodedTempPath encodedFullServerName)
        match os.rename with
        | some e => failWith P e w
        | none => (true, registerNotifier w)
    else (true, registerNotifier w)

/-- Lines 173-225: `bind` with the finished address, its two failure exits, then the rest. -/
def listenBind (P : Platform) (os : ListenOutcomes) (options : Nat)
    (encodedTempPath encodedFullServerName : List Nat)
    (sunPath : List Nat) (addrSize : Nat) (w : World) : Bool × World :=
  let w := w.log (OsCall.bind w.d.listenSocket sunPath addrSize)
  match os.bind with
  | some e =>
    let w := setError P fnListen { w with errno := e }
    if w.errno = P.EADDRINUSE then
      -- just close the socket, but do not delete the file
      let w := w.log (OsCall.close w.d.listenSocket)
      (false, { w with d := { w.d with listenSocket := -1 } })
    else
      -- otherwise, close the socket and delete the file
      let w := closeServer P w
      (false, { w with d := { w.d with listenSocket := -1 } })
  | none => listenAfterBind P os options encodedTempPath encodedFullServerName w

/-- Lines 130-225: create the socket, check the length, build the address, go on to `bind`. -/
def listenSocketStage (P : Platform) (os : ListenOutcomes) (options : Nat)
    (encodedTempPath encodedFullServerName : List Nat) (w : World) : Bool × World :=
  let w := w.log OsCall.socket
  match os.socket with
  | Except.error e => failWith P e { w with d := { w.d with listenSocket := -1 } }
  | Except.ok fd =>
    let w : World := { w with d := { w.d with listenSocket := (fd : Int) } }
    -- ::memset(addr.sun_path, 0, sizeof(addr.sun_path));
    let sunPath : List Nat := List.replicate P.sunPathSize 0
    if nameTooLong P encodedFullServerName then
      -- no call has failed here: setError reads the errno that was there before
      failWith P w.errno w
    else if testFlag options P.AbstractNamespaceOption then
      listenBind P os options encodedTempPath encodedFullServerName
        (memcpy sunPath 1 (withNul encodedFullServerName))
        (P.sunPathOffset + encodedFullServerName.length + 1) w
    else if anyFlag options P.WorldAccessOption then
      if P.sunPathSize < encodedTempPath.length + 1 then
        failWith P w.errno w
      else
        listenBind P os options encodedTempPath encodedFullServerName
          (memcpy sunPath 0 (withNul encodedTempPath)) P.sockaddrSize w
    else
      listenBind P os options encodedTempPath encodedFullServerName
        (memcpy sunPath 0 (withNul encodedFullServerName)) P.sockaddrSize w

/-- Source function `QLocalServerPrivate::listen(const QString &)`.  The result
is the returned `bool` and the world after the call.  The `QTemporaryDir` held
in `tempDir` is destroyed on every return that follows its creation; the
destructor of a valid one removes the directory and what is left in it. -/
def listen (P : Platform) (os : ListenOutcomes) (requestedServerName : String)
    (w : World) : Bool × World :=
  let options := optionsForPlatform P w.d.socketOptions
  let fullServerName := resolveFullServerName P options requestedServerName
  let w : World := { w with d := { w.d with
      fullServerName := fullServerName, serverName := requestedServerName } }
  let encodedFullServerName := P.encodeName fullServerName
  if anyFlag options P.WorldAccessOption then
    let w := w.log (OsCall.tempDirCreate (P.absolutePath fullServerName ++ "/"))
    match os.tempDir with
    | Except.error e => (false, setError P fnListen { w with errno := e })
    | Except.ok dir =>
      let r := listenSocketStage P os options (P.encodeName (dir ++ "/s")) encodedFullServerName w
      (r.1, r.2.log (OsCall.tempDirRemove dir))
  else
    listenSocketStage P os options [] encodedFullServerName w

/-! ## listen(descriptor) (lines 227-260) -/

/-- What `QLocalSocketPrivate::parseSockaddr` hands back when it returns true. -/
structure ParsedSockaddr where
  fullServerName : String
  serverName : String
  abstractAddress : Bool

/-- Source function `QLocalServerPrivate::listen(qintptr)`.  `getsocknameOk` says
whether `getsockname` returned 0; `parsed` is `none` when `parseSockaddr` returns
false, in which case it leaves its output arguments alone. -/
def listenDescriptor (P : Platform) (getsocknameOk : Bool) (parsed : Option ParsedSockaddr)
    (socketDescriptor : Int) (w : World) : Bool × World :=
  let w : World := { w with d := { w.d with listenSocket := socketDescriptor } }
  let w := ((w.log (OsCall.fcntl socketDescriptor)).log (OsCall.fcntl socketDescriptor)).log
    (OsCall.fcntl socketDescriptor)
  let w := w.log (OsCall.getsockname socketDescriptor)
  let w : World :=
    if getsocknameOk then
      match parsed with
      | some a =>
        { w with d := { w.d with
            fullServerName := a.fullServerName, serverName := a.serverName,
            socketOptions := setFlag w.d.socketOptions P.AbstractNamespaceOption a.abstractAddress } }
      | none => w
    else w
  (true, registerNotifier w)

/-! ## _q_onNewConnection and waitForNewConnection (lines 294-337) -/

/-- Modelled from the spec: `QLocalServer::incomingConnection`, the connection
sink, is not among the sources; as the spec has it, the sink takes the raw
accepted descriptor and its queue depth is what `pendingConnections.size()` reports. -/
def incomingConnection (connectedSocket : Int) (w : World) : World :=
  { w with d := { w.d with pendingConnections := w.d.pendingConnections ++ [connectedSocket] } }

/-- Source function `QLocalServerPrivate::_q_onNewConnection`; `accept` is the
result of `qt_safe_accept`.  `socketNotifier->setEnabled` acts on the notifier
that `listen` registered. -/
def _q_onNewConnection (P : Platform) (accept : Except Int Nat) (w : World) : World :=
  if w.d.listenSocket = -1 then w
  else
    let w := w.log (OsCall.accept w.d.listenSocket)
    match accept with
    | Except.error e =>
      closeServer P (setError P "QLocalSocket::activated" { w with errno := e })
    | Except.ok connectedSocket =>
      let w : World := { w with d := { w.d with
        socketNotifier := w.d.socketNotifier.map fun n =>
          { n with enabled :=
              decide ((w.d.pendingConnections.length : Int) ≤ w.d.maxPendingConnections) } } }
      incomingConnection (connectedSocket : Int) w

/-- The result of `qt_poll_msecs` on the one descriptor: `0`, a positive count
with the returned events, or `-1` with the errno it leaves. -/
inductive PollResult
  | timeout
  | ready (revents : Nat)
  | error (e : Int)

/-- Source function `QLocalServerPrivate::waitForNewConnection`.  `timedOut` is
`none` for a null pointer and otherwise the value behind it; the result gives
the value behind the pointer after the call. -/
def waitForNewConnection (P : Platform) (poll : PollResult) (accept : Except Int Nat)
    (msec : Int) (timedOut : Option Bool) (w : World) : Option Bool × World :=
  let w := w.log (OsCall.poll w.d.listenSocket msec)
  match poll with
  | PollResult.timeout => (timedOut.map fun _ => true, w)
  | PollResult.ready revents =>
    if revents &&& P.POLLNVAL = 0 then
      (timedOut, _q_onNewConnection P accept w)
    else
      -- errno = EBADF; Q_FALLTHROUGH();
      (timedOut, closeServer P
        (setError P "QLocalServer::waitForNewConnection" { w with errno := P.EBADF }))
  | PollResult.error e =>
    (timedOut, closeServer P
      (setError P "QLocalServer::waitForNewConnection" { w with errno := e }))

/-! ## removeServer (lines 84-97) -/

/-- Source function `QLocalServerPrivate::removeServer`; `fileExists` and
`removed` are the results of `QFile::exists` and `QFile::remove`.  The result is
the returned `bool` and the calls issued. -/
def removeServer (P : Platform) (fileExists removed : Bool) (name : String) :
    Bool × List OsCall :=
  let fileName := if startsWith name '/' then name else P.tempPath ++ "/" ++ name
  if fileExists then
    (removed, [OsCall.fileExists fileName, OsCall.fileRemove fileName])
  else
    (true, [OsCall.fileExists fileName])

/-! ## Vocabulary of the statements -/

/-- The calls issued between an earlier world `w` and a later world `w'`. -/
def issued (w w' : World) : List OsCall :=
  w'.calls.drop w.calls.length

/-- The call is a `bind`. -/
def OsCall.isBind : OsCall → Bool
  | OsCall.bind _ _ _ => true
  | _ => false

/-- The call is a `listen`. -/
def OsCall.isListen : OsCall → Bool
  | OsCall.listen _ _ => true
  | _ => false

/-- The call is a `chmod`. -/
def OsCall.isChmod : OsCall → Bool
  | OsCall.chmod _ _ => true
  | _ => false

/-- The call is a `rename`. -/
def OsCall.isRename : OsCall → Bool
  | OsCall.rename _ _ => true
  | _ => false

/-- The calls `closeServer` issues from a given object: the descriptor close and the file
removal. -/
def closeCalls (P : Platform) (d : QLocalServerPrivate) : List OsCall :=
  (if d.listenSocket ≠ -1 then [OsCall.close d.listenSocket] else []) ++
  (if d.fullServerName ≠ "" ∧
      testFlag (optionsForPlatform P d.socketOptions) P.AbstractNamespaceOption = false then
    [OsCall.fileRemove d.fullServerName] else [])

/-- Outcomes under which every call of `listen(name)` succeeds; the socket is descriptor 5. -/
def allSucceed : ListenOutcomes where
  tempDir := Except.ok "/tmp/qt-Ab12Cd"
  socket := Except.ok 5
  bind := none
  listen := none
  chmod := none
  rename := none

/-- The object `closeServer` leaves: notifier released, descriptor absent, names cleared. -/
def tornDown (d : QLocalServerPrivate) : QLocalServerPrivate :=
  { d with socketNotifier := none, listenSocket := -1, serverName := "", fullServerName := "" }

/-- The address `listen(name)` hands to `bind` (lines 153-171): the `sun_path`
buffer and the address size, for the three address forms. -/
def bindAddress (P : Platform) (options : Nat) (encodedTempPath encodedFullServerName : List Nat) :
    List Nat × Nat :=
  if testFlag options P.AbstractNamespaceOption then
    (memcpy (List.replicate P.sunPathSize 0) 1 (withNul encodedFullServerName),
      P.sunPathOffset + encodedFullServerName.length + 1)
  else if anyFlag options P.WorldAccessOption then
    (memcpy (List.replicate P.sunPathSize 0) 0 (withNul encodedTempPath), P.sockaddrSize)
  else
    (memcpy (List.replicate P.sunPathSize 0) 0 (withNul encodedFullServerName), P.sockaddrSize)

/-- Both length checks of lines 147 and 161 let the call through to `bind`. -/
def passesLengthChecks (P : Platform) (options : Nat)
    (encodedTempPath encodedFullServerName : List Nat) : Bool :=
  !nameTooLong P encodedFullServerName &&
  (testFlag options P.AbstractNamespaceOption || !anyFlag options P.WorldAccessOption ||
    !decide (P.sunPathSize < encodedTempPath.length + 1))

/-- The exits of `listenSocketStage` from world `w`, each with the exact result:
the returned flag, the object, errno and the calls appended to the log. -/
inductive SocketStageExit (P : Platform) (os : ListenOutcomes) (options : Nat)
    (tp fp : List Nat) (w : World) : Bool × World → Prop
  | socketFailed (e : Int) (hs : os.socket = Except.error e) :
      SocketStageExit P os options tp fp w
        (false, { d := tornDown (setErrorWith P e fnListen { w.d with listenSocket := -1 })
                  errno := e
                  calls := w.calls ++ OsCall.socket :: closeCalls P { w.d with listenSocket := -1 } })
  | tooLong (fd : Nat) (hs : os.socket = Except.ok fd)
      (hlen : passesLengthChecks P options tp fp = false) :
      SocketStageExit P os options tp fp w
        (false, { d := tornDown (setErrorWith P w.errno fnListen { w.d with listenSocket := fd })
                  errno := w.errno
                  calls := w.calls ++ OsCall.socket :: closeCalls P { w.d with listenSocket := fd } })
  | bindInUse (fd : Nat) (hs : os.socket = Except.ok fd)
      (hlen : passesLengthChecks P options tp fp = true)
      (hb : os.bind = some P.EADDRINUSE) :
      SocketStageExit P os options tp fp w
        (false, { d := { setErrorWith P P.EADDRINUSE fnListen { w.d with listenSocket := fd } with
                         listenSocket := -1 }
                  errno := P.EADDRINUSE
                  calls := w.calls ++ [OsCall.socket,
                    OsCall.bind fd (bindAddress P options tp fp).1 (bindAddress P options tp fp).2,
                    OsCall.close fd] })
  | bindFailed (fd : Nat) (e : Int) (hs : os.socket = Except.ok fd)
      (hlen : passesLengthChecks P options tp fp = true)
      (hb : os.bind = some e) (he : e ≠ P.EADDRINUSE) :
      SocketStageExit P os options tp fp w
        (false, { d := tornDown (setErrorWith P e fnListen { w.d with listenSocket := fd })
                  errno := e
                  calls := w.calls ++ OsCall.socket ::
                    OsCall.bind fd (bindAddress P options tp fp).1 (bindAddress P options tp fp).2 ::
                    closeCalls P { w.d with listenSocket := fd } })
  | listenFailed (fd : Nat) (e : Int) (hs : os.socket = Except.ok fd)
      (hlen : passesLengthChecks P options tp fp = true)
      (hb : os.bind = none) (hl : os.listen = some e) :
      SocketStageExit P os options tp fp w
        (false, { d := tornDown (setErrorWith P e fnListen { w.d with listenSocket := fd })
                  errno := e
                  calls := w.calls ++ OsCall.socket ::
                    OsCall.bind fd (bindAddress P options tp fp).1 (bindAddress P options tp fp).2 ::
                    OsCall.listen fd w.d.listenBacklog ::
                    closeCalls P { w.d with listenSocket := fd } })
  | chmodFailed (fd : Nat) (e : Int) (hs : os.socket = Except.ok fd)
      (hlen : passesLengthChecks P options tp fp = true)
      (hb : os.bind = none) (hl : os.listen = none)
      (hw : anyFlag options P.WorldAccessOption = true) (hc : os.chmod = some e) :
      SocketStageExit P os options tp fp w
        (false, { d := tornDown (setErrorWith P e fnListen { w.d with listenSocket := fd })
                  errno := e
                  calls := w.calls ++ OsCall.socket ::
                    OsCall.bind fd (bindAddress P options tp fp).1 (bindAddress P options tp fp).2 ::
                    OsCall.listen fd w.d.listenBacklog ::
                    OsCall.chmod tp (accessMode P options) ::
                    closeCalls P { w.d with listenSocket := fd } })
  | renameFailed (fd : Nat) (e : Int) (hs : os.socket = Except.ok fd)
      (hlen : passesLengthChecks P options tp fp = true)
      (hb : os.bind = none) (hl : os.listen = none)
      (hw : anyFlag options P.WorldAccessOption = true) (hc : os.chmod = none)
      (hr : os.rename = some e) :
      SocketStageExit P os options tp fp w
        (false, { d := tornDown (setErrorWith P e fnListen { w.d with listenSocket := fd })
                  errno := e
                  calls := w.calls ++ OsCall.socket ::
                    OsCall.bind fd (bindAddress P options tp fp).1 (bindAddress P options tp fp).2 ::
                    OsCall.listen fd w.d.listenBacklog ::
                    OsCall.chmod tp (accessMode P options) ::
                    OsCall.rename tp fp ::
                    closeCalls P { w.d with listenSocket := fd } })
  | published (fd : Nat) (hs : os.socket = Except.ok fd)
      (hlen : passesLengthChecks P options tp fp = true)
      (hb : os.bind = none) (hl : os.listen = none)
      (hw : anyFlag options P.WorldAccessOption = true) (hc : os.chmod = none)
      (hr : os.rename = none) :
      SocketStageExit P os options tp fp w
        (true, { d := { w.d with
                        listenSocket := fd
                        socketNotifier := some { socket := fd,
                                                 enabled := decide (w.d.maxPendingConnections > 0) } }
                 errno := w.errno
                 calls := w.calls ++ [OsCall.socket,
                    OsCall.bind fd (bindAddress P options tp fp).1 (bindAddress P options tp fp).2,
                    OsCall.listen fd w.d.listenBacklog,
                    OsCall.chmod tp (accessMode P options),
                    OsCall.rename tp fp] })
  | listening (fd : Nat) (hs : os.socket = Except.ok fd)
      (hlen : passesLengthChecks P options tp fp = true)
      (hb : os.bind = none) (hl : os.listen = none)
      (hw : anyFlag options P.WorldAccessOption = false) :
      SocketStageExit P os options tp fp w
        (true, { d := { w.d with
                        listenSocket := fd
                        socketNotifier := some { socket := fd,
                                                 enabled := decide (w.d.maxPendingConnections > 0) } }
                 errno := w.errno
                 calls := w.calls ++ [OsCall.socket,
                    OsCall.bind fd (bindAddress P options tp fp).1 (bindAddress P options tp fp).2,
                    OsCall.listen fd w.d.listenBacklog] })

/-- The options `listen(name)` works with (line 104). -/
def effectiveOptions (P : Platform) (w : World) : Nat :=
  optionsForPlatform P w.d.socketOptions

/-- The world after lines 104-114 of `listen(name)`: both names recorded. -/
def named (P : Platform) (requestedServerName : String) (w : World) : World :=
  { w with d := { w.d with
      fullServerName := resolveFullServerName P (effectiveOptions P w) requestedServerName,
      serverName := requestedServerName } }

/-- The exits of `listen(name)` from world `w`, each with the exact result. -/
inductive ListenExit (P : Platform) (os : ListenOutcomes) (name : String) (w : World) :
    Bool × World → Prop
  | tempDirFailed (e : Int)
      (hw : anyFlag (effectiveOptions P w) P.WorldAccessOption = true)
      (ht : os.tempDir = Except.error e) :
      ListenExit P os name w
        (false, { d := setErrorWith P e fnListen (named P name w).d
                  errno := e
                  calls := w.calls ++
                    [OsCall.tempDirCreate (P.absolutePath (named P name w).d.fullServerName ++ "/")] })
  | viaTempDir (dir : String) (r : Bool × World)
      (hw : anyFlag (effectiveOptions P w) P.WorldAccessOption = true)
      (ht : os.tempDir = Except.ok dir)
      (hr : SocketStageExit P os (effectiveOptions P w) (P.encodeName (dir ++ "/s"))
        (P.encodeName (named P name w).d.fullServerName)
        ((named P name w).log
          (OsCall.tempDirCreate (P.absolutePath (named P name w).d.fullServerName ++ "/"))) r) :
      ListenExit P os name w (r.1, r.2.log (OsCall.tempDirRemove dir))
  | direct (r : Bool × World)
      (hw : anyFlag (effectiveOptions P w) P.WorldAccessOption = false)
      (hr : SocketStageExit P os (effectiveOptions P w) []
        (P.encodeName (named P name w).d.fullServerName) (named P name w) r) :
      ListenExit P os name w r


/-- The listener is bound: a `listen` call has completed and registered the
read notifier on its descriptor, and no teardown has released it since. -/
def isBound (d : QLocalServerPrivate) : Bool := d.socketNotifier.isSome

/-- The worlds reachable from a freshly constructed server by the five
operations, whatever the operating system answers, with arbitrary changes of
`errno` by the rest of the process in between.  `allowed` says which calls of
`listen(name)` a run may hold, given the world the call is made in, the
outcomes of its operating-system calls and the name; `adoptable` says which
descriptors `listen(descriptor)` may be handed.  With both always true, every
sequence of the five operations is a run.  `Q_ASSERT(!socketNotifier)`, which
both `listen` overloads reach only after their last failure exit, compiles to
nothing outside debug builds and is embedded as such. -/
inductive Reachable (P : Platform) (allowed : World → ListenOutcomes → String → Prop)
    (adoptable : Int → Prop) : World → Prop
  | init (socketOptions : Nat) (maxPendingConnections listenBacklog e : Int) :
      Reachable P allowed adoptable
        (initial socketOptions maxPendingConnections listenBacklog e)
  | listen (w : World) (os : ListenOutcomes) (name : String)
      (hw : Reachable P allowed adoptable w) (ha : allowed w os name) :
      Reachable P allowed adoptable (listen P os name w).2
  | listenDescriptor (w : World) (getsocknameOk : Bool) (parsed : Option ParsedSockaddr)
      (socketDescriptor : Int)
      (hw : Reachable P allowed adoptable w) (hfd : adoptable socketDescriptor) :
      Reachable P allowed adoptable
        (listenDescriptor P getsocknameOk parsed socketDescriptor w).2
  | closeServer (w : World) (hw : Reachable P allowed adoptable w) :
      Reachable P allowed adoptable (closeServer P w)
  | onNewConnection (w : World) (accept : Except Int Nat)
      (hw : Reachable P allowed adoptable w) :
      Reachable P allowed adoptable (_q_onNewConnection P accept w)
  | waitForNewConnection (w : World) (poll : PollResult) (accept : Except Int Nat)
      (msec : Int) (timedOut : Option Bool) (hw : Reachable P allowed adoptable w) :
      Reachable P allowed adoptable (waitForNewConnection P poll accept msec timedOut w).2
  | otherErrno (w : World) (e : Int) (hw : Reachable P allowed adoptable w) :
      Reachable P allowed adoptable { w with errno := e }

/-- Every sequence of the five operations is a run: no call of `listen(name)` is excluded. -/
def anyListen (_ : World) (_ : ListenOutcomes) (_ : String) : Prop := True

/-- Every descriptor may be handed to `listen(descriptor)`. -/
def anyDescriptor (_ : Int) : Prop := True

/-- The call `listen(name)` leaves at lines 123-126: WorldAccess is in effect and the
temporary directory cannot be created.  This exit returns without `closeServer`. -/
def leavesAtTempDir (P : Platform) (os : ListenOutcomes) (w : World) : Prop :=
  anyFlag (effectiveOptions P w) P.WorldAccessOption = true ∧ ∃ e, os.tempDir = Except.error e

/-- The call `listen(name)` leaves at lines 174-184 by the EADDRINUSE branch: `bind` is
called and fails with EADDRINUSE.  This exit closes the descriptor without `closeServer`. -/
def leavesAtBindInUse (P : Platform) (os : ListenOutcomes) (name : String) (w : World) : Prop :=
  os.bind = some P.EADDRINUSE ∧ ∃ c ∈ issued w (listen P os name w).2, c.isBind = true

/-- No `listen(name)` made while a notifier is registered leaves by the EADDRINUSE branch. -/
def keepsDescriptor (P : Platform) (w : World) (os : ListenOutcomes) (name : String) : Prop :=
  w.d.socketNotifier = none ∨ ¬ leavesAtBindInUse P os name w

/-- No `listen(name)` made while no notifier is registered leaves by one of the two exits
that return without `closeServer`. -/
def keepsPath (P : Platform) (w : World) (os : ListenOutcomes) (name : String) : Prop :=
  w.d.socketNotifier ≠ none ∨ (¬ leavesAtTempDir P os w ∧ ¬ leavesAtBindInUse P os name w)

/-- A descriptor other than the absent sentinel. -/
def isDescriptor (fd : Int) : Prop := fd ≠ -1

/-- A name of 107 bytes: a slash and 106 letters. -/
def name107 : String := String.mk ('/' :: List.replicate 106 'a')

/-- A name of 200 bytes: a slash and 199 letters. -/
def name200 : String := String.mk ('/' :: List.replicate 199 'a')

/-- The abstract-namespace enumerator is a flag of its own: it is not zero and
shares no bit with `WorldAccessOption`. -/
def Platform.FlagsSeparate (P : Platform) : Prop :=
  P.AbstractNamespaceOption ≠ 0 ∧ P.AbstractNamespaceOption &&& P.WorldAccessOption = 0

instance (P : Platform) : Decidable P.FlagsSeparate := by
  unfold Platform.FlagsSeparate; infer_instance

/-- The world after a successful `listen("foo")` on the sample platform, from a
fresh server with options 0 and the given `maxPendingConnections`: descriptor 5,
full path "/tmp/foo". -/
def boundSample (maxPendingConnections : Int) : World :=
  (listen linux allSucceed "foo" (initial 0 maxPendingConnections 50 0)).2

/-- The literal `QLatin1String("QLocalSocket::activated")`. -/
def fnActivated : String := "QLocalSocket::activated"

/-- The literal `QLatin1String("QLocalServer::waitForNewConnection")`. -/
def fnWait : String := "QLocalServer::waitForNewConnection"

/-! ## The place markers of QString::arg -/

/-- A character that is no digit, put after the text, does not change the digits read. -/
theorem digitsAfter_append (P : Platform) (b : Bool) (k : Nat) (cs : List Char) (x : Char)
    (r : List Char) (hx : P.argDigitValue x = none) :
    digitsAfter P b k (cs ++ x :: r) = digitsAfter P b k cs := by
  cases cs with
  | nil => simp [digitsAfter, hx]
  | cons d1 rest =>
    cases rest with
    | nil =>
      simp only [List.cons_append, List.nil_append, digitsAfter]
      cases P.argDigitValue d1 with
      | none => rfl
      | some v1 => simp [hx]
    | cons d2 rest2 => simp [digitsAfter]

/-- The digits of a marker lie inside the text they are read from. -/
theorem digitsAfter_len (P : Platform) (b : Bool) (k : Nat) (cs : List Char) (n : Nat) (l : Bool)
    (len : Nat) (h : digitsAfter P b k cs = some (n, l, len)) : len ≤ k + cs.length := by
  cases cs with
  | nil => simp [digitsAfter] at h
  | cons d1 rest =>
    simp only [digitsAfter] at h
    cases h1 : P.argDigitValue d1 with
    | none => simp [h1] at h
    | some v1 =>
      simp only [h1] at h
      cases rest with
      | nil =>
        simp only [Option.some.injEq, Prod.mk.injEq] at h
        simp only [List.length_cons, List.length_nil]
        omega
      | cons d2 rest2 =>
        simp only [] at h
        cases h2 : P.argDigitValue d2 with
        | none =>
          simp only [h2, Option.some.injEq, Prod.mk.injEq] at h
          simp only [List.length_cons]
          omega
        | some v2 =>
          simp only [h2, Option.some.injEq, Prod.mk.injEq] at h
          simp only [List.length_cons]
          omega

/-- A character that is neither a digit nor `L`, put after the text, does not change the marker
read after a `%`. -/
theorem escapeAfterPercent_append (P : Platform) (cs : List Char) (x : Char) (r : List Char)
    (hx : P.argDigitValue x = none) (hL : x ≠ 'L') :
    escapeAfterPercent P (cs ++ x :: r) = escapeAfterPercent P cs := by
  cases cs with
  | nil => simp [escapeAfterPercent, hL, digitsAfter, hx]
  | cons c cs =>
    simp only [List.cons_append, escapeAfterPercent]
    split_ifs
    · exact digitsAfter_append P true 1 cs x r hx
    · exact digitsAfter_append P false 0 (c :: cs) x r hx

/-- A marker lies inside the text it is read from. -/
theorem escapeAfterPercent_len (P : Platform) (cs : List Char) (n : Nat) (l : Bool) (len : Nat)
    (h : escapeAfterPercent P cs = some (n, l, len)) : len ≤ cs.length := by
  cases cs with
  | nil => simp [escapeAfterPercent] at h
  | cons c cs =>
    simp only [escapeAfterPercent] at h
    split_ifs at h
    · have := digitsAfter_len _ _ _ _ _ _ _ h
      simp only [List.length_cons]
      omega
    · have := digitsAfter_len _ _ _ _ _ _ _ h
      omega

/-- The scan at a character with nothing left to skip. -/
theorem tokenize_zero_cons (P : Platform) (c : Char) (cs : List Char) :
    tokenize P 0 (c :: cs)
      = if c = '%' then
          match escapeAfterPercent P cs with
          | some (n, l, len) => ArgToken.marker n l (c :: cs.take len) :: tokenize P len cs
          | none => ArgToken.text c :: tokenize P 0 cs
        else ArgToken.text c :: tokenize P 0 cs := by
  simp only [tokenize]

/-- The scan of a text followed by a character that is neither a digit nor `L` is the scan of
the text followed by the scan of what comes after it. -/
theorem tokenize_append (P : Platform) (x : Char) (r : List Char)
    (hx : P.argDigitValue x = none) (hL : x ≠ 'L') :
    ∀ (l : List Char) (skip : Nat), skip ≤ l.length →
      tokenize P skip (l ++ x :: r) = tokenize P skip l ++ tokenize P 0 (x :: r) := by
  intro l
  induction l with
  | nil =>
    intro skip hs
    have : skip = 0 := by simpa using hs
    subst this
    simp [tokenize]
  | cons c cs ih =>
    intro skip hs
    cases skip with
    | succ k =>
      simp only [List.cons_append, tokenize]
      exact ih k (by simpa using hs)
    | zero =>
      rw [List.cons_append, tokenize_zero_cons, tokenize_zero_cons P c cs,
        escapeAfterPercent_append P cs x r hx hL]
      split_ifs with hc
      · cases he : escapeAfterPercent P cs with
        | none => simp only [ih 0 (Nat.zero_le _), List.cons_append]
        | some t =>
          obtain ⟨n, lo, len⟩ := t
          have hlen := escapeAfterPercent_len P cs n lo len he
          simp only [ih len hlen, List.take_append_of_le_length hlen, List.cons_append]
      · simp only [ih 0 (Nat.zero_le _), List.cons_append]

/-- Replacing the markers numbered `k` in a text whose markers are all numbered above `k`
gives the text back. -/
theorem replaceArgEscapes_above (P : Platform) (k : Nat) (a la : List Char) :
    ∀ (l : List Char) (skip : Nat), skip ≤ l.length →
      markersAbove k (tokenize P skip l) = true →
      replaceArgEscapes k a la (tokenize P skip l) = l.drop skip := by
  intro l
  induction l with
  | nil =>
    intro skip hs _
    simp [tokenize, replaceArgEscapes]
  | cons c cs ih =>
    intro skip hs hm
    cases skip with
    | succ j =>
      simp only [tokenize] at hm ⊢
      simpa using ih j (by simpa using hs) hm
    | zero =>
      simp only [tokenize] at hm ⊢
      split_ifs at hm ⊢ with hc
      · cases he : escapeAfterPercent P cs with
        | none =>
          simp only [he, markersAbove] at hm
          simp only [he, replaceArgEscapes, List.drop_zero]
          simpa using ih 0 (Nat.zero_le _) hm
        | some t =>
          obtain ⟨n, lo, len⟩ := t
          have hlen := escapeAfterPercent_len P cs n lo len he
          simp only [he, markersAbove, Bool.and_eq_true, decide_eq_true_eq] at hm
          simp only [he, replaceArgEscapes, List.drop_zero]
          rw [if_neg (by omega), ih len hlen hm.2]
          simp
      · simp only [markersAbove] at hm
        simp only [replaceArgEscapes, List.drop_zero]
        simpa using ih 0 (Nat.zero_le _) hm

/-- Tokens whose markers are all numbered above `k` do not lower a minimum `k` that follows. -/
theorem minEscape_append_above (k : Nat) (B : List ArgToken) (hB : minEscape B = some k) :
    ∀ A : List ArgToken, markersAbove k A = true → minEscape (A ++ B) = some k := by
  intro A
  induction A with
  | nil => intro _; simpa using hB
  | cons t ts ih =>
    intro h
    cases t with
    | text c =>
      simp only [markersAbove] at h
      simpa [minEscape] using ih h
    | marker n lo raw =>
      simp only [markersAbove, Bool.and_eq_true, decide_eq_true_eq] at h
      show minEscape (ArgToken.marker n lo raw :: (ts ++ B)) = some k
      simp only [minEscape, ih h.2, Option.some.injEq]
      exact Nat.min_eq_right (Nat.le_of_lt h.1)

/-- The replacement goes token by token. -/
theorem replaceArgEscapes_append (m : Nat) (a la : List Char) (A B : List ArgToken) :
    replaceArgEscapes m a la (A ++ B)
      = replaceArgEscapes m a la A ++ replaceArgEscapes m a la B := by
  induction A with
  | nil => rfl
  | cons t ts ih =>
    cases t with
    | text c => simp [replaceArgEscapes, ih]
    | marker n lo raw => simp [replaceArgEscapes, ih]

/-- A marker in the second part is a marker of the whole. -/
theorem minEscape_append_some (B : List ArgToken) (k : Nat) (hB : minEscape B = some k) :
    ∀ A : List ArgToken, ∃ m, minEscape (A ++ B) = some m := by
  intro A
  induction A with
  | nil => exact ⟨k, by simpa using hB⟩
  | cons t ts ih =>
    obtain ⟨m, hm⟩ := ih
    cases t with
    | text c => exact ⟨m, by simpa [minEscape] using hm⟩
    | marker n lo raw => exact ⟨min n m, by simp [minEscape, hm]⟩

/-- The lowest marker number is the number of a marker. -/
theorem minEscape_attained : ∀ (ts : List ArgToken) (m : Nat), minEscape ts = some m →
    ∃ lo raw, ArgToken.marker m lo raw ∈ ts := by
  intro ts
  induction ts with
  | nil => intro m h; simp [minEscape] at h
  | cons t ts ih =>
    intro m h
    cases t with
    | text c =>
      obtain ⟨lo, raw, hmem⟩ := ih m (by simpa [minEscape] using h)
      exact ⟨lo, raw, List.mem_cons_of_mem _ hmem⟩
    | marker n lo raw =>
      simp only [minEscape] at h
      cases hts : minEscape ts with
      | none =>
        simp only [hts, Option.some.injEq] at h
        subst h
        exact ⟨lo, raw, List.mem_cons_self _ _⟩
      | some m2 =>
        simp only [hts, Option.some.injEq] at h
        by_cases hle : n ≤ m2
        · have : n = m := by rw [← h]; exact (Nat.min_eq_left hle).symm
          subst this
          exact ⟨lo, raw, List.mem_cons_self _ _⟩
        · have : m2 = m := by rw [← h]; exact (Nat.min_eq_right (by omega)).symm
          subst this
          obtain ⟨lo2, raw2, hmem⟩ := ih m2 hts
          exact ⟨lo2, raw2, List.mem_cons_of_mem _ hmem⟩

/-- Where a marker with the replaced number stands, the result holds the argument. -/
theorem replaceArgEscapes_contains (m : Nat) (a la : List Char) (lo : Bool) (raw : List Char) :
    ∀ ts : List ArgToken, ArgToken.marker m lo raw ∈ ts →
      ∃ pre post, replaceArgEscapes m a la ts = pre ++ (if lo then la else a) ++ post := by
  intro ts
  induction ts with
  | nil => intro h; simp at h
  | cons t ts ih =>
    intro h
    rcases List.mem_cons.mp h with h | h
    · subst h
      exact ⟨[], replaceArgEscapes m a la ts, by simp [replaceArgEscapes]⟩
    · obtain ⟨pre, post, hp⟩ := ih h
      cases t with
      | text c => exact ⟨c :: pre, post, by simp [replaceArgEscapes, hp]⟩
      | marker n lo2 raw2 =>
        exact ⟨(if n = m then (if lo2 then la else a) else raw2) ++ pre, post,
          by simp [replaceArgEscapes, hp]⟩

/-- A text without `%` is scanned into plain characters. -/
theorem tokenize_plain (P : Platform) (l : List Char) (h : '%' ∉ l) :
    tokenize P 0 l = l.map ArgToken.text := by
  induction l with
  | nil => rfl
  | cons c cs ih =>
    have hc : c ≠ '%' := fun hc => h (by simp [hc])
    have hcs : '%' ∉ cs := fun hm => h (List.mem_cons_of_mem _ hm)
    rw [tokenize_zero_cons, if_neg hc, ih hcs]
    rfl

/-- Plain characters hold no marker. -/
theorem minEscape_plain (l : List Char) : minEscape (l.map ArgToken.text) = none := by
  induction l with
  | nil => rfl
  | cons c cs ih => simpa [minEscape] using ih

/-- Plain characters are copied. -/
theorem replaceArgEscapes_plain (m : Nat) (a la l : List Char) :
    replaceArgEscapes m a la (l.map ArgToken.text) = l := by
  induction l with
  | nil => rfl
  | cons c cs ih => simp [replaceArgEscapes, ih]

/-- The scan of a template that starts with `%1:` and holds no further `%`. -/
theorem tokenize_one_template (P : Platform) (hd : P.ArgDigitsKnown) (rest : List Char)
    (h : '%' ∉ rest) :
    tokenize P 0 ('%' :: '1' :: ':' :: rest)
      = ArgToken.marker 1 false ['%', '1'] :: ArgToken.text ':' :: rest.map ArgToken.text := by
  obtain ⟨h1, -, hc⟩ := hd
  have he : escapeAfterPercent P ('1' :: ':' :: rest) = some (1, false, 1) := by
    simp [escapeAfterPercent, digitsAfter, h1, hc]
  rw [tokenize_zero_cons, if_pos rfl, he]
  simp only [List.take, tokenize]
  rw [if_neg (by decide), tokenize_plain P rest h]

/-- The scan of the tail of the unknown-error template. -/
theorem tokenize_unknown_tail (P : Platform) (hd : P.ArgDigitsKnown) :
    tokenize P 0 ": Unknown error %2".data
      = ": Unknown error ".data.map ArgToken.text ++ [ArgToken.marker 2 false ['%', '2']] := by
  obtain ⟨-, h2, -⟩ := hd
  have he : escapeAfterPercent P ['2'] = some (2, false, 1) := by
    simp [escapeAfterPercent, digitsAfter, h2]
  have hsplit : ": Unknown error %2".data = ": Unknown error ".data ++ '%' :: ['2'] := by decide
  have key : ∀ l : List Char, '%' ∉ l →
      tokenize P 0 (l ++ '%' :: ['2'])
        = l.map ArgToken.text ++ [ArgToken.marker 2 false ['%', '2']] := by
    intro l
    induction l with
    | nil =>
      intro _
      rw [List.nil_append, tokenize_zero_cons, if_pos rfl, he]
      simp [tokenize]
    | cons c cs ih =>
      intro h
      have hc : c ≠ '%' := fun hc => h (by simp [hc])
      have hcs : '%' ∉ cs := fun hm => h (List.mem_cons_of_mem _ hm)
      rw [List.cons_append, tokenize_zero_cons, if_neg hc, ih hcs]
      rfl
  rw [hsplit]
  exact key _ (by decide)

/-- The text `arg` makes of a template that starts with `%1:` and holds no further `%`: the
argument, put in front of the rest. -/
theorem arg_one_template (P : Platform) (hd : P.ArgDigitsKnown) (rest : List Char)
    (h : '%' ∉ rest) (f : String) :
    arg P (String.mk ('%' :: '1' :: ':' :: rest)) f = f ++ String.mk (':' :: rest) := by
  unfold arg argWith
  simp only [tokenize_one_template P hd rest h, minEscape, minEscape_plain]
  apply String.ext
  simp [replaceArgEscapes, replaceArgEscapes_plain, String.data_append]

/-- The first `arg` of the unknown-error message puts the operation name in front. -/
theorem arg_unknown_template (P : Platform) (hd : P.ArgDigitsKnown) (f : String) :
    arg P (tr "%1: Unknown error %2") f = f ++ ": Unknown error %2" := by
  obtain ⟨h1, h2, hc⟩ := hd
  have he1 : escapeAfterPercent P "1: Unknown error %2".data = some (1, false, 1) := by
    simp [escapeAfterPercent, digitsAfter, h1, hc]
  have ht : tokenize P 0 "%1: Unknown error %2".data
      = ArgToken.marker 1 false ['%', '1'] :: tokenize P 0 ": Unknown error %2".data := by
    show tokenize P 0 ('%' :: "1: Unknown error %2".data) = _
    rw [tokenize_zero_cons, if_pos rfl, he1]
    rfl
  unfold arg argWith tr
  rw [ht, tokenize_unknown_tail P ⟨h1, h2, hc⟩]
  have hmin : minEscape (ArgToken.marker 1 false ['%', '1'] ::
      (": Unknown error ".data.map ArgToken.text ++ [ArgToken.marker 2 false ['%', '2']]))
      = some 1 := by rfl
  rw [hmin]
  apply String.ext
  simp [replaceArgEscapes, replaceArgEscapes_append, replaceArgEscapes_plain,
    String.data_append]

/-- The messages of the three classified kinds are the operation name followed by the fixed
text, whatever the name holds: `arg` does not scan what it inserts. -/
theorem classified_texts (P : Platform) (hd : P.ArgDigitsKnown) (f : String) :
    permissionDeniedText P f = f ++ ": Permission denied" ∧
    nameErrorText P f = f ++ ": Name error" ∧
    addressInUseText P f = f ++ ": Address in use" :=
  ⟨arg_one_template P hd " Permission denied".data (by decide) f,
   arg_one_template P hd " Name error".data (by decide) f,
   arg_one_template P hd " Address in use".data (by decide) f⟩

/-- The unknown-error message holds the errno value, as the C locale or as the default locale
writes it. -/
theorem unknownErrorText_contains (P : Platform) (hd : P.ArgDigitsKnown) (f : String) (e : Int) :
    ∃ pre post : String, unknownErrorText P f e = pre ++ toString e ++ post ∨
      unknownErrorText P f e = pre ++ P.localeNumber e ++ post := by
  have htok : tokenize P 0 (f ++ ": Unknown error %2").data
      = tokenize P 0 f.data ++ tokenize P 0 ": Unknown error %2".data :=
    tokenize_append P ':' _ hd.2.2 (by decide) f.data 0 (Nat.zero_le _)
  obtain ⟨m, hm⟩ := minEscape_append_some (tokenize P 0 ": Unknown error %2".data) 2
    (by rw [tokenize_unknown_tail P hd]; rfl) (tokenize P 0 f.data)
  rw [← htok] at hm
  obtain ⟨lo, raw, hmem⟩ := minEscape_attained _ m hm
  obtain ⟨pre, post, hp⟩ :=
    replaceArgEscapes_contains m (toString e).data (P.localeNumber e).data lo raw _ hmem
  have hval : unknownErrorText P f e
      = String.mk (replaceArgEscapes m (toString e).data (P.localeNumber e).data
          (tokenize P 0 (f ++ ": Unknown error %2").data)) := by
    unfold unknownErrorText argInt
    rw [arg_unknown_template P hd]
    unfold argWith
    rw [hm]
  refine ⟨String.mk pre, String.mk post, ?_⟩
  rw [hval, hp]
  cases lo
  · left; rfl
  · right; rfl

/-- When every marker of the operation name is numbered above 2, the unknown-error message is
the name, the fixed text and the decimal errno value. -/
theorem unknownErrorText_eq (P : Platform) (hd : P.ArgDigitsKnown) (f : String) (e : Int)
    (h : markersAbove 2 (tokenize P 0 f.data) = true) :
    unknownErrorText P f e = f ++ (": Unknown error " ++ toString e) := by
  have htok : tokenize P 0 (f ++ ": Unknown error %2").data
      = tokenize P 0 f.data ++ tokenize P 0 ": Unknown error %2".data :=
    tokenize_append P ':' _ hd.2.2 (by decide) f.data 0 (Nat.zero_le _)
  have hm : minEscape (tokenize P 0 (f ++ ": Unknown error %2").data) = some 2 := by
    rw [htok]
    exact minEscape_append_above 2 _ (by rw [tokenize_unknown_tail P hd]; rfl) _ h
  unfold unknownErrorText argInt
  rw [arg_unknown_template P hd]
  unfold argWith
  rw [hm]
  simp only []
  rw [htok, replaceArgEscapes_append, replaceArgEscapes_above P 2 _ _ f.data 0 (Nat.zero_le _) h]
  have htail : replaceArgEscapes 2 (toString e).data (P.localeNumber e).data
      (tokenize P 0 ": Unknown error %2".data) = ": Unknown error ".data ++ (toString e).data := by
    rw [tokenize_unknown_tail P hd]
    simp [replaceArgEscapes, replaceArgEscapes_append, replaceArgEscapes_plain]
  rw [htail]
  apply String.ext
  simp [String.data_append]

/-! ## Frame lemmas for setError and closeServer -/

theorem setError_errno (P : Platform) (f : String) (w : World) :
    (setError P f w).errno = w.errno := rfl

theorem setError_calls (P : Platform) (f : String) (w : World) :
    (setError P f w).calls = w.calls := rfl

theorem setErrorWith_frame (P : Platform) (e : Int) (f : String) (d : QLocalServerPrivate) :
    (setErrorWith P e f d).listenSocket = d.listenSocket ∧
    (setErrorWith P e f d).socketNotifier = d.socketNotifier ∧
    (setErrorWith P e f d).serverName = d.serverName ∧
    (setErrorWith P e f d).fullServerName = d.fullServerName ∧
    (setErrorWith P e f d).socketOptions = d.socketOptions ∧
    (setErrorWith P e f d).maxPendingConnections = d.maxPendingConnections ∧
    (setErrorWith P e f d).listenBacklog = d.listenBacklog ∧
    (setErrorWith P e f d).pendingConnections = d.pendingConnections := by
  unfold setErrorWith
  split_ifs <;> simp

theorem setError_listenSocket (P : Platform) (f : String) (w : World) :
    (setError P f w).d.listenSocket = w.d.listenSocket :=
  (setErrorWith_frame P w.errno f w.d).1

theorem setError_socketNotifier (P : Platform) (f : String) (w : World) :
    (setError P f w).d.socketNotifier = w.d.socketNotifier :=
  (setErrorWith_frame P w.errno f w.d).2.1

theorem setError_serverName (P : Platform) (f : String) (w : World) :
    (setError P f w).d.serverName = w.d.serverName :=
  (setErrorWith_frame P w.errno f w.d).2.2.1

theorem setError_fullServerName (P : Platform) (f : String) (w : World) :
    (setError P f w).d.fullServerName = w.d.fullServerName :=
  (setErrorWith_frame P w.errno f w.d).2.2.2.1

theorem setError_socketOptions (P : Platform) (f : String) (w : World) :
    (setError P f w).d.socketOptions = w.d.socketOptions :=
  (setErrorWith_frame P w.errno f w.d).2.2.2.2.1

/-- The net effect of `closeServer`: notifier released, descriptor absent, names
cleared, and the calls of `closeCalls` issued. -/
theorem closeServer_eq (P : Platform) (w : World) :
    closeServer P w =
      { d := tornDown w.d, errno := w.errno, calls := w.calls ++ closeCalls P w.d } := by
  unfold closeServer closeCalls World.log tornDown
  by_cases h1 : w.d.listenSocket = -1 <;>
  by_cases h2 : (w.d.fullServerName ≠ "" ∧
      testFlag (optionsForPlatform P w.d.socketOptions) P.AbstractNamespaceOption = false) <;>
  simp [h1, h2]

theorem closeServer_listenSocket (P : Platform) (w : World) :
    (closeServer P w).d.listenSocket = -1 := by
  rw [closeServer_eq]
  rfl

theorem closeServer_socketNotifier (P : Platform) (w : World) :
    (closeServer P w).d.socketNotifier = none := by
  rw [closeServer_eq]
  rfl

theorem closeServer_serverName (P : Platform) (w : World) :
    (closeServer P w).d.serverName = "" := by
  rw [closeServer_eq]
  rfl

theorem closeServer_fullServerName (P : Platform) (w : World) :
    (closeServer P w).d.fullServerName = "" := by
  rw [closeServer_eq]
  rfl

theorem closeServer_error (P : Platform) (w : World) :
    (closeServer P w).d.error = w.d.error ∧ (closeServer P w).d.errorString = w.d.errorString := by
  rw [closeServer_eq]
  exact ⟨rfl, rfl⟩

theorem closeServer_calls (P : Platform) (w : World) :
    (closeServer P w).calls = w.calls ++ closeCalls P w.d := by
  rw [closeServer_eq]

/-! ## The exits of listen(name) -/

theorem closeCalls_setErrorWith (P : Platform) (e : Int) (f : String) (d : QLocalServerPrivate) :
    closeCalls P (setErrorWith P e f d) = closeCalls P d := by
  obtain ⟨h1, -, -, h4, h5, -⟩ := setErrorWith_frame P e f d
  simp only [closeCalls, h1, h4, h5]

theorem failWith_eq (P : Platform) (e : Int) (w : World) :
    failWith P e w =
      (false, { d := tornDown (setErrorWith P e fnListen w.d)
                errno := e
                calls := w.calls ++ closeCalls P w.d }) := by
  simp only [failWith, closeServer_eq, setError, closeCalls_setErrorWith]

theorem listenAfterBind_eq (P : Platform) (os : ListenOutcomes) (options : Nat)
    (tp fp : List Nat) (w : World) :
    listenAfterBind P os options tp fp w =
      match os.listen with
      | some e => failWith P e (w.log (OsCall.listen w.d.listenSocket w.d.listenBacklog))
      | none =>
        if anyFlag options P.WorldAccessOption then
          match os.chmod with
          | some e => failWith P e ((w.log (OsCall.listen w.d.listenSocket w.d.listenBacklog)).log
              (OsCall.chmod tp (accessMode P options)))
          | none =>
            match os.rename with
            | some e => failWith P e (((w.log (OsCall.listen w.d.listenSocket w.d.listenBacklog)).log
                (OsCall.chmod tp (accessMode P options))).log (OsCall.rename tp fp))
            | none => (true, registerNotifier (((w.log (OsCall.listen w.d.listenSocket w.d.listenBacklog)).log
                (OsCall.chmod tp (accessMode P options))).log (OsCall.rename tp fp)))
        else (true, registerNotifier (w.log (OsCall.listen w.d.listenSocket w.d.listenBacklog))) := by
  unfold listenAfterBind
  rfl

theorem listenBind_exit (P : Platform) (os : ListenOutcomes) (options : Nat)
    (tp fp sp : List Nat) (n : Nat) (fd : Nat) (w0 w : World)
    (hd : w.d = { w0.d with listenSocket := fd }) (he : w.errno = w0.errno)
    (hc : w.calls = w0.calls ++ [OsCall.socket])
    (hs : os.socket = Except.ok fd)
    (hlen : passesLengthChecks P options tp fp = true)
    (hsp : sp = (bindAddress P options tp fp).1) (hn : n = (bindAddress P options tp fp).2) :
    SocketStageExit P os options tp fp w0 (listenBind P os options tp fp sp n w) := by
  obtain ⟨d, e, calls⟩ := w
  simp only at hd he hc
  subst hd he hc hsp hn
  unfold listenBind
  simp only [World.log, setError]
  rcases hb : os.bind with _ | e
  · simp only [listenAfterBind_eq, World.log]
    rcases hl : os.listen with _ | e
    · simp only []
      by_cases hw : anyFlag options P.WorldAccessOption = true
      · simp only [hw, if_true]
        rcases hc : os.chmod with _ | e
        · simp only []
          rcases hr : os.rename with _ | e
          · simp only [registerNotifier, List.append_assoc, List.singleton_append]
            exact SocketStageExit.published fd hs hlen hb hl hw hc hr
          · simp only [failWith_eq, List.append_assoc, List.singleton_append, List.cons_append]
            exact SocketStageExit.renameFailed fd e hs hlen hb hl hw hc hr
        · simp only [failWith_eq, List.append_assoc, List.singleton_append, List.cons_append]
          exact SocketStageExit.chmodFailed fd e hs hlen hb hl hw hc
      · simp only [hw, registerNotifier, List.append_assoc, List.singleton_append]
        exact SocketStageExit.listening fd hs hlen hb hl (by simpa using hw)
    · simp only [failWith_eq, List.append_assoc, List.singleton_append, List.cons_append]
      exact SocketStageExit.listenFailed fd e hs hlen hb hl
  · simp only []
    by_cases he : e = P.EADDRINUSE
    · subst he
      simp only [if_true, (setErrorWith_frame _ _ _ _).1, List.append_assoc,
        List.singleton_append, List.cons_append]
      exact SocketStageExit.bindInUse fd hs hlen hb
    · simp only [if_neg he, closeServer_eq, closeCalls_setErrorWith, List.append_assoc,
        List.singleton_append, List.cons_append]
      exact SocketStageExit.bindFailed fd e hs hlen hb he

theorem listenSocketStage_exit (P : Platform) (os : ListenOutcomes) (options : Nat)
    (tp fp : List Nat) (w : World) :
    SocketStageExit P os options tp fp w (listenSocketStage P os options tp fp w) := by
  unfold listenSocketStage
  simp only []
  rcases hs : os.socket with e | fd
  · simp only [failWith_eq, World.log, List.append_assoc, List.singleton_append]
    exact SocketStageExit.socketFailed e hs
  · simp only []
    by_cases hlen : passesLengthChecks P options tp fp = true
    · have hlen' := hlen
      simp only [passesLengthChecks, Bool.and_eq_true, Bool.not_eq_true', Bool.or_eq_true,
        decide_eq_false_iff_not] at hlen'
      obtain ⟨h1, h2⟩ := hlen'
      simp only [h1, Bool.false_eq_true, if_false]
      by_cases ha : testFlag options P.AbstractNamespaceOption = true
      · simp only [ha, if_true]
        exact listenBind_exit P os options tp fp _ _ fd w _ rfl rfl rfl hs hlen
          (by simp [bindAddress, ha]) (by simp [bindAddress, ha])
      · simp only [ha, Bool.false_eq_true, if_false]
        by_cases hw : anyFlag options P.WorldAccessOption = true
        · have h3 : ¬ P.sunPathSize < tp.length + 1 := by
            rcases h2 with (h2 | h2) | h2
            · exact absurd h2 ha
            · simp [hw] at h2
            · exact h2
          simp only [hw, if_true, if_neg h3]
          exact listenBind_exit P os options tp fp _ _ fd w _ rfl rfl rfl hs hlen
            (by simp [bindAddress, ha, hw]) (by simp [bindAddress, ha, hw])
        · simp only [hw, Bool.false_eq_true, if_false]
          exact listenBind_exit P os options tp fp _ _ fd w _ rfl rfl rfl hs hlen
            (by simp [bindAddress, ha, hw]) (by simp [bindAddress, ha, hw])
    · have hlen2 : passesLengthChecks P options tp fp = false := by simpa using hlen
      have hlen3 := hlen2
      simp only [passesLengthChecks, Bool.and_eq_false_iff, Bool.not_eq_false', Bool.or_eq_false_iff,
        Bool.not_eq_true', decide_eq_true_eq, decide_eq_false_iff_not] at hlen3
      by_cases h0 : nameTooLong P fp = true
      · simp only [h0, if_true, failWith_eq, World.log, List.append_assoc, List.singleton_append]
        exact SocketStageExit.tooLong fd hs hlen2
      · rcases hlen3 with h | ⟨⟨h1, h2⟩, h3⟩
        · exact absurd h h0
        · have h2' : anyFlag options P.WorldAccessOption = true := by simpa using h2
          have h3' : P.sunPathSize < tp.length + 1 := by simpa using h3
          simp only [h0, h1, h2', h3', Bool.false_eq_true, if_false, if_true, failWith_eq, World.log,
            List.append_assoc, List.singleton_append]
          exact SocketStageExit.tooLong fd hs hlen2

/-- Every run of `listen(name)` leaves by one of the exits of `ListenExit`. -/
theorem listen_exit (P : Platform) (os : ListenOutcomes) (name : String) (w : World) :
    ListenExit P os name w (listen P os name w) := by
  unfold listen
  simp only []
  by_cases hw : anyFlag (optionsForPlatform P w.d.socketOptions) P.WorldAccessOption = true
  · simp only [hw, if_true]
    rcases ht : os.tempDir with e | dir
    · exact ListenExit.tempDirFailed e hw ht
    · exact ListenExit.viaTempDir dir _ hw ht (listenSocketStage_exit _ _ _ _ _ _)
  · simp only [hw, Bool.false_eq_true, if_false]
    exact ListenExit.direct _ (by simpa using hw) (listenSocketStage_exit _ _ _ _ _ _)

/-! ## Auxiliary facts about the calls issued -/

/-- The calls issued up to a world whose log extends the earlier log by `l` are `l`. -/
theorem issued_append (w : World) (d : QLocalServerPrivate) (e : Int) (l : List OsCall) :
    issued w { d := d, errno := e, calls := w.calls ++ l } = l := by
  simp [issued]

/-- The calls of `closeServer` are a descriptor close and a file removal: none is a `bind`,
`listen`, `chmod` or `rename`. -/
theorem closeCalls_no_stage_call (P : Platform) (d : QLocalServerPrivate) (c : OsCall)
    (hc : c ∈ closeCalls P d) :
    c.isBind = false ∧ c.isListen = false ∧ c.isChmod = false ∧ c.isRename = false := by
  unfold closeCalls at hc
  simp only [List.mem_append] at hc
  rcases hc with hc | hc <;> split_ifs at hc <;> simp at hc <;> subst hc <;>
    simp [OsCall.isBind, OsCall.isListen, OsCall.isChmod, OsCall.isRename]

/-- With errno EADDRINUSE (different from EAGAIN) `setError` records the address-in-use error. -/
theorem setErrorWith_addressInUse (P : Platform) (f : String) (d : QLocalServerPrivate)
    (hlabels : P.CaseLabelsDistinct) (hne : P.EADDRINUSE ≠ P.EAGAIN) :
    (setErrorWith P P.EADDRINUSE f d).error = SocketError.AddressInUseError := by
  simp only [Platform.CaseLabelsDistinct, List.nodup_cons, List.mem_cons, List.mem_singleton,
    List.not_mem_nil, not_or, List.nodup_nil, or_false, and_true, not_false_eq_true] at hlabels
  obtain ⟨⟨h12, h13, h14, h15, h16, h17⟩, ⟨h23, h24, h25, h26, h27⟩, ⟨h34, h35, h36, h37⟩,
    ⟨h45, h46, h47⟩, ⟨h56, h57⟩, h67⟩ := hlabels
  have h1 : ¬ P.EAGAIN = P.EADDRINUSE := fun h => hne h.symm
  have h2 : ¬ P.EADDRINUSE = P.EACCES := fun h => h17 h.symm
  have h3 : ¬ (P.EADDRINUSE = P.ELOOP ∨ P.EADDRINUSE = P.ENOENT ∨ P.EADDRINUSE = P.ENAMETOOLONG ∨
      P.EADDRINUSE = P.EROFS ∨ P.EADDRINUSE = P.ENOTDIR) := by
    intro h
    rcases h with h | h | h | h | h
    · exact h27 h.symm
    · exact h37 h.symm
    · exact h47 h.symm
    · exact h57 h.symm
    · exact h67 h.symm
  simp only [setErrorWith, if_neg h1, if_neg h2, if_neg h3, if_true]

/-- The calls of `closeServer` contain no `bind`. -/
theorem not_isBind_of_mem_closeCalls (P : Platform) (d : QLocalServerPrivate) :
    ¬ ∃ c ∈ closeCalls P d, c.isBind = true := by
  rintro ⟨c, hc, hb⟩
  rw [(closeCalls_no_stage_call P d c hc).1] at hb
  exact Bool.false_ne_true hb

/-- The mode of lines 194-203 as one bitwise OR of the selected permission classes. -/
theorem accessMode_eq (P : Platform) (o : Nat) :
    accessMode P o =
      (if anyFlag o P.UserAccessOption then S_IRWXU else 0) |||
      (if anyFlag o P.GroupAccessOption then S_IRWXG else 0) |||
      (if anyFlag o P.OtherAccessOption then S_IRWXO else 0) := by
  unfold accessMode
  split_ifs <;> simp

/-- The calls of `closeServer` contain no `chmod`. -/
theorem not_isChmod_of_mem_closeCalls (P : Platform) (d : QLocalServerPrivate) (path : List Nat)
    (mode : Nat) : OsCall.chmod path mode ∉ closeCalls P d := by
  intro hc
  have := (closeCalls_no_stage_call P d _ hc).2.2.1
  simp [OsCall.isChmod] at this

/-- Without WorldAccess the temporary path plays no part in the length checks. -/
theorem passesLengthChecks_nil (P : Platform) (o : Nat) (tp fp : List Nat)
    (hw : anyFlag o P.WorldAccessOption = false) :
    passesLengthChecks P o [] fp = passesLengthChecks P o tp fp := by
  simp [passesLengthChecks, hw]

/-- A `listen(name)` that does not leave by the EADDRINUSE branch while a notifier is
registered ends with descriptor and notifier both absent, both present, or both as they
were. -/
theorem listen_descriptor_notifier (P : Platform) (os : ListenOutcomes) (name : String) (w : World)
    (hg : w.d.socketNotifier = none ∨
      ¬ (os.bind = some P.EADDRINUSE ∧ ∃ c ∈ issued w (listen P os name w).2, c.isBind = true)) :
    ((listen P os name w).2.d.listenSocket = -1 ∧ (listen P os name w).2.d.socketNotifier = none) ∨
    ((listen P os name w).2.d.listenSocket ≠ -1 ∧
      (listen P os name w).2.d.socketNotifier.isSome = true) ∨
    ((listen P os name w).2.d.listenSocket = w.d.listenSocket ∧
      (listen P os name w).2.d.socketNotifier = w.d.socketNotifier) := by
  have hx := listen_exit P os name w
  generalize listen P os name w = r at hx hg ⊢
  have hfd : ∀ fd : Nat, (fd : Int) ≠ -1 := fun fd => by omega
  cases hx with
  | tempDirFailed e hw ht =>
    right; right
    exact ⟨(setErrorWith_frame _ _ _ _).1, (setErrorWith_frame _ _ _ _).2.1⟩
  | viaTempDir dir r hw ht hr =>
    cases hr with
    | bindInUse fd hs hlen hb =>
      left
      rcases hg with hpre | hno
      · exact ⟨rfl, (setErrorWith_frame _ _ _ _).2.1.trans hpre⟩
      · exfalso
        apply hno
        refine ⟨hb, ?_⟩
        simp only [World.log, named, List.append_assoc, List.cons_append, List.singleton_append,
          List.nil_append, issued_append]
        simp [OsCall.isBind]
    | published fd hs hlen hb hl hw hc hr => right; left; exact ⟨hfd fd, rfl⟩
    | listening fd hs hlen hb hl hw => right; left; exact ⟨hfd fd, rfl⟩
    | _ => left; exact ⟨rfl, rfl⟩
  | direct r hw hr =>
    cases hr with
    | bindInUse fd hs hlen hb =>
      left
      rcases hg with hpre | hno
      · exact ⟨rfl, (setErrorWith_frame _ _ _ _).2.1.trans hpre⟩
      · exfalso
        apply hno
        refine ⟨hb, ?_⟩
        simp only [World.log, named, List.append_assoc, List.cons_append, List.singleton_append,
          List.nil_append, issued_append]
        simp [OsCall.isBind]
    | published fd hs hlen hb hl hw hc hr => right; left; exact ⟨hfd fd, rfl⟩
    | listening fd hs hlen hb hl hw => right; left; exact ⟨hfd fd, rfl⟩
    | _ => left; exact ⟨rfl, rfl⟩

/-- The accept routine either tears the listener down or keeps descriptor, notifier registration
and full path. -/
theorem onNewConnection_descriptor_notifier (P : Platform) (accept : Except Int Nat) (w : World) :
    ((_q_onNewConnection P accept w).d.listenSocket = -1 ∧
      (_q_onNewConnection P accept w).d.socketNotifier = none ∧
      (_q_onNewConnection P accept w).d.fullServerName = "") ∨
    ((_q_onNewConnection P accept w).d.listenSocket = w.d.listenSocket ∧
      (_q_onNewConnection P accept w).d.socketNotifier.isSome = w.d.socketNotifier.isSome ∧
      (_q_onNewConnection P accept w).d.fullServerName = w.d.fullServerName) := by
  unfold _q_onNewConnection
  by_cases h : w.d.listenSocket = -1
  · rw [if_pos h]
    right
    exact ⟨rfl, rfl, rfl⟩
  · rw [if_neg h]
    rcases accept with e | c
    · left
      refine ⟨?_, ?_, ?_⟩ <;> simp [closeServer_eq, tornDown]
    · right
      refine ⟨rfl, ?_, rfl⟩
      simp only [incomingConnection, World.log]
      cases w.d.socketNotifier <;> rfl

/-- The synchronous wait either tears the listener down or keeps descriptor, notifier
registration and full path. -/
theorem waitForNewConnection_descriptor_notifier (P : Platform) (poll : PollResult)
    (accept : Except Int Nat) (msec : Int) (t : Option Bool) (w : World) :
    ((waitForNewConnection P poll accept msec t w).2.d.listenSocket = -1 ∧
      (waitForNewConnection P poll accept msec t w).2.d.socketNotifier = none ∧
      (waitForNewConnection P poll accept msec t w).2.d.fullServerName = "") ∨
    ((waitForNewConnection P poll accept msec t w).2.d.listenSocket = w.d.listenSocket ∧
      (waitForNewConnection P poll accept msec t w).2.d.socketNotifier.isSome
        = w.d.socketNotifier.isSome ∧
      (waitForNewConnection P poll accept msec t w).2.d.fullServerName = w.d.fullServerName) := by
  unfold waitForNewConnection
  rcases poll with _ | revents | e
  · right
    exact ⟨rfl, rfl, rfl⟩
  · simp only []
    split_ifs
    · exact onNewConnection_descriptor_notifier P accept _
    · left
      simp only [closeServer_eq]
      exact ⟨rfl, rfl, rfl⟩
  · left
    simp only [closeServer_eq]
    exact ⟨rfl, rfl, rfl⟩

/-- Adopting a descriptor stores it and registers a notifier. -/
theorem listenDescriptor_descriptor_notifier (P : Platform) (ok : Bool)
    (parsed : Option ParsedSockaddr) (fd : Int) (w : World) :
    (listenDescriptor P ok parsed fd w).2.d.listenSocket = fd ∧
    (listenDescriptor P ok parsed fd w).2.d.socketNotifier.isSome = true := by
  unfold listenDescriptor
  cases ok <;> cases parsed <;> exact ⟨rfl, rfl⟩

/-- In every world reached without a `listen(name)` that leaves by the EADDRINUSE branch while
a notifier is registered, and without adopting -1, the descriptor is absent exactly when no
notifier is registered. -/
theorem reachable_descriptor_iff (P : Platform) (w : World)
    (h : Reachable P (keepsDescriptor P) isDescriptor w) :
    w.d.listenSocket = -1 ↔ isBound w.d = false := by
  induction h with
  | init o mp bl e => simp [initial, isBound]
  | listen w os name hw ha ih =>
    rcases listen_descriptor_notifier P os name w ha with ⟨h1, h2⟩ | ⟨h1, h2⟩ | ⟨h1, h2⟩
    · simp [isBound, h1, h2]
    · simp [isBound, h1, h2]
    · rw [h1, ih]
      simp [isBound, h2]
  | listenDescriptor w ok parsed fd hw hfd ih =>
    obtain ⟨h1, h2⟩ := listenDescriptor_descriptor_notifier P ok parsed fd w
    have hfd' : fd ≠ -1 := hfd
    simp [isBound, h1, h2, hfd']
  | closeServer w hw ih => simp [closeServer_eq, isBound, tornDown]
  | onNewConnection w accept hw ih =>
    rcases onNewConnection_descriptor_notifier P accept w with ⟨h1, h2, -⟩ | ⟨h1, h2, -⟩
    · simp [isBound, h1, h2]
    · rw [h1, ih]; simp [isBound, h2]
  | waitForNewConnection w poll accept msec t hw ih =>
    rcases waitForNewConnection_descriptor_notifier P poll accept msec t w with
      ⟨h1, h2, -⟩ | ⟨h1, h2, -⟩
    · simp [isBound, h1, h2]
    · rw [h1, ih]; simp [isBound, h2]
  | otherErrno w e hw ih => exact ih

/-- A `listen(name)` that does not leave by one of the two exits without `closeServer` while
no notifier is registered ends with the full path cleared or with a notifier registered. -/
theorem listen_path_notifier (P : Platform) (os : ListenOutcomes) (name : String) (w : World)
    (hg : w.d.socketNotifier ≠ none ∨
      (¬ (anyFlag (effectiveOptions P w) P.WorldAccessOption = true ∧
            ∃ e, os.tempDir = Except.error e) ∧
        ¬ (os.bind = some P.EADDRINUSE ∧
            ∃ c ∈ issued w (listen P os name w).2, c.isBind = true))) :
    (listen P os name w).2.d.fullServerName = "" ∨
    (listen P os name w).2.d.socketNotifier.isSome = true := by
  have hx := listen_exit P os name w
  generalize listen P os name w = r at hx hg ⊢
  have hsome : ∀ o : Option QSocketNotifier, o ≠ none → o.isSome = true := by
    intro o ho
    cases o with
    | none => exact absurd rfl ho
    | some n => rfl
  cases hx with
  | tempDirFailed e hw ht =>
    right
    rcases hg with hpre | ⟨hno, -⟩
    · refine hsome _ ?_
      show (setErrorWith P _ fnListen _).socketNotifier ≠ none
      rw [(setErrorWith_frame _ _ _ _).2.1]
      exact hpre
    · exact absurd ⟨hw, e, ht⟩ hno
  | viaTempDir dir r hw ht hr =>
    cases hr with
    | bindInUse fd hs hlen hb =>
      right
      rcases hg with hpre | ⟨-, hno⟩
      · refine hsome _ ?_
        show (setErrorWith P _ fnListen _).socketNotifier ≠ none
        rw [(setErrorWith_frame _ _ _ _).2.1]
        exact hpre
      · exfalso
        apply hno
        refine ⟨hb, ?_⟩
        simp only [World.log, named, List.append_assoc, List.cons_append, List.singleton_append,
          List.nil_append, issued_append]
        simp [OsCall.isBind]
    | published fd hs hlen hb hl hw hc hr => right; rfl
    | listening fd hs hlen hb hl hw => right; rfl
    | _ => left; rfl
  | direct r hw hr =>
    cases hr with
    | bindInUse fd hs hlen hb =>
      right
      rcases hg with hpre | ⟨-, hno⟩
      · refine hsome _ ?_
        show (setErrorWith P _ fnListen _).socketNotifier ≠ none
        rw [(setErrorWith_frame _ _ _ _).2.1]
        exact hpre
      · exfalso
        apply hno
        refine ⟨hb, ?_⟩
        simp only [World.log, named, List.append_assoc, List.cons_append, List.singleton_append,
          List.nil_append, issued_append]
        simp [OsCall.isBind]
    | published fd hs hlen hb hl hw hc hr => right; rfl
    | listening fd hs hlen hb hl hw => right; rfl
    | _ => left; rfl

/-- In every world reached without a `listen(name)` that leaves by one of the two exits
without `closeServer` while no notifier is registered, a recorded full path implies a
registered notifier. -/
theorem reachable_path (P : Platform) (w : World)
    (h : Reachable P (keepsPath P) anyDescriptor w) :
    w.d.fullServerName ≠ "" → isBound w.d = true := by
  induction h with
  | init o mp bl e => simp [initial]
  | listen w os name hw ha ih =>
    rcases listen_path_notifier P os name w ha with h1 | h1
    · intro h; exact absurd h1 h
    · intro _; exact h1
  | listenDescriptor w ok parsed fd hw hfd ih =>
    intro _
    exact (listenDescriptor_descriptor_notifier P ok parsed fd w).2
  | closeServer w hw ih =>
    intro h
    exact absurd (closeServer_fullServerName P w) h
  | onNewConnection w accept hw ih =>
    rcases onNewConnection_descriptor_notifier P accept w with ⟨-, -, h3⟩ | ⟨-, h2, h3⟩
    · intro h; exact absurd h3 h
    · intro h
      rw [h3] at h
      simpa [isBound, h2] using ih h
  | waitForNewConnection w poll accept msec t hw ih =>
    rcases waitForNewConnection_descriptor_notifier P poll accept msec t w with
      ⟨-, -, h3⟩ | ⟨-, h2, h3⟩
    · intro h; exact absurd h3 h
    · intro h
      rw [h3] at h
      simpa [isBound, h2] using ih h
  | otherErrno w e hw ih => exact ih

set_option maxRecDepth 100000

/-! ## setError: the classification table -/

/-- C1 as stated fails: the message does not start with the operation name in
every case, and does not always hold the raw errno value.  With errno 9, which
is in no row of the table, the second `arg` scans the operation name too: the
name "%1" gives "9: Unknown error %2" and the name "%2" gives
"9: Unknown error 9", neither of which starts with the name; and where the
default locale writes numbers in Arabic-Indic digits the name "%L1" gives a
message that holds no "9" at all. -/
theorem setError_rescans_operation_name :
    (initial 0 30 50 9).errno ≠ linux.EAGAIN ∧
    (initial 0 30 50 9).errno ∉ [linux.EACCES, linux.ELOOP, linux.ENOENT, linux.ENAMETOOLONG,
      linux.EROFS, linux.ENOTDIR, linux.EADDRINUSE] ∧
    (setError linux "%1" (initial 0 30 50 9)).d.error = SocketError.UnknownSocketError ∧
    (setError linux "%1" (initial 0 30 50 9)).d.errorString = "9: Unknown error %2" ∧
    (¬ ∃ rest, (setError linux "%1" (initial 0 30 50 9)).d.errorString = "%1" ++ rest) ∧
    (setError linux "%2" (initial 0 30 50 9)).d.errorString = "9: Unknown error 9" ∧
    (¬ ∃ rest, (setError linux "%2" (initial 0 30 50 9)).d.errorString = "%2" ++ rest) ∧
    (setError linuxArabic "%L1" (initial 0 30 50 9)).d.errorString.data
      = Char.ofNat 1641 :: ": Unknown error %2".data ∧
    (¬ ∃ pre post : String, (setError linuxArabic "%L1" (initial 0 30 50 9)).d.errorString
      = pre ++ toString ((initial 0 30 50 9).errno) ++ post) := by
  have h1 : (setError linux "%1" (initial 0 30 50 9)).d.errorString = "9: Unknown error %2" := by
    decide
  have h2 : (setError linux "%2" (initial 0 30 50 9)).d.errorString = "9: Unknown error 9" := by
    decide
  have h3 : (setError linuxArabic "%L1" (initial 0 30 50 9)).d.errorString.data
      = Char.ofNat 1641 :: ": Unknown error %2".data := by
    decide
  refine ⟨by decide, by decide, by decide, h1, ?_, h2, ?_, h3, ?_⟩
  · rintro ⟨rest, h⟩
    rw [h1] at h
    have hd := congrArg String.data h
    rw [String.data_append] at hd
    exact absurd (List.cons.inj hd).1 (by decide)
  · rintro ⟨rest, h⟩
    rw [h2] at h
    have hd := congrArg String.data h
    rw [String.data_append] at hd
    exact absurd (List.cons.inj hd).1 (by decide)
  · rintro ⟨pre, post, h⟩
    have hd := congrArg String.data h
    rw [h3, String.data_append, String.data_append] at hd
    have hmem : '9' ∈ Char.ofNat 1641 :: ": Unknown error %2".data := by
      rw [hd]
      have : toString ((initial 0 30 50 9).errno) = "9" := by decide
      rw [this]
      simp
    exact absurd hmem (by decide)

/-- C1, amended: for every errno other than EAGAIN, `setError` records the kind of
the table: EACCES gives the permission error (`SocketAccessError`); ELOOP,
ENOENT, ENAMETOOLONG, EROFS and ENOTDIR give the name error
(`HostNotFoundError`); EADDRINUSE gives `AddressInUseError`; every other value
gives `UnknownSocketError`.  For the three classified kinds the message is the
operation name passed in followed by the fixed text, whatever the name is.  The
unknown-error message holds the errno value, in decimal or as the default
locale writes it; when every place marker of the name is numbered above 2 it is
the name followed by ": Unknown error " and the decimal errno value.  So the
message starts with the name in every row but the last, and in the last under
that condition.  Nothing but the kind and the message changes.  The hypotheses
on the platform are that the labels of the `switch` are pairwise different, as
C itself imposes, and that the scan of `arg` reads the `%1` and `%2` of the
message templates as place markers. -/
theorem setError_classifies (P : Platform) (function : String) (w : World)
    (hlabels : P.CaseLabelsDistinct) (hdigits : P.ArgDigitsKnown) (hne : w.errno ≠ P.EAGAIN) :
    (w.errno = P.EACCES →
      (setError P function w).d.error = SocketError.SocketAccessError ∧
      (setError P function w).d.errorString = function ++ ": Permission denied") ∧
    (w.errno ∈ [P.ELOOP, P.ENOENT, P.ENAMETOOLONG, P.EROFS, P.ENOTDIR] →
      (setError P function w).d.error = SocketError.HostNotFoundError ∧
      (setError P function w).d.errorString = function ++ ": Name error") ∧
    (w.errno = P.EADDRINUSE →
      (setError P function w).d.error = SocketError.AddressInUseError ∧
      (setError P function w).d.errorString = function ++ ": Address in use") ∧
    (w.errno ∉ [P.EACCES, P.ELOOP, P.ENOENT, P.ENAMETOOLONG, P.EROFS, P.ENOTDIR, P.EADDRINUSE] →
      (setError P function w).d.error = SocketError.UnknownSocketError ∧
      (∃ pre post : String,
        (setError P function w).d.errorString = pre ++ toString w.errno ++ post ∨
        (setError P function w).d.errorString = pre ++ P.localeNumber w.errno ++ post) ∧
      (markersAbove 2 (tokenize P 0 function.data) = true →
        (setError P function w).d.errorString
          = function ++ (": Unknown error " ++ toString w.errno))) ∧
    ((w.errno ∈ [P.EACCES, P.ELOOP, P.ENOENT, P.ENAMETOOLONG, P.EROFS, P.ENOTDIR, P.EADDRINUSE] ∨
        markersAbove 2 (tokenize P 0 function.data) = true) →
      ∃ rest, (setError P function w).d.errorString = function ++ rest) ∧
    (setError P function w).d
      = { w.d with error := (setError P function w).d.error,
                   errorString := (setError P function w).d.errorString } := by
  have hne' : ¬ P.EAGAIN = w.errno := fun h => hne h.symm
  simp only [Platform.CaseLabelsDistinct, List.nodup_cons, List.mem_cons, List.mem_singleton,
    List.not_mem_nil, not_or, List.nodup_nil, or_false, and_true, not_false_eq_true] at hlabels
  obtain ⟨⟨h12, h13, h14, h15, h16, h17⟩, ⟨h23, h24, h25, h26, h27⟩, ⟨h34, h35, h36, h37⟩,
    ⟨h45, h46, h47⟩, ⟨h56, h57⟩, h67⟩ := hlabels
  obtain ⟨tp, tn, ta⟩ := classified_texts P hdigits function
  simp only [setError, setErrorWith, if_neg hne', List.mem_cons, List.mem_singleton,
    List.not_mem_nil, or_false, not_or]
  refine ⟨?_, ?_, ?_, ?_, ?_, ?_⟩
  · intro h
    simp only [if_pos h]
    exact ⟨trivial, tp⟩
  · intro h
    have hacc : ¬ w.errno = P.EACCES := by
      rcases h with h | h | h | h | h <;> rw [h] <;> intro h' <;> simp_all
    simp only [if_neg hacc, if_pos h]
    exact ⟨trivial, tn⟩
  · intro h
    have hacc : ¬ w.errno = P.EACCES := by rw [h]; exact fun h' => h17 h'.symm
    have hname : ¬ (w.errno = P.ELOOP ∨ w.errno = P.ENOENT ∨ w.errno = P.ENAMETOOLONG ∨
        w.errno = P.EROFS ∨ w.errno = P.ENOTDIR) := by
      rw [h]
      intro h'
      rcases h' with h' | h' | h' | h' | h' <;> simp_all
    simp only [if_neg hacc, if_neg hname, if_pos h]
    exact ⟨trivial, ta⟩
  · rintro ⟨a, b, c, d, e, f, g⟩
    have hname : ¬ (w.errno = P.ELOOP ∨ w.errno = P.ENOENT ∨ w.errno = P.ENAMETOOLONG ∨
        w.errno = P.EROFS ∨ w.errno = P.ENOTDIR) := by
      rintro (h | h | h | h | h) <;> contradiction
    simp only [if_neg a, if_neg hname, if_neg g]
    exact ⟨trivial, unknownErrorText_contains P hdigits function w.errno,
      fun hm => unknownErrorText_eq P hdigits function w.errno hm⟩
  · intro h
    split_ifs
    · exact ⟨_, tp⟩
    · exact ⟨_, tn⟩
    · exact ⟨_, ta⟩
    · rename_i ha hn hu
      rcases h with h | h
      · exfalso
        rcases h with h | h | h | h | h | h | h
        · exact ha h
        · exact hn (Or.inl h)
        · exact hn (Or.inr (Or.inl h))
        · exact hn (Or.inr (Or.inr (Or.inl h)))
        · exact hn (Or.inr (Or.inr (Or.inr (Or.inl h))))
        · exact hn (Or.inr (Or.inr (Or.inr (Or.inr h))))
        · exact hu h
      · exact ⟨_, unknownErrorText_eq P hdigits function w.errno h⟩
  · split_ifs <;> rfl

/-- C1, amended, at concrete inputs: on the sample platform, with the operation
name "QLocalServer::listen", errno 13 (EACCES) is recorded as the permission
error with the message "QLocalServer::listen: Permission denied", and errno 9
as the unknown error with the message "QLocalServer::listen: Unknown error 9". -/
theorem setError_classifies_witness :
    ((setError linux "QLocalServer::listen" (initial 0 30 50 13)).d.error
        = SocketError.SocketAccessError ∧
      (setError linux "QLocalServer::listen" (initial 0 30 50 13)).d.errorString
        = "QLocalServer::listen" ++ ": Permission denied") ∧
    (setError linux "QLocalServer::listen" (initial 0 30 50 9)).d.errorString
      = "QLocalServer::listen" ++ (": Unknown error " ++ toString (initial 0 30 50 9).errno) :=
  ⟨(setError_classifies linux "QLocalServer::listen" (initial 0 30 50 13)
      (by decide) (by decide) (by decide)).1 rfl,
   ((setError_classifies linux "QLocalServer::listen" (initial 0 30 50 9)
      (by decide) (by decide) (by decide)).2.2.2.1 (by decide)).2.2 (by decide)⟩

/-! ## setError: EAGAIN is not an error -/

/-- C2: `setError` called while errno is EAGAIN returns the world it was given,
so the kind and the message stay exactly as they were; for every other errno
the kind and the message it leaves are functions of errno and of the operation
name alone, so whatever was recorded before is overwritten. -/
theorem setError_eagain_keeps_else_overwrites (P : Platform) (function : String) (w : World) :
    (w.errno = P.EAGAIN → setError P function w = w) ∧
    (w.errno ≠ P.EAGAIN → ∀ w2 : World, w2.errno = w.errno →
      (setError P function w2).d.error = (setError P function w).d.error ∧
      (setError P function w2).d.errorString = (setError P function w).d.errorString) := by
  constructor
  · intro h
    obtain ⟨d, e, calls⟩ := w
    simp only [setError, setErrorWith]
    rw [if_pos h.symm]
  · intro h w2 h2
    have hne : ¬ P.EAGAIN = w.errno := fun h' => h h'.symm
    simp only [setError, setErrorWith, h2, if_neg hne]
    split_ifs <;> exact ⟨rfl, rfl⟩

/-- C2, at concrete inputs: with errno 11 (EAGAIN) a recorded address-in-use
error survives; with errno 2 (ENOENT) the record is the same whatever was
recorded before. -/
theorem setError_eagain_keeps_else_overwrites_witness :
    setError linux "QLocalServer::listen"
        (setError linux "QLocalServer::listen" (initial 0 30 50 98))
      = setError linux "QLocalServer::listen" (initial 0 30 50 98) ∧
    (setError linux "QLocalServer::listen"
        { setError linux "QLocalServer::listen" (initial 0 30 50 98) with errno := 2 }).d.error
      = (setError linux "QLocalServer::listen" (initial 0 30 50 2)).d.error := by
  refine ⟨?_, ?_⟩
  · decide
  · exact ((setError_eagain_keeps_else_overwrites linux "QLocalServer::listen"
      (initial 0 30 50 2)).2 (by decide) _ rfl).1

/-! ## listen(name): bind fails with EADDRINUSE -/

/-- C3 as stated fails: with WorldAccess (options 7) on the sample platform,
`listen("foo")` whose `bind` fails with EADDRINUSE (98) reaches `bind`, returns
false with the address-in-use error and descriptor -1, and still issues the
removal of a filesystem entry: the temporary directory "/tmp/qt-Ab12Cd" that
the call created is removed when its `QTemporaryDir` is destroyed. -/
theorem bind_in_use_removes_temporary_directory :
    anyFlag (effectiveOptions linux (initial 7 30 50 0)) linux.WorldAccessOption = true ∧
    (∃ c ∈ issued (initial 7 30 50 0)
        (listen linux { allSucceed with bind := some 98 } "foo" (initial 7 30 50 0)).2,
      c.isBind = true) ∧
    (listen linux { allSucceed with bind := some 98 } "foo" (initial 7 30 50 0)).1 = false ∧
    (listen linux { allSucceed with bind := some 98 } "foo" (initial 7 30 50 0)).2.d.error
      = SocketError.AddressInUseError ∧
    (listen linux { allSucceed with bind := some 98 } "foo" (initial 7 30 50 0)).2.d.listenSocket
      = -1 ∧
    OsCall.tempDirRemove "/tmp/qt-Ab12Cd" ∈
      issued (initial 7 30 50 0)
        (listen linux { allSucceed with bind := some 98 } "foo" (initial 7 30 50 0)).2 := by
  decide

/-- C3, amended: when `listen(name)` gets as far as `bind` and `bind` fails with
EADDRINUSE, it returns false, the recorded kind is `AddressInUseError`, the
descriptor obtained from `socket` is closed and the descriptor field is -1
afterwards, and no `QFile::remove` is issued; the only removal of a filesystem
entry the call can issue is that of the temporary directory it created itself,
which happens in the WorldAccess form only. -/
theorem listen_bind_in_use_keeps_files (P : Platform) (os : ListenOutcomes) (name : String)
    (w : World)
    (hlabels : P.CaseLabelsDistinct) (hne : P.EADDRINUSE ≠ P.EAGAIN)
    (hb : os.bind = some P.EADDRINUSE)
    (hreach : ∃ c ∈ issued w (listen P os name w).2, c.isBind = true) :
    (listen P os name w).1 = false ∧
    (listen P os name w).2.d.error = SocketError.AddressInUseError ∧
    (listen P os name w).2.d.listenSocket = -1 ∧
    (∃ fd : Nat, os.socket = Except.ok fd ∧
      OsCall.close fd ∈ issued w (listen P os name w).2) ∧
    (∀ p, OsCall.fileRemove p ∉ issued w (listen P os name w).2) ∧
    (∀ p, OsCall.tempDirRemove p ∈ issued w (listen P os name w).2 →
      anyFlag (effectiveOptions P w) P.WorldAccessOption = true ∧ os.tempDir = Except.ok p) := by
  have hx := listen_exit P os name w
  generalize listen P os name w = r at hx hreach ⊢
  cases hx with
  | tempDirFailed e hw ht =>
    simp [issued_append, OsCall.isBind] at hreach
  | viaTempDir dir r hw ht hr =>
    cases hr with
    | bindInUse fd hs hlen hb' =>
      refine ⟨rfl, setErrorWith_addressInUse P _ _ hlabels hne, rfl, ⟨fd, hs, ?_⟩, ?_, ?_⟩ <;>
        simp only [World.log, named, List.append_assoc, List.cons_append, List.singleton_append,
          List.nil_append, issued_append]
      · simp
      · simp
      · intro p hp
        simp at hp
        exact ⟨hw, by rw [ht, hp]⟩
    | socketFailed e hs =>
      exfalso
      simp only [World.log, named, List.append_assoc, List.cons_append, List.singleton_append,
        List.nil_append, issued_append] at hreach
      simp only [List.mem_cons, List.mem_append, List.mem_singleton, List.not_mem_nil, or_false] at hreach
      obtain ⟨c, hc, hcb⟩ := hreach
      rcases hc with hc | hc | hc | hc
      · subst hc; simp [OsCall.isBind] at hcb
      · subst hc; simp [OsCall.isBind] at hcb
      · exact not_isBind_of_mem_closeCalls P _ ⟨c, hc, hcb⟩
      · subst hc; simp [OsCall.isBind] at hcb
    | tooLong fd hs hlen =>
      exfalso
      simp only [World.log, named, List.append_assoc, List.cons_append, List.singleton_append,
        List.nil_append, issued_append] at hreach
      simp only [List.mem_cons, List.mem_append, List.mem_singleton, List.not_mem_nil, or_false] at hreach
      obtain ⟨c, hc, hcb⟩ := hreach
      rcases hc with hc | hc | hc | hc
      · subst hc; simp [OsCall.isBind] at hcb
      · subst hc; simp [OsCall.isBind] at hcb
      · exact not_isBind_of_mem_closeCalls P _ ⟨c, hc, hcb⟩
      · subst hc; simp [OsCall.isBind] at hcb
    | bindFailed fd e hs hlen hb' he => rw [hb] at hb'; exact absurd (Option.some.inj hb').symm he
    | listenFailed fd e hs hlen hb' hl => rw [hb] at hb'; cases hb'
    | chmodFailed fd e hs hlen hb' hl hw hc => rw [hb] at hb'; cases hb'
    | renameFailed fd e hs hlen hb' hl hw hc hr => rw [hb] at hb'; cases hb'
    | published fd hs hlen hb' hl hw hc hr => rw [hb] at hb'; cases hb'
    | listening fd hs hlen hb' hl hw => rw [hb] at hb'; cases hb'
  | direct r hw hr =>
    cases hr with
    | bindInUse fd hs hlen hb' =>
      refine ⟨rfl, setErrorWith_addressInUse P _ _ hlabels hne, rfl, ⟨fd, hs, ?_⟩, ?_, ?_⟩ <;>
        simp only [World.log, named, List.append_assoc, List.cons_append, List.singleton_append,
          List.nil_append, issued_append] <;> simp
    | socketFailed e hs =>
      exfalso
      simp only [World.log, named, List.append_assoc, List.cons_append, List.singleton_append,
        List.nil_append, issued_append] at hreach
      simp only [List.mem_cons, List.mem_append, List.mem_singleton, List.not_mem_nil, or_false] at hreach
      obtain ⟨c, hc, hcb⟩ := hreach
      rcases hc with hc | hc
      · subst hc; simp [OsCall.isBind] at hcb
      · exact not_isBind_of_mem_closeCalls P _ ⟨c, hc, hcb⟩
    | tooLong fd hs hlen =>
      exfalso
      simp only [World.log, named, List.append_assoc, List.cons_append, List.singleton_append,
        List.nil_append, issued_append] at hreach
      simp only [List.mem_cons, List.mem_append, List.mem_singleton, List.not_mem_nil, or_false] at hreach
      obtain ⟨c, hc, hcb⟩ := hreach
      rcases hc with hc | hc
      · subst hc; simp [OsCall.isBind] at hcb
      · exact not_isBind_of_mem_closeCalls P _ ⟨c, hc, hcb⟩
    | bindFailed fd e hs hlen hb' he => rw [hb] at hb'; exact absurd (Option.some.inj hb').symm he
    | listenFailed fd e hs hlen hb' hl => rw [hb] at hb'; cases hb'
    | chmodFailed fd e hs hlen hb' hl hw hc => rw [hb] at hb'; cases hb'
    | renameFailed fd e hs hlen hb' hl hw hc hr => rw [hb] at hb'; cases hb'
    | published fd hs hlen hb' hl hw hc hr => rw [hb] at hb'; cases hb'
    | listening fd hs hlen hb' hl hw => rw [hb] at hb'; cases hb'

/-- C3, amended, at concrete inputs: on the sample platform, `bind` failing with
errno 98 (EADDRINUSE) makes `listen("foo")` return false with the
address-in-use error and without any `QFile::remove`, both with options 0 and
with WorldAccess (options 7); in the latter the one directory removed is the
temporary directory the call created. -/
theorem listen_bind_in_use_keeps_files_witness :
    ((listen linux { allSucceed with bind := some 98 } "foo" (initial 0 30 50 0)).1 = false ∧
      (listen linux { allSucceed with bind := some 98 } "foo" (initial 0 30 50 0)).2.d.error
        = SocketError.AddressInUseError) ∧
    ((listen linux { allSucceed with bind := some 98 } "foo" (initial 7 30 50 0)).1 = false ∧
      (listen linux { allSucceed with bind := some 98 } "foo" (initial 7 30 50 0)).2.d.error
        = SocketError.AddressInUseError ∧
      (∀ p, OsCall.fileRemove p ∉ issued (initial 7 30 50 0)
        (listen linux { allSucceed with bind := some 98 } "foo" (initial 7 30 50 0)).2) ∧
      (∀ p, OsCall.tempDirRemove p ∈ issued (initial 7 30 50 0)
          (listen linux { allSucceed with bind := some 98 } "foo" (initial 7 30 50 0)).2 →
        p = "/tmp/qt-Ab12Cd")) :=
  ⟨⟨(listen_bind_in_use_keeps_files linux { allSucceed with bind := some 98 } "foo"
      (initial 0 30 50 0) (by decide) (by decide) rfl (by decide)).1,
    (listen_bind_in_use_keeps_files linux { allSucceed with bind := some 98 } "foo"
      (initial 0 30 50 0) (by decide) (by decide) rfl (by decide)).2.1⟩,
   ⟨(listen_bind_in_use_keeps_files linux { allSucceed with bind := some 98 } "foo"
      (initial 7 30 50 0) (by decide) (by decide) rfl (by decide)).1,
    (listen_bind_in_use_keeps_files linux { allSucceed with bind := some 98 } "foo"
      (initial 7 30 50 0) (by decide) (by decide) rfl (by decide)).2.1,
    (listen_bind_in_use_keeps_files linux { allSucceed with bind := some 98 } "foo"
      (initial 7 30 50 0) (by decide) (by decide) rfl (by decide)).2.2.2.2.1,
    fun p hp => (Except.ok.inj
      ((listen_bind_in_use_keeps_files linux { allSucceed with bind := some 98 } "foo"
        (initial 7 30 50 0) (by decide) (by decide) rfl (by decide)).2.2.2.2.2 p hp).2).symm⟩⟩

/-! ## Invariants of the reachable states -/

/-- C4 as stated fails, in both halves; the four worlds below are reached from
the initial closed state by the operations of the claim.  After a
`listen("foo")` whose `bind` fails with EADDRINUSE, and after a `listen("foo")`
with WorldAccess whose temporary directory cannot be created, the full path
"/tmp/foo" is recorded although the listener is not bound.  After a
`listen("foo")` on the bound sample listener whose `bind` fails with
EADDRINUSE, and after `listen(descriptor)` is handed -1, the descriptor is the
absent sentinel although a notifier is registered. -/
theorem reachable_invariant_fails :
    (Reachable linux anyListen anyDescriptor
        (listen linux { allSucceed with bind := some 98 } "foo" (initial 0 30 50 0)).2 ∧
      (listen linux { allSucceed with bind := some 98 } "foo"
        (initial 0 30 50 0)).2.d.fullServerName = "/tmp/foo" ∧
      isBound (listen linux { allSucceed with bind := some 98 } "foo"
        (initial 0 30 50 0)).2.d = false) ∧
    (Reachable linux anyListen anyDescriptor
        (listen linux { allSucceed with tempDir := Except.error 13 } "foo"
          (initial 7 30 50 0)).2 ∧
      (listen linux { allSucceed with tempDir := Except.error 13 } "foo"
        (initial 7 30 50 0)).2.d.fullServerName = "/tmp/foo" ∧
      isBound (listen linux { allSucceed with tempDir := Except.error 13 } "foo"
        (initial 7 30 50 0)).2.d = false) ∧
    (Reachable linux anyListen anyDescriptor
        (listen linux { allSucceed with bind := some 98 } "foo" (boundSample 30)).2 ∧
      (listen linux { allSucceed with bind := some 98 } "foo"
        (boundSample 30)).2.d.listenSocket = -1 ∧
      isBound (listen linux { allSucceed with bind := some 98 } "foo"
        (boundSample 30)).2.d = true) ∧
    (Reachable linux anyListen anyDescriptor
        (listenDescriptor linux false none (-1) (initial 0 30 50 0)).2 ∧
      (listenDescriptor linux false none (-1) (initial 0 30 50 0)).2.d.listenSocket = -1 ∧
      isBound (listenDescriptor linux false none (-1) (initial 0 30 50 0)).2.d = true) :=
  ⟨⟨Reachable.listen _ _ "foo" (Reachable.init 0 30 50 0) trivial, by decide, by decide⟩,
   ⟨Reachable.listen _ _ "foo" (Reachable.init 7 30 50 0) trivial, by decide, by decide⟩,
   ⟨Reachable.listen _ _ "foo"
      (Reachable.listen _ allSucceed "foo" (Reachable.init 0 30 50 0) trivial) trivial,
    by decide, by decide⟩,
   ⟨Reachable.listenDescriptor _ false none (-1) (Reachable.init 0 30 50 0) trivial,
    by decide, by decide⟩⟩

/-- C4, amended.  The listener is bound when its read notifier is registered.
In every world reached from the initial closed state by the five operations,
whatever the operating system answers, provided no `listen(name)` made while a
notifier is registered leaves by the EADDRINUSE branch of `bind` and
`listen(descriptor)` is not handed -1, the descriptor is the absent sentinel if
and only if the listener is not bound.  In every world so reached, provided no
`listen(name)` made while no notifier is registered leaves by the
temporary-directory failure or by the EADDRINUSE branch of `bind`, a non-empty
full path implies that the listener is bound. -/
theorem reachable_descriptor_absent_iff_unbound (P : Platform) :
    (∀ w, Reachable P (keepsDescriptor P) isDescriptor w →
      (w.d.listenSocket = -1 ↔ isBound w.d = false)) ∧
    (∀ w, Reachable P (keepsPath P) anyDescriptor w →
      w.d.fullServerName ≠ "" → isBound w.d = true) :=
  ⟨fun w h => reachable_descriptor_iff P w h, fun w h => reachable_path P w h⟩

/-- C4, amended, at concrete worlds: the first half after a `listen("foo")` from
the initial state whose `bind` fails with EADDRINUSE (the descriptor is absent
and the listener is not bound), and both halves after a successful
`listen("foo")`. -/
theorem reachable_descriptor_absent_iff_unbound_witness :
    ((listen linux { allSucceed with bind := some 98 } "foo" (initial 0 30 50 0)).2.d.listenSocket
        = -1 ↔
      isBound (listen linux { allSucceed with bind := some 98 } "foo"
        (initial 0 30 50 0)).2.d = false) ∧
    ((listen linux allSucceed "foo" (initial 0 30 50 0)).2.d.listenSocket = -1 ↔
      isBound (listen linux allSucceed "foo" (initial 0 30 50 0)).2.d = false) ∧
    ((listen linux allSucceed "foo" (initial 0 30 50 0)).2.d.fullServerName ≠ "" →
      isBound (listen linux allSucceed "foo" (initial 0 30 50 0)).2.d = true) :=
  ⟨(reachable_descriptor_absent_iff_unbound linux).1 _
      (Reachable.listen _ { allSucceed with bind := some 98 } "foo" (Reachable.init 0 30 50 0)
        (Or.inl rfl)),
   (reachable_descriptor_absent_iff_unbound linux).1 _
      (Reachable.listen _ allSucceed "foo" (Reachable.init 0 30 50 0) (Or.inl rfl)),
   (reachable_descriptor_absent_iff_unbound linux).2 _
      (Reachable.listen _ allSucceed "foo" (Reachable.init 0 30 50 0)
        (Or.inr ⟨fun h => absurd h.1 (by decide), fun h => absurd h.1 (by decide)⟩))⟩

/-! ## optionsForPlatform -/

/-- C5: for options that include AbstractNamespace `optionsForPlatform` returns
AbstractNamespace when the platform supports it and WorldAccess when it does
not; options without AbstractNamespace come back unchanged.  The downgrade is
not an error: on a platform without support, a `listen(name)` with
AbstractNamespace requested whose operating-system calls all succeed, and whose
names fit, returns true and leaves the last error kind and message untouched. -/
theorem optionsForPlatform_downgrade (P : Platform) (o : Nat) :
    (testFlag o P.AbstractNamespaceOption = true →
      optionsForPlatform P o =
        if P.PlatformSupportsAbstractNamespace then P.AbstractNamespaceOption
        else P.WorldAccessOption) ∧
    (testFlag o P.AbstractNamespaceOption = false → optionsForPlatform P o = o) ∧
    (∀ (os : ListenOutcomes) (name : String) (w : World) (dir : String) (fd : Nat),
      P.PlatformSupportsAbstractNamespace = false →
      w.d.socketOptions = o →
      testFlag o P.AbstractNamespaceOption = true →
      os.tempDir = Except.ok dir → os.socket = Except.ok fd →
      os.bind = none → os.listen = none → os.chmod = none → os.rename = none →
      passesLengthChecks P P.WorldAccessOption (P.encodeName (dir ++ "/s"))
        (P.encodeName (resolveFullServerName P P.WorldAccessOption name)) = true →
      (listen P os name w).1 = true ∧
      (listen P os name w).2.d.error = w.d.error ∧
      (listen P os name w).2.d.errorString = w.d.errorString) := by
  refine ⟨?_, ?_, ?_⟩
  · intro h
    simp [optionsForPlatform, h]
  · intro h
    simp [optionsForPlatform, h]
  · intro os name w dir fd hP ho ha ht hs hb hl hc hr hlen
    have heff : effectiveOptions P w = P.WorldAccessOption := by
      simp [effectiveOptions, optionsForPlatform, ho, ha, hP]
    have hx := listen_exit P os name w
    generalize listen P os name w = r at hx ⊢
    cases hx with
    | tempDirFailed e hw ht' => rw [ht] at ht'; cases ht'
    | viaTempDir dir' r hw ht' hr' =>
      rw [ht] at ht'
      cases ht'
      cases hr' with
      | socketFailed e hs' => rw [hs] at hs'; cases hs'
      | tooLong fd' hs' hlen' =>
        simp only [named, heff] at hlen'
        rw [hlen] at hlen'
        cases hlen'
      | bindInUse fd' hs' hlen' hb' => rw [hb] at hb'; cases hb'
      | bindFailed fd' e hs' hlen' hb' he => rw [hb] at hb'; cases hb'
      | listenFailed fd' e hs' hlen' hb' hl' => rw [hl] at hl'; cases hl'
      | chmodFailed fd' e hs' hlen' hb' hl' hw' hc' => rw [hc] at hc'; cases hc'
      | renameFailed fd' e hs' hlen' hb' hl' hw' hc' hr' => rw [hr] at hr'; cases hr'
      | published fd' hs' hlen' hb' hl' hw' hc' hr' => exact ⟨rfl, rfl, rfl⟩
      | listening fd' hs' hlen' hb' hl' hw' => exact ⟨rfl, rfl, rfl⟩
    | direct r hw hr' =>
      cases hr' with
      | socketFailed e hs' => rw [hs] at hs'; cases hs'
      | tooLong fd' hs' hlen' =>
        simp only [named, heff] at hlen'
        rw [heff] at hw
        rw [passesLengthChecks_nil P _ (P.encodeName (dir ++ "/s")) _ hw, hlen] at hlen'
        cases hlen'
      | bindInUse fd' hs' hlen' hb' => rw [hb] at hb'; cases hb'
      | bindFailed fd' e hs' hlen' hb' he => rw [hb] at hb'; cases hb'
      | listenFailed fd' e hs' hlen' hb' hl' => rw [hl] at hl'; cases hl'
      | chmodFailed fd' e hs' hlen' hb' hl' hw' hc' => rw [hc] at hc'; cases hc'
      | renameFailed fd' e hs' hlen' hb' hl' hw' hc' hr' => rw [hr] at hr'; cases hr'
      | published fd' hs' hlen' hb' hl' hw' hc' hr' => exact ⟨rfl, rfl, rfl⟩
      | listening fd' hs' hlen' hb' hl' hw' => exact ⟨rfl, rfl, rfl⟩

/-- C5, at concrete inputs: AbstractNamespace (8) becomes WorldAccess (7) without
support and stays 8 with it, options 3 come back unchanged, and the downgraded
`listen("foo")` succeeds. -/
theorem optionsForPlatform_downgrade_witness :
    optionsForPlatform bsd 8 = 7 ∧ optionsForPlatform linux 8 = 8 ∧
    optionsForPlatform bsd 3 = 3 ∧
    (listen bsd allSucceed "foo" (initial 8 30 50 0)).1 = true :=
  ⟨(optionsForPlatform_downgrade bsd 8).1 (by decide),
    (optionsForPlatform_downgrade linux 8).1 (by decide),
    (optionsForPlatform_downgrade bsd 3).2.1 (by decide),
    ((optionsForPlatform_downgrade bsd 8).2.2 allSucceed "foo" (initial 8 30 50 0)
      "/tmp/qt-Ab12Cd" 5 rfl rfl (by decide) rfl rfl rfl rfl rfl rfl (by decide)).1⟩

/-! ## listen(name): the resolved full path -/

/-- C6 as stated fails: with AbstractNamespace effective, `listen("foo")`
succeeds and the full path is "foo" itself although "foo" does not start with
a slash; it is not the temporary directory path followed by "/foo". -/
theorem abstract_name_not_prefixed :
    (listen linux allSucceed "foo" (initial 8 30 50 0)).1 = true ∧
    (listen linux allSucceed "foo" (initial 8 30 50 0)).2.d.fullServerName = "foo" ∧
    startsWith "foo" '/' = false ∧
    (listen linux allSucceed "foo" (initial 8 30 50 0)).2.d.fullServerName
      ≠ linux.tempPath ++ "/" ++ "foo" := by
  decide

/-- C6, amended: the full path that `listen(name)` resolves is the name itself
when the name starts with a slash or the effective (platform-adjusted) options
include AbstractNamespace, and otherwise the cleaned temporary-directory path
followed by a slash and the name; a successful `listen(name)` leaves exactly
this path in `fullServerName` and the requested name in `serverName`. -/
theorem listen_resolves_full_path (P : Platform) (os : ListenOutcomes) (name : String) (w : World) :
    resolveFullServerName P (effectiveOptions P w) name
      = (if startsWith name '/' = true ∨
            testFlag (effectiveOptions P w) P.AbstractNamespaceOption = true
          then name else P.tempPath ++ "/" ++ name) ∧
    ((listen P os name w).1 = true →
      (listen P os name w).2.d.fullServerName
        = resolveFullServerName P (effectiveOptions P w) name ∧
      (listen P os name w).2.d.serverName = name) := by
  constructor
  · unfold resolveFullServerName
    by_cases h1 : startsWith name '/' = true <;>
    by_cases h2 : testFlag (effectiveOptions P w) P.AbstractNamespaceOption = true <;>
    simp [h1, h2]
  · intro hok
    have hx := listen_exit P os name w
    generalize listen P os name w = r at hx hok ⊢
    cases hx with
    | tempDirFailed e hw ht => cases hok
    | viaTempDir dir r hw ht hr =>
      cases hr with
      | published fd hs hlen hb hl hw hc hr => exact ⟨rfl, rfl⟩
      | listening fd hs hlen hb hl hw => exact ⟨rfl, rfl⟩
      | _ => cases hok
    | direct r hw hr =>
      cases hr with
      | published fd hs hlen hb hl hw hc hr => exact ⟨rfl, rfl⟩
      | listening fd hs hlen hb hl hw => exact ⟨rfl, rfl⟩
      | _ => cases hok

/-- C6, at a concrete input: `listen("foo")` without AbstractNamespace records
"/tmp/foo". -/
theorem listen_resolves_full_path_witness :
    (listen linux allSucceed "foo" (initial 0 30 50 0)).2.d.fullServerName
      = resolveFullServerName linux (effectiveOptions linux (initial 0 30 50 0)) "foo" ∧
    resolveFullServerName linux (effectiveOptions linux (initial 0 30 50 0)) "foo" = "/tmp/foo" :=
  ⟨((listen_resolves_full_path linux allSucceed "foo" (initial 0 30 50 0)).2 (by decide)).1,
    by decide⟩

/-! ## listen(name): the length check -/

/-- C7, the code at the failing input: on the sample platform (abstract namespace
supported, `sun_path` of 108 bytes), with options 0 and every call succeeding,
the filesystem-form name of 107 bytes, which fits the buffer together with its
final NUL, is refused by the length check of line 147: `listen` returns false
and never calls `bind`.  Line 145 takes the overhead 2 from the compile-time
constant, against the comment of line 144 (2 is for the abstract namespace) and
the sibling check of line 161 (1 for a filesystem path). -/
theorem filesystem_name_capacity_minus_one_rejected :
    (linux.encodeName (resolveFullServerName linux (effectiveOptions linux (initial 0 30 50 0))
      name107)).length = linux.sunPathSize - 1 ∧
    testFlag (effectiveOptions linux (initial 0 30 50 0)) linux.AbstractNamespaceOption = false ∧
    (listen linux allSucceed name107 (initial 0 30 50 0)).1 = false ∧
    ¬ ∃ c ∈ issued (initial 0 30 50 0) (listen linux allSucceed name107 (initial 0 30 50 0)).2,
        c.isBind = true := by
  decide

/-- The length check as line 147 performs it: once the socket exists (and, for
WorldAccess, the temporary directory exists and its path fits), `listen(name)`
refuses the name for its length, returning false without calling `bind`,
exactly when the encoded resolved name plus `extraCharacters` exceeds the
capacity of `sun_path`; `extraCharacters` is 2 on a platform that supports the
abstract namespace, whatever the effective address form, and 1 on a platform
that does not. -/
theorem length_check_overhead_by_platform (P : Platform) (os : ListenOutcomes) (name : String)
    (w : World) (fd : Nat)
    (hs : os.socket = Except.ok fd)
    (htmp : anyFlag (effectiveOptions P w) P.WorldAccessOption = true →
      ∃ dir, os.tempDir = Except.ok dir ∧
        (P.encodeName (dir ++ "/s")).length + 1 ≤ P.sunPathSize) :
    (((listen P os name w).1 = false ∧
        ¬ ∃ c ∈ issued w (listen P os name w).2, c.isBind = true) ↔
      P.sunPathSize <
        (P.encodeName (resolveFullServerName P (effectiveOptions P w) name)).length +
          (if P.PlatformSupportsAbstractNamespace then 2 else 1)) := by
  have hpass : ∀ tp : List Nat,
      (anyFlag (effectiveOptions P w) P.WorldAccessOption = true → tp.length + 1 ≤ P.sunPathSize) →
      (passesLengthChecks P (effectiveOptions P w) tp
          (P.encodeName (resolveFullServerName P (effectiveOptions P w) name)) = false ↔
        P.sunPathSize <
          (P.encodeName (resolveFullServerName P (effectiveOptions P w) name)).length +
            (if P.PlatformSupportsAbstractNamespace then 2 else 1)) := by
    intro tp htp
    simp only [passesLengthChecks, nameTooLong, extraCharacters, Bool.and_eq_false_iff,
      Bool.not_eq_false', decide_eq_true_eq, Bool.or_eq_false_iff, Bool.not_eq_true',
      decide_eq_false_iff_not, not_not]
    constructor
    · rintro (h | ⟨⟨-, h2⟩, h3⟩)
      · exact h
      · have := htp (by simpa using h2)
        omega
    · intro h
      exact Or.inl h
  have hx := listen_exit P os name w
  generalize listen P os name w = r at hx ⊢
  cases hx with
  | tempDirFailed e hw ht =>
    obtain ⟨dir, hd, -⟩ := htmp hw
    rw [hd] at ht
    cases ht
  | viaTempDir dir r hw ht hr =>
    obtain ⟨dir', hd, hfit⟩ := htmp hw
    rw [hd] at ht
    cases ht
    have hp := hpass (P.encodeName (dir ++ "/s")) (fun _ => hfit)
    cases hr with
    | socketFailed e hs' => rw [hs] at hs'; cases hs'
    | tooLong fd' hs' hlen =>
      simp only [named] at hlen
      refine ⟨fun _ => hp.mp hlen, fun _ => ⟨rfl, ?_⟩⟩
      simp only [World.log, named, List.append_assoc, List.cons_append, List.singleton_append,
        List.nil_append, issued_append]
      rintro ⟨c, hc, hb⟩
      simp only [List.mem_cons, List.mem_append, List.mem_singleton, List.not_mem_nil,
        or_false] at hc
      rcases hc with hc | hc | hc | hc
      · subst hc; simp [OsCall.isBind] at hb
      · subst hc; simp [OsCall.isBind] at hb
      · exact not_isBind_of_mem_closeCalls P _ ⟨c, hc, hb⟩
      · subst hc; simp [OsCall.isBind] at hb
    | bindInUse fd' hs' hlen hb' =>
      simp only [named] at hlen
      constructor
      · rintro ⟨-, hnb⟩
        exfalso
        apply hnb
        simp only [World.log, named, List.append_assoc, List.cons_append, List.singleton_append,
          List.nil_append, issued_append]
        simp [OsCall.isBind]
      · intro h
        have := hp.mpr h
        rw [hlen] at this
        cases this
    | bindFailed fd' e hs' hlen hb' he =>
      simp only [named] at hlen
      constructor
      · rintro ⟨-, hnb⟩
        exfalso
        apply hnb
        simp only [World.log, named, List.append_assoc, List.cons_append, List.singleton_append,
          List.nil_append, issued_append]
        simp [OsCall.isBind]
      · intro h
        have := hp.mpr h
        rw [hlen] at this
        cases this
    | listenFailed fd' e hs' hlen hb' hl =>
      simp only [named] at hlen
      constructor
      · rintro ⟨-, hnb⟩
        exfalso
        apply hnb
        simp only [World.log, named, List.append_assoc, List.cons_append, List.singleton_append,
          List.nil_append, issued_append]
        simp [OsCall.isBind]
      · intro h
        have := hp.mpr h
        rw [hlen] at this
        cases this
    | chmodFailed fd' e hs' hlen hb' hl hw' hc =>
      simp only [named] at hlen
      constructor
      · rintro ⟨-, hnb⟩
        exfalso
        apply hnb
        simp only [World.log, named, List.append_assoc, List.cons_append, List.singleton_append,
          List.nil_append, issued_append]
        simp [OsCall.isBind]
      · intro h
        have := hp.mpr h
        rw [hlen] at this
        cases this
    | renameFailed fd' e hs' hlen hb' hl hw' hc hr =>
      simp only [named] at hlen
      constructor
      · rintro ⟨-, hnb⟩
        exfalso
        apply hnb
        simp only [World.log, named, List.append_assoc, List.cons_append, List.singleton_append,
          List.nil_append, issued_append]
        simp [OsCall.isBind]
      · intro h
        have := hp.mpr h
        rw [hlen] at this
        cases this
    | published fd' hs' hlen hb' hl hw' hc hr =>
      simp only [named] at hlen
      constructor
      · rintro ⟨-, hnb⟩
        exfalso
        apply hnb
        simp only [World.log, named, List.append_assoc, List.cons_append, List.singleton_append,
          List.nil_append, issued_append]
        simp [OsCall.isBind]
      · intro h
        have := hp.mpr h
        rw [hlen] at this
        cases this
    | listening fd' hs' hlen hb' hl hw' =>
      simp only [named] at hlen
      constructor
      · rintro ⟨-, hnb⟩
        exfalso
        apply hnb
        simp only [World.log, named, List.append_assoc, List.cons_append, List.singleton_append,
          List.nil_append, issued_append]
        simp [OsCall.isBind]
      · intro h
        have := hp.mpr h
        rw [hlen] at this
        cases this
  | direct r hw hr =>
    have hp := hpass [] (fun h => by rw [hw] at h; cases h)
    cases hr with
    | socketFailed e hs' => rw [hs] at hs'; cases hs'
    | tooLong fd' hs' hlen =>
      simp only [named] at hlen
      refine ⟨fun _ => hp.mp hlen, fun _ => ⟨rfl, ?_⟩⟩
      simp only [World.log, named, List.append_assoc, List.cons_append, List.singleton_append,
        List.nil_append, issued_append]
      rintro ⟨c, hc, hb⟩
      simp only [List.mem_cons, List.mem_append, List.mem_singleton, List.not_mem_nil,
        or_false] at hc
      rcases hc with hc | hc
      · subst hc; simp [OsCall.isBind] at hb
      · exact not_isBind_of_mem_closeCalls P _ ⟨c, hc, hb⟩
    | bindInUse fd' hs' hlen hb' =>
      simp only [named] at hlen
      constructor
      · rintro ⟨-, hnb⟩
        exfalso
        apply hnb
        simp only [World.log, named, List.append_assoc, List.cons_append, List.singleton_append,
          List.nil_append, issued_append]
        simp [OsCall.isBind]
      · intro h
        have := hp.mpr h
        rw [hlen] at this
        cases this
    | bindFailed fd' e hs' hlen hb' he =>
      simp only [named] at hlen
      constructor
      · rintro ⟨-, hnb⟩
        exfalso
        apply hnb
        simp only [World.log, named, List.append_assoc, List.cons_append, List.singleton_append,
          List.nil_append, issued_append]
        simp [OsCall.isBind]
      · intro h
        have := hp.mpr h
        rw [hlen] at this
        cases this
    | listenFailed fd' e hs' hlen hb' hl =>
      simp only [named] at hlen
      constructor
      · rintro ⟨-, hnb⟩
        exfalso
        apply hnb
        simp only [World.log, named, List.append_assoc, List.cons_append, List.singleton_append,
          List.nil_append, issued_append]
        simp [OsCall.isBind]
      · intro h
        have := hp.mpr h
        rw [hlen] at this
        cases this
    | chmodFailed fd' e hs' hlen hb' hl hw' hc =>
      simp only [named] at hlen
      constructor
      · rintro ⟨-, hnb⟩
        exfalso
        apply hnb
        simp only [World.log, named, List.append_assoc, List.cons_append, List.singleton_append,
          List.nil_append, issued_append]
        simp [OsCall.isBind]
      · intro h
        have := hp.mpr h
        rw [hlen] at this
        cases this
    | renameFailed fd' e hs' hlen hb' hl hw' hc hr =>
      simp only [named] at hlen
      constructor
      · rintro ⟨-, hnb⟩
        exfalso
        apply hnb
        simp only [World.log, named, List.append_assoc, List.cons_append, List.singleton_append,
          List.nil_append, issued_append]
        simp [OsCall.isBind]
      · intro h
        have := hp.mpr h
        rw [hlen] at this
        cases this
    | published fd' hs' hlen hb' hl hw' hc hr =>
      simp only [named] at hlen
      constructor
      · rintro ⟨-, hnb⟩
        exfalso
        apply hnb
        simp only [World.log, named, List.append_assoc, List.cons_append, List.singleton_append,
          List.nil_append, issued_append]
        simp [OsCall.isBind]
      · intro h
        have := hp.mpr h
        rw [hlen] at this
        cases this
    | listening fd' hs' hlen hb' hl hw' =>
      simp only [named] at hlen
      constructor
      · rintro ⟨-, hnb⟩
        exfalso
        apply hnb
        simp only [World.log, named, List.append_assoc, List.cons_append, List.singleton_append,
          List.nil_append, issued_append]
        simp [OsCall.isBind]
      · intro h
        have := hp.mpr h
        rw [hlen] at this
        cases this

/-- The length check at a concrete input: without abstract-namespace support
(capacity 104, overhead 1) the 107-byte name is refused because 104 < 107 + 1. -/
theorem length_check_overhead_by_platform_witness :
    ((listen bsd allSucceed name107 (initial 0 30 50 0)).1 = false ∧
      ¬ ∃ c ∈ issued (initial 0 30 50 0) (listen bsd allSucceed name107 (initial 0 30 50 0)).2,
        c.isBind = true) ↔
    bsd.sunPathSize <
      (bsd.encodeName (resolveFullServerName bsd (effectiveOptions bsd (initial 0 30 50 0))
        name107)).length + (if bsd.PlatformSupportsAbstractNamespace then 2 else 1) :=
  length_check_overhead_by_platform bsd allSucceed name107 (initial 0 30 50 0) 5 rfl
    (fun h => absurd h (by decide))

/-! ## listen(name): the error recorded for a name that is too long -/

/-- C8, the code at the failing input: a 200-byte name on the sample platform,
errno 0 in the process.  `listen` returns false and leaves the descriptor
absent, but no call has failed, so `setError` classifies the stale errno: the
recorded kind is `UnknownSocketError` with "Unknown error 0", not the name
error. -/
theorem too_long_name_records_stale_errno :
    (listen linux allSucceed name200 (initial 0 30 50 0)).1 = false ∧
    (listen linux allSucceed name200 (initial 0 30 50 0)).2.d.error
      = SocketError.UnknownSocketError ∧
    (listen linux allSucceed name200 (initial 0 30 50 0)).2.d.errorString
      = "QLocalServer::listen: Unknown error 0" ∧
    (listen linux allSucceed name200 (initial 0 30 50 0)).2.d.error
      ≠ SocketError.HostNotFoundError ∧
    (listen linux allSucceed name200 (initial 0 30 50 0)).2.d.listenSocket = -1 := by
  decide

/-! ## listen(name): failures that tear the listener down -/

/-- C9: when `bind` is called and fails with an errno other than EADDRINUSE, or
`listen` is called and fails, or `chmod` or `rename` is called and fails,
`listen(name)` returns false and the listener is fully torn down: the
descriptor is -1, no notifier is registered, and the server name and the full
path are empty. -/
theorem listen_failure_tears_down (P : Platform) (os : ListenOutcomes) (name : String) (w : World)
    (hfail :
      (os.bind.isSome ∧ os.bind ≠ some P.EADDRINUSE ∧
        ∃ c ∈ issued w (listen P os name w).2, c.isBind) ∨
      (os.listen.isSome ∧ ∃ c ∈ issued w (listen P os name w).2, c.isListen) ∨
      (os.chmod.isSome ∧ ∃ c ∈ issued w (listen P os name w).2, c.isChmod) ∨
      (os.rename.isSome ∧ ∃ c ∈ issued w (listen P os name w).2, c.isRename)) :
    (listen P os name w).1 = false ∧
    (listen P os name w).2.d.listenSocket = -1 ∧
    (listen P os name w).2.d.socketNotifier = none ∧
    (listen P os name w).2.d.serverName = "" ∧
    (listen P os name w).2.d.fullServerName = "" := by
  have hx := listen_exit P os name w
  generalize listen P os name w = r at hx hfail ⊢
  cases hx with
  | tempDirFailed e hw ht =>
    simp [issued_append, OsCall.isBind, OsCall.isListen, OsCall.isChmod, OsCall.isRename] at hfail
  | viaTempDir dir r hw ht hr =>
    cases hr with
    | bindInUse fd hs hlen hb =>
      exfalso
      simp only [World.log, named, List.append_assoc, List.cons_append, List.singleton_append,
        List.nil_append, issued_append] at hfail
      simp [hb, OsCall.isBind, OsCall.isListen, OsCall.isChmod, OsCall.isRename] at hfail
    | published fd hs hlen hb hl hw hc hr =>
      exfalso
      simp [hb, hl, hc, hr] at hfail
    | listening fd hs hlen hb hl hw =>
      exfalso
      simp only [World.log, named, List.append_assoc, List.cons_append, List.singleton_append,
        List.nil_append, issued_append] at hfail
      simp [hb, hl, OsCall.isBind, OsCall.isListen, OsCall.isChmod, OsCall.isRename] at hfail
    | _ => exact ⟨rfl, rfl, rfl, rfl, rfl⟩
  | direct r hw hr =>
    cases hr with
    | bindInUse fd hs hlen hb =>
      exfalso
      simp only [World.log, named, List.append_assoc, List.cons_append, List.singleton_append,
        List.nil_append, issued_append] at hfail
      simp [hb, OsCall.isBind, OsCall.isListen, OsCall.isChmod, OsCall.isRename] at hfail
    | published fd hs hlen hb hl hw hc hr =>
      exfalso
      simp [hb, hl, hc, hr] at hfail
    | listening fd hs hlen hb hl hw =>
      exfalso
      simp only [World.log, named, List.append_assoc, List.cons_append, List.singleton_append,
        List.nil_append, issued_append] at hfail
      simp [hb, hl, OsCall.isBind, OsCall.isListen, OsCall.isChmod, OsCall.isRename] at hfail
    | _ => exact ⟨rfl, rfl, rfl, rfl, rfl⟩

/-- C9, at a concrete input: with WorldAccess and `chmod` failing with errno 13,
`listen("foo")` returns false and the descriptor is -1. -/
theorem listen_failure_tears_down_witness :
    (listen linux { allSucceed with chmod := some 13 } "foo" (initial 7 30 50 0)).1 = false ∧
    (listen linux { allSucceed with chmod := some 13 } "foo" (initial 7 30 50 0)).2.d.listenSocket
      = -1 :=
  ⟨(listen_failure_tears_down linux { allSucceed with chmod := some 13 } "foo" (initial 7 30 50 0)
      (Or.inr (Or.inr (Or.inl ⟨rfl, by decide⟩)))).1,
   (listen_failure_tears_down linux { allSucceed with chmod := some 13 } "foo" (initial 7 30 50 0)
      (Or.inr (Or.inr (Or.inl ⟨rfl, by decide⟩)))).2.1⟩

/-! ## listen(name): the mode handed to chmod -/

/-- C10: every `chmod` that `listen(name)` issues is issued with WorldAccess in
the effective options, on the socket path inside the temporary directory, with
a mode that is the bitwise OR of the owner class bits if UserAccessOption is
set, the group class bits if GroupAccessOption is set and the other class bits
if OtherAccessOption is set; the mode is 0 when none of the three is set.
And a successful `listen(name)` with WorldAccess in the effective options has
issued the `chmod` with exactly this mode on that path. -/
theorem chmod_mode_from_access_options (P : Platform) (os : ListenOutcomes) (name : String)
    (w : World) :
    (∀ (path : List Nat) (mode : Nat),
      OsCall.chmod path mode ∈ issued w (listen P os name w).2 →
      anyFlag (effectiveOptions P w) P.WorldAccessOption = true ∧
      (∃ dir, os.tempDir = Except.ok dir ∧ path = P.encodeName (dir ++ "/s")) ∧
      mode =
        ((if anyFlag (effectiveOptions P w) P.UserAccessOption then S_IRWXU else 0) |||
         (if anyFlag (effectiveOptions P w) P.GroupAccessOption then S_IRWXG else 0) |||
         (if anyFlag (effectiveOptions P w) P.OtherAccessOption then S_IRWXO else 0)) ∧
      (anyFlag (effectiveOptions P w) P.UserAccessOption = false →
        anyFlag (effectiveOptions P w) P.GroupAccessOption = false →
        anyFlag (effectiveOptions P w) P.OtherAccessOption = false → mode = 0)) ∧
    ((listen P os name w).1 = true →
      anyFlag (effectiveOptions P w) P.WorldAccessOption = true →
      ∃ dir, os.tempDir = Except.ok dir ∧
        OsCall.chmod (P.encodeName (dir ++ "/s"))
          ((if anyFlag (effectiveOptions P w) P.UserAccessOption then S_IRWXU else 0) |||
           (if anyFlag (effectiveOptions P w) P.GroupAccessOption then S_IRWXG else 0) |||
           (if anyFlag (effectiveOptions P w) P.OtherAccessOption then S_IRWXO else 0))
          ∈ issued w (listen P os name w).2) := by
  refine ⟨fun path mode hcall => ?_, fun hok hw0 => ?_⟩
  · have hmode : mode = accessMode P (effectiveOptions P w) →
        mode =
        ((if anyFlag (effectiveOptions P w) P.UserAccessOption then S_IRWXU else 0) |||
         (if anyFlag (effectiveOptions P w) P.GroupAccessOption then S_IRWXG else 0) |||
         (if anyFlag (effectiveOptions P w) P.OtherAccessOption then S_IRWXO else 0)) ∧
        (anyFlag (effectiveOptions P w) P.UserAccessOption = false →
          anyFlag (effectiveOptions P w) P.GroupAccessOption = false →
          anyFlag (effectiveOptions P w) P.OtherAccessOption = false → mode = 0) := by
      intro h
      rw [h, accessMode_eq]
      refine ⟨rfl, fun h1 h2 h3 => ?_⟩
      simp [h1, h2, h3]
    have hx := listen_exit P os name w
    generalize listen P os name w = r at hx hcall ⊢
    cases hx with
    | tempDirFailed e hw ht =>
      simp [issued_append] at hcall
    | viaTempDir dir r hw ht hr =>
      cases hr <;>
      simp only [World.log, named, List.append_assoc, List.cons_append, List.singleton_append,
        List.nil_append, issued_append, List.mem_cons, List.mem_append, List.mem_singleton,
        List.not_mem_nil, or_false, false_or, reduceCtorEq, OsCall.chmod.injEq] at hcall <;>
      first
      | exact absurd hcall (not_isChmod_of_mem_closeCalls _ _ _ _)
      | (rcases hcall with ⟨hp, hm⟩ | hcall
         · exact ⟨hw, ⟨dir, ht, hp⟩, hmode hm⟩
         · exact absurd hcall (not_isChmod_of_mem_closeCalls _ _ _ _))
      | (obtain ⟨hp, hm⟩ := hcall
         exact ⟨hw, ⟨dir, ht, hp⟩, hmode hm⟩)
    | direct r hw hr =>
      cases hr with
      | chmodFailed fd e hs hlen hb hl hw' hc => rw [hw] at hw'; cases hw'
      | renameFailed fd e hs hlen hb hl hw' hc hr => rw [hw] at hw'; cases hw'
      | published fd hs hlen hb hl hw' hc hr => rw [hw] at hw'; cases hw'
      | _ =>
        simp only [World.log, named, List.append_assoc, List.cons_append, List.singleton_append,
          List.nil_append, issued_append, List.mem_cons, List.mem_append, List.mem_singleton,
          List.not_mem_nil, or_false, false_or, reduceCtorEq, OsCall.chmod.injEq] at hcall <;>
        exact absurd hcall (not_isChmod_of_mem_closeCalls _ _ _ _)
  · rw [← accessMode_eq]
    have hx := listen_exit P os name w
    generalize listen P os name w = r at hx hok ⊢
    cases hx with
    | tempDirFailed e hw ht => cases hok
    | viaTempDir dir r hw ht hr =>
      cases hr with
      | published fd hs hlen hb hl hw' hc hr =>
        refine ⟨dir, ht, ?_⟩
        simp only [World.log, named, List.append_assoc, List.cons_append, List.singleton_append,
          List.nil_append, issued_append]
        simp
      | listening fd hs hlen hb hl hw' => rw [hw] at hw'; cases hw'
      | _ => cases hok
    | direct r hw hr => rw [hw0] at hw; cases hw

/-- C10, at a concrete input: with User and Group access requested the `chmod`
issued carries mode 0770 (504). -/
theorem chmod_mode_from_access_options_witness :
    ∃ path, OsCall.chmod path 504 ∈
        issued (initial 3 30 50 0) (listen linux allSucceed "foo" (initial 3 30 50 0)).2 ∧
      504 = ((if anyFlag (effectiveOptions linux (initial 3 30 50 0)) linux.UserAccessOption
                then S_IRWXU else 0) |||
             (if anyFlag (effectiveOptions linux (initial 3 30 50 0)) linux.GroupAccessOption
                then S_IRWXG else 0) |||
             (if anyFlag (effectiveOptions linux (initial 3 30 50 0)) linux.OtherAccessOption
                then S_IRWXO else 0)) :=
  ⟨linux.encodeName "/tmp/qt-Ab12Cd/s", by decide,
    ((chmod_mode_from_access_options linux allSucceed "foo" (initial 3 30 50 0)).1
      (linux.encodeName "/tmp/qt-Ab12Cd/s") 504 (by decide)).2.2.1⟩

/-! ## Further auxiliary facts -/

/-- Bitwise: the bits of `a` within `a ||| b` are those of `a`. -/
theorem lor_land_left (a b : Nat) : (a ||| b) &&& a = a := by
  apply Nat.eq_of_testBit_eq
  intro i
  simp only [Nat.testBit_land, Nat.testBit_lor]
  cases a.testBit i <;> simp

/-- Bitwise: the bits of `b` within `a ||| b` are those of `b`. -/
theorem lor_land_right (a b : Nat) : (a ||| b) &&& b = b := by
  rw [Nat.lor_comm]; exact lor_land_left b a

/-- Where AbstractNamespace is a flag of its own, the effective options never hold
AbstractNamespace and a WorldAccess bit together. -/
theorem not_abstract_and_world (P : Platform) (hf : P.FlagsSeparate) (o : Nat) :
    ¬ (testFlag (optionsForPlatform P o) P.AbstractNamespaceOption = true ∧
       anyFlag (optionsForPlatform P o) P.WorldAccessOption = true) := by
  obtain ⟨h0, hd⟩ := hf
  rintro ⟨ha, hw⟩
  unfold optionsForPlatform at ha hw
  by_cases ho : testFlag o P.AbstractNamespaceOption = true
  · rw [if_pos ho] at ha hw
    by_cases hs : P.PlatformSupportsAbstractNamespace = true
    · rw [if_pos hs] at hw
      simp [anyFlag, hd] at hw
    · rw [if_neg hs] at ha
      simp only [testFlag, Bool.and_eq_true, beq_iff_eq] at ha
      rw [Nat.land_comm, hd] at ha
      exact h0 ha.1.symm
  · rw [if_neg ho] at ha
    exact ho ha

/-- The exact calls of a successful `listen(name)` in the WorldAccess, non-abstract form. -/
theorem listen_published_trace (P : Platform) (os : ListenOutcomes) (name : String) (w : World)
    (hok : (listen P os name w).1 = true)
    (hw : anyFlag (effectiveOptions P w) P.WorldAccessOption = true)
    (hna : testFlag (effectiveOptions P w) P.AbstractNamespaceOption = false) :
    ∃ (dir : String) (fd : Nat), os.tempDir = Except.ok dir ∧ os.socket = Except.ok fd ∧
      os.bind = none ∧ os.listen = none ∧ os.chmod = none ∧ os.rename = none ∧
      issued w (listen P os name w).2 =
        [OsCall.tempDirCreate
            (P.absolutePath (resolveFullServerName P (effectiveOptions P w) name) ++ "/"),
          OsCall.socket,
          OsCall.bind fd
            (memcpy (List.replicate P.sunPathSize 0) 0 (withNul (P.encodeName (dir ++ "/s"))))
            P.sockaddrSize,
          OsCall.listen fd w.d.listenBacklog,
          OsCall.chmod (P.encodeName (dir ++ "/s")) (accessMode P (effectiveOptions P w)),
          OsCall.rename (P.encodeName (dir ++ "/s"))
            (P.encodeName (resolveFullServerName P (effectiveOptions P w) name)),
          OsCall.tempDirRemove dir] := by
  have hx := listen_exit P os name w
  generalize listen P os name w = r at hx hok ⊢
  cases hx with
  | tempDirFailed e hw' ht => cases hok
  | viaTempDir dir r hw' ht hr =>
    cases hr with
    | published fd hs hlen hb hl hw'' hc hr =>
      refine ⟨dir, fd, ht, hs, hb, hl, hc, hr, ?_⟩
      simp only [World.log, named, List.append_assoc, List.cons_append, List.singleton_append,
        List.nil_append, issued_append, bindAddress, hna, hw, Bool.false_eq_true, if_false,
        if_true]
    | listening fd hs hlen hb hl hw'' => rw [hw] at hw''; cases hw''
    | _ => cases hok
  | direct r hw' hr => rw [hw] at hw'; cases hw'

/-- A successful `listen(name)` records the resolved full path and leaves the options as they
were. -/
theorem listen_success_state (P : Platform) (os : ListenOutcomes) (name : String) (w : World)
    (hok : (listen P os name w).1 = true) :
    (listen P os name w).2.d.fullServerName
      = resolveFullServerName P (effectiveOptions P w) name ∧
    (listen P os name w).2.d.socketOptions = w.d.socketOptions := by
  have hx := listen_exit P os name w
  generalize listen P os name w = r at hx hok ⊢
  cases hx with
  | tempDirFailed e hw' ht' => cases hok
  | viaTempDir dir' r hw' ht' hr' => cases hr' <;> first | exact ⟨rfl, rfl⟩ | cases hok
  | direct r hw' hr' => cases hr' <;> first | exact ⟨rfl, rfl⟩ | cases hok

/-- Outside the abstract namespace the resolved full path is never empty. -/
theorem resolveFullServerName_ne_empty (P : Platform) (o : Nat) (name : String)
    (hna : testFlag o P.AbstractNamespaceOption = false) :
    resolveFullServerName P o name ≠ "" := by
  unfold resolveFullServerName
  rw [hna, Bool.false_or]
  by_cases hs : startsWith name '/' = true
  · rw [if_pos hs]
    intro h
    rw [h] at hs
    simp [startsWith] at hs
  · rw [if_neg hs]
    intro h
    have := congrArg String.length h
    simp only [String.length_append] at this
    have h1 : "/".length = 1 := rfl
    have h0 : "".length = 0 := rfl
    omega

/-- On a torn-down object `closeServer` has nothing to close and nothing to remove. -/
theorem closeCalls_tornDown (P : Platform) (d : QLocalServerPrivate) :
    closeCalls P (tornDown d) = [] := by
  unfold closeCalls tornDown
  simp

/-! ## listen(name): the permission bits of WorldAccess | UserAccessOption -/

/-- C11 as stated fails: with the enumerator values of Qt, where
WorldAccessOption (7) is the union of the user, group and other options,
`WorldAccessOption | UserAccessOption` is 7; a successful non-abstract
`listen("foo")` with these options issues `chmod` with mode 0777 (511) on the
entry that it then renames to "/tmp/foo", so the group and other classes are
set as well as the owner class. -/
theorem world_user_access_sets_all_classes :
    linux.WorldAccessOption ||| linux.UserAccessOption = 7 ∧
    testFlag (effectiveOptions linux (initial 7 30 50 0)) linux.AbstractNamespaceOption = false ∧
    (listen linux allSucceed "foo" (initial 7 30 50 0)).1 = true ∧
    OsCall.chmod (linux.encodeName "/tmp/qt-Ab12Cd/s") 511 ∈
      issued (initial 7 30 50 0) (listen linux allSucceed "foo" (initial 7 30 50 0)).2 ∧
    OsCall.rename (linux.encodeName "/tmp/qt-Ab12Cd/s") (linux.encodeName "/tmp/foo") ∈
      issued (initial 7 30 50 0) (listen linux allSucceed "foo" (initial 7 30 50 0)).2 ∧
    511 ≠ S_IRWXU ∧ 511 &&& S_IRWXG = S_IRWXG ∧ 511 &&& S_IRWXO = S_IRWXO := by
  decide

/-- C11, amended: a successful non-abstract `listen(name)` with options
`WorldAccessOption | UserAccessOption` chmods the entry that it renames to the
full path with the owner-class bits, plus the group-class bits exactly when
`WorldAccessOption | UserAccessOption` shares a bit with GroupAccessOption, plus
the other-class bits exactly when it shares a bit with OtherAccessOption.  The
mode is exactly the owner-class bits where the combined options share no bit
with the group and other options; where they do, that class is fully set. -/
theorem world_user_access_mode (P : Platform) (os : ListenOutcomes) (name : String) (w : World)
    (hW : P.WorldAccessOption ≠ 0) (hU : P.UserAccessOption ≠ 0)
    (hopt : w.d.socketOptions = P.WorldAccessOption ||| P.UserAccessOption)
    (hna : testFlag (P.WorldAccessOption ||| P.UserAccessOption) P.AbstractNamespaceOption = false)
    (hok : (listen P os name w).1 = true) :
    ∃ (dir : String) (mode : Nat), os.tempDir = Except.ok dir ∧
      OsCall.chmod (P.encodeName (dir ++ "/s")) mode ∈ issued w (listen P os name w).2 ∧
      OsCall.rename (P.encodeName (dir ++ "/s"))
          (P.encodeName (listen P os name w).2.d.fullServerName)
        ∈ issued w (listen P os name w).2 ∧
      mode = S_IRWXU |||
        (if anyFlag (P.WorldAccessOption ||| P.UserAccessOption) P.GroupAccessOption
          then S_IRWXG else 0) |||
        (if anyFlag (P.WorldAccessOption ||| P.UserAccessOption) P.OtherAccessOption
          then S_IRWXO else 0) ∧
      (anyFlag (P.WorldAccessOption ||| P.UserAccessOption) P.GroupAccessOption = false →
        anyFlag (P.WorldAccessOption ||| P.UserAccessOption) P.OtherAccessOption = false →
        mode = S_IRWXU ∧ mode &&& S_IRWXG = 0 ∧ mode &&& S_IRWXO = 0) ∧
      (anyFlag (P.WorldAccessOption ||| P.UserAccessOption) P.GroupAccessOption = true →
        mode &&& S_IRWXG = S_IRWXG) ∧
      (anyFlag (P.WorldAccessOption ||| P.UserAccessOption) P.OtherAccessOption = true →
        mode &&& S_IRWXO = S_IRWXO) := by
  have heff : effectiveOptions P w = P.WorldAccessOption ||| P.UserAccessOption := by
    simp [effectiveOptions, optionsForPlatform, hopt, hna]
  have hw : anyFlag (effectiveOptions P w) P.WorldAccessOption = true := by
    simp [heff, anyFlag, lor_land_left, hW]
  have hu : anyFlag (P.WorldAccessOption ||| P.UserAccessOption) P.UserAccessOption = true := by
    simp [anyFlag, lor_land_right, hU]
  obtain ⟨dir, fd, ht, hs, hb, hl, hc, hr, htrace⟩ :=
    listen_published_trace P os name w hok hw (by rw [heff]; exact hna)
  have hfull := (listen_success_state P os name w hok).1
  refine ⟨dir, accessMode P (effectiveOptions P w), ht, ?_, ?_, ?_, ?_, ?_, ?_⟩
  · rw [htrace]; simp
  · rw [htrace, hfull]; simp
  · rw [accessMode_eq, heff, hu]; simp
  · intro hg ho
    rw [accessMode_eq, heff, hu, hg, ho]
    decide
  · intro hg
    rw [accessMode_eq, heff, hu, hg]
    by_cases ho : anyFlag (P.WorldAccessOption ||| P.UserAccessOption) P.OtherAccessOption = true
    · rw [ho]; decide
    · rw [Bool.not_eq_true] at ho; rw [ho]; decide
  · intro ho
    rw [accessMode_eq, heff, hu, ho]
    by_cases hg : anyFlag (P.WorldAccessOption ||| P.UserAccessOption) P.GroupAccessOption = true
    · rw [hg]; decide
    · rw [Bool.not_eq_true] at hg; rw [hg]; decide

/-- C11, at a concrete input: on the sample platform the mode handed to `chmod`
contains the whole group class. -/
theorem world_user_access_mode_witness :
    ∃ (dir : String) (mode : Nat),
      OsCall.chmod (linux.encodeName (dir ++ "/s")) mode ∈
        issued (initial 7 30 50 0) (listen linux allSucceed "foo" (initial 7 30 50 0)).2 ∧
      mode &&& S_IRWXG = S_IRWXG := by
  obtain ⟨dir, mode, -, h1, -, -, -, h2, -⟩ :=
    world_user_access_mode linux allSucceed "foo" (initial 7 30 50 0) (by decide) (by decide) rfl (by decide)
      (by decide)
  exact ⟨dir, mode, h1, h2 (by decide)⟩

/-! ## listen(name): the order of the calls under WorldAccess -/

/-- C12: in every successful `listen(name)` whose effective options include
WorldAccess (on a platform whose AbstractNamespace enumerator is a flag of its
own), the calls issued are, in this order: creation of the temporary directory,
`socket`, `bind` on the socket path inside the temporary directory, `listen`,
`chmod` of that temporary path, `rename` of the temporary path to the resolved
full path, and the disposal of the temporary directory; each of them succeeded.
The only `bind` is the one on the temporary path, so the first call that names
the full path is the `rename`, which follows the successful `chmod`. -/
theorem worldAccess_call_order (P : Platform) (os : ListenOutcomes) (name : String) (w : World)
    (hflags : P.FlagsSeparate)
    (hok : (listen P os name w).1 = true)
    (hw : anyFlag (effectiveOptions P w) P.WorldAccessOption = true) :
    ∃ (dir : String) (fd : Nat), os.tempDir = Except.ok dir ∧ os.socket = Except.ok fd ∧
      os.bind = none ∧ os.listen = none ∧ os.chmod = none ∧ os.rename = none ∧
      issued w (listen P os name w).2 =
        [OsCall.tempDirCreate
            (P.absolutePath (resolveFullServerName P (effectiveOptions P w) name) ++ "/"),
          OsCall.socket,
          OsCall.bind fd
            (memcpy (List.replicate P.sunPathSize 0) 0 (withNul (P.encodeName (dir ++ "/s"))))
            P.sockaddrSize,
          OsCall.listen fd w.d.listenBacklog,
          OsCall.chmod (P.encodeName (dir ++ "/s")) (accessMode P (effectiveOptions P w)),
          OsCall.rename (P.encodeName (dir ++ "/s"))
            (P.encodeName (resolveFullServerName P (effectiveOptions P w) name)),
          OsCall.tempDirRemove dir] ∧
      (∀ c ∈ issued w (listen P os name w).2, c.isBind = true →
        c = OsCall.bind fd
          (memcpy (List.replicate P.sunPathSize 0) 0 (withNul (P.encodeName (dir ++ "/s"))))
          P.sockaddrSize) := by
  have hna : testFlag (effectiveOptions P w) P.AbstractNamespaceOption = false := by
    by_contra h
    exact not_abstract_and_world P hflags w.d.socketOptions ⟨by simpa using h, hw⟩
  obtain ⟨dir, fd, ht, hs, hb, hl, hc, hr, htrace⟩ :=
    listen_published_trace P os name w hok hw hna
  refine ⟨dir, fd, ht, hs, hb, hl, hc, hr, htrace, ?_⟩
  intro c hc hcb
  rw [htrace] at hc
  simp only [List.mem_cons, List.mem_singleton, List.not_mem_nil, or_false] at hc
  rcases hc with h | h | h | h | h | h | h <;> subst h <;>
    first | rfl | (simp [OsCall.isBind] at hcb)

/-- C12, at a concrete input: on the sample platform a successful WorldAccess
`listen("foo")` issues exactly seven calls. -/
theorem worldAccess_call_order_witness :
    ∃ (dir : String) (fd : Nat),
      allSucceed.tempDir = Except.ok dir ∧ allSucceed.socket = Except.ok fd ∧
      (issued (initial 7 30 50 0) (listen linux allSucceed "foo" (initial 7 30 50 0)).2).length
        = 7 := by
  obtain ⟨dir, fd, ht, hs, -, -, -, -, h, -⟩ :=
    worldAccess_call_order linux allSucceed "foo" (initial 7 30 50 0) (by decide) (by decide) (by decide)
  exact ⟨dir, fd, ht, hs, by rw [h]; rfl⟩

/-! ## _q_onNewConnection: the notifier after a successful accept -/

/-- C13, the code at the failing input: a bound listener with
maxPendingConnections = 1 accepts descriptor 7 and then descriptor 8.  After the
second accept both descriptors have been handed to the sink, whose queue depth
is 2 and exceeds maxPendingConnections, yet the notifier is enabled: the flag
was computed from the depth before the hand-over. -/
theorem notifier_flag_set_before_hand_over :
    (boundSample 1).d.listenSocket = 5 ∧
    (_q_onNewConnection linux (Except.ok 7) (boundSample 1)).d.pendingConnections = [7] ∧
    (_q_onNewConnection linux (Except.ok 8)
      (_q_onNewConnection linux (Except.ok 7) (boundSample 1))).d.pendingConnections = [7, 8] ∧
    (_q_onNewConnection linux (Except.ok 8)
      (_q_onNewConnection linux (Except.ok 7) (boundSample 1))).d.maxPendingConnections = 1 ∧
    (_q_onNewConnection linux (Except.ok 8)
      (_q_onNewConnection linux (Except.ok 7) (boundSample 1))).d.socketNotifier
        = some { socket := 5, enabled := true } := by
  decide

/-! ## The notifier while maxPendingConnections is 0 -/

/-- C14, the code at the failing input: with maxPendingConnections = 0 a
successful `listen` leaves the notifier disabled, but after one connection is
accepted through `waitForNewConnection` the notifier is enabled although
maxPendingConnections is still 0. -/
theorem zero_max_pending_notifier_enabled_after_wait :
    (boundSample 0).d.maxPendingConnections = 0 ∧
    (boundSample 0).d.socketNotifier = some { socket := 5, enabled := false } ∧
    (waitForNewConnection linux (PollResult.ready 1) (Except.ok 7) 0 none
      (boundSample 0)).2.d.maxPendingConnections = 0 ∧
    (waitForNewConnection linux (PollResult.ready 1) (Except.ok 7) 0 none
      (boundSample 0)).2.d.pendingConnections = [7] ∧
    (waitForNewConnection linux (PollResult.ready 1) (Except.ok 7) 0 none
      (boundSample 0)).2.d.socketNotifier = some { socket := 5, enabled := true } := by
  decide

/-! ## Accept and poll failures -/

/-- C15: when the accept in `_q_onNewConnection` fails on a bound listener, and
when the poll in `waitForNewConnection` returns -1, the resulting object is the
torn-down form of what `setError` makes of errno: the error is classified from
errno, the descriptor is -1, the notifier is released, both names are empty,
and the queue of the connection sink is what it was; after a poll error no
accept is attempted. -/
theorem accept_or_poll_failure_tears_down (P : Platform) (w : World) (e : Int) :
    (w.d.listenSocket ≠ -1 →
      (_q_onNewConnection P (Except.error e) w).d
          = tornDown (setErrorWith P e fnActivated w.d) ∧
      (_q_onNewConnection P (Except.error e) w).d.listenSocket = -1 ∧
      (_q_onNewConnection P (Except.error e) w).d.socketNotifier = none ∧
      (_q_onNewConnection P (Except.error e) w).d.serverName = "" ∧
      (_q_onNewConnection P (Except.error e) w).d.fullServerName = "" ∧
      (_q_onNewConnection P (Except.error e) w).d.pendingConnections = w.d.pendingConnections) ∧
    (∀ (accept : Except Int Nat) (msec : Int) (timedOut : Option Bool),
      (waitForNewConnection P (PollResult.error e) accept msec timedOut w).2.d
          = tornDown (setErrorWith P e fnWait w.d) ∧
      (waitForNewConnection P (PollResult.error e) accept msec timedOut w).2.d.listenSocket = -1 ∧
      (waitForNewConnection P (PollResult.error e) accept msec timedOut w).2.d.socketNotifier
          = none ∧
      (waitForNewConnection P (PollResult.error e) accept msec timedOut w).2.d.serverName = "" ∧
      (waitForNewConnection P (PollResult.error e) accept msec timedOut w).2.d.fullServerName
          = "" ∧
      (waitForNewConnection P (PollResult.error e) accept msec timedOut w).2.d.pendingConnections
          = w.d.pendingConnections ∧
      OsCall.accept w.d.listenSocket ∉
        issued w (waitForNewConnection P (PollResult.error e) accept msec timedOut w).2) := by
  constructor
  · intro hb
    have h : (_q_onNewConnection P (Except.error e) w).d
        = tornDown (setErrorWith P e fnActivated w.d) := by
      unfold _q_onNewConnection
      rw [if_neg hb]
      simp only [closeServer_eq, setError, World.log, fnActivated]
    refine ⟨h, ?_, ?_, ?_, ?_, ?_⟩ <;> rw [h]
    · rfl
    · rfl
    · rfl
    · rfl
    · exact (setErrorWith_frame P e fnActivated w.d).2.2.2.2.2.2.2
  · intro accept msec timedOut
    have h : (waitForNewConnection P (PollResult.error e) accept msec timedOut w).2
        = { d := tornDown (setErrorWith P e fnWait w.d), errno := e,
            calls := w.calls ++ OsCall.poll w.d.listenSocket msec :: closeCalls P w.d } := by
      unfold waitForNewConnection
      simp only [closeServer_eq, setError, World.log, fnWait, closeCalls_setErrorWith,
        List.append_assoc, List.singleton_append]
    rw [h]
    refine ⟨rfl, rfl, rfl, rfl, rfl, (setErrorWith_frame P e fnWait w.d).2.2.2.2.2.2.2, ?_⟩
    rw [issued_append]
    intro hm
    simp only [List.mem_cons, reduceCtorEq, false_or] at hm
    unfold closeCalls at hm
    simp only [List.mem_append] at hm
    rcases hm with hm | hm <;> split_ifs at hm <;> simp at hm

/-- C15, at a concrete input: an accept failing with errno 13 on the bound sample
listener leaves descriptor -1 and the permission error. -/
theorem accept_or_poll_failure_tears_down_witness :
    (_q_onNewConnection linux (Except.error 13) (boundSample 30)).d.listenSocket = -1 ∧
    (_q_onNewConnection linux (Except.error 13) (boundSample 30)).d.error
      = SocketError.SocketAccessError :=
  ⟨((accept_or_poll_failure_tears_down linux (boundSample 30) 13).1 (by decide)).2.1, by decide⟩

/-! ## waitForNewConnection: timeout -/

/-- C16: when the poll in `waitForNewConnection` reports zero ready descriptors,
the flag behind a non-null `timedOut` pointer becomes true, the whole private
object (descriptor, notifier and its enabled flag, names, options, last error
kind and message) and errno are unchanged, and the poll is the only call
issued: no accept is attempted. -/
theorem wait_timeout_changes_nothing (P : Platform) (accept : Except Int Nat) (msec : Int) (timedOut : Option Bool)
    (w : World) :
    (waitForNewConnection P PollResult.timeout accept msec timedOut w).1
      = timedOut.map (fun _ => true) ∧
    (∀ b, timedOut = some b →
      (waitForNewConnection P PollResult.timeout accept msec timedOut w).1 = some true) ∧
    (waitForNewConnection P PollResult.timeout accept msec timedOut w).2.d = w.d ∧
    (waitForNewConnection P PollResult.timeout accept msec timedOut w).2.errno = w.errno ∧
    issued w (waitForNewConnection P PollResult.timeout accept msec timedOut w).2
      = [OsCall.poll w.d.listenSocket msec] := by
  refine ⟨rfl, ?_, rfl, rfl, ?_⟩
  · intro b hb
    subst hb
    rfl
  · simp [waitForNewConnection, World.log, issued]

/-- C16, at a concrete input: a timeout on the bound sample listener sets the flag
to true. -/
theorem wait_timeout_changes_nothing_witness :
    (waitForNewConnection linux PollResult.timeout (Except.ok 7) 0 (some false)
      (boundSample 30)).1 = some true :=
  (wait_timeout_changes_nothing linux (Except.ok 7) 0 (some false) (boundSample 30)).2.1 false rfl

/-! ## waitForNewConnection: POLLNVAL -/

/-- C17 as stated fails: on the bound sample listener a poll that returns with
POLLNVAL (32) among the events ends with descriptor -1 instead of 5, both names
cleared and a new last error, "Unknown error 9" (EBADF). -/
theorem pollnval_tears_down_sample :
    (1 : Nat) > 0 ∧ 32 &&& linux.POLLNVAL ≠ 0 ∧
    (boundSample 30).d.listenSocket = 5 ∧
    (boundSample 30).d.fullServerName = "/tmp/foo" ∧
    (boundSample 30).d.errorString = "" ∧
    (waitForNewConnection linux (PollResult.ready 32) (Except.ok 7) 0 none
      (boundSample 30)).2.d.listenSocket = -1 ∧
    (waitForNewConnection linux (PollResult.ready 32) (Except.ok 7) 0 none
      (boundSample 30)).2.d.fullServerName = "" ∧
    (waitForNewConnection linux (PollResult.ready 32) (Except.ok 7) 0 none
      (boundSample 30)).2.d.serverName = "" ∧
    (waitForNewConnection linux (PollResult.ready 32) (Except.ok 7) 0 none
      (boundSample 30)).2.d.errorString
        = "QLocalServer::waitForNewConnection: Unknown error 9" := by
  decide

/-- C17, amended: when the poll in `waitForNewConnection` returns a positive count
and the returned events contain POLLNVAL, the error is classified as from errno
EBADF (the value line 333 assigns before `setError` runs) and the listener is
torn down exactly as after a poll error: the descriptor is -1, the notifier is
released and both names are empty; the calls issued are the poll and those of
`closeServer`, so no accept is attempted, and `timedOut` is left alone.  Nothing
is said about errno after the teardown. -/
theorem pollnval_tears_down (P : Platform) (revents : Nat) (accept : Except Int Nat) (msec : Int)
    (timedOut : Option Bool) (w : World)
    (hnval : revents &&& P.POLLNVAL ≠ 0) :
    (waitForNewConnection P (PollResult.ready revents) accept msec timedOut w).2.d
      = tornDown (setErrorWith P P.EBADF fnWait w.d) ∧
    (waitForNewConnection P (PollResult.ready revents) accept msec timedOut w).2.d.listenSocket
      = -1 ∧
    (waitForNewConnection P (PollResult.ready revents) accept msec timedOut w).2.d.socketNotifier
      = none ∧
    (waitForNewConnection P (PollResult.ready revents) accept msec timedOut w).2.d.serverName
      = "" ∧
    (waitForNewConnection P (PollResult.ready revents) accept msec timedOut w).2.d.fullServerName
      = "" ∧
    issued w (waitForNewConnection P (PollResult.ready revents) accept msec timedOut w).2
      = OsCall.poll w.d.listenSocket msec :: closeCalls P w.d ∧
    (waitForNewConnection P (PollResult.ready revents) accept msec timedOut w).1 = timedOut := by
  have h : (waitForNewConnection P (PollResult.ready revents) accept msec timedOut w)
      = (timedOut,
          { d := tornDown (setErrorWith P P.EBADF fnWait w.d)
            errno := P.EBADF
            calls := w.calls ++ OsCall.poll w.d.listenSocket msec :: closeCalls P w.d }) := by
    unfold waitForNewConnection
    simp only [if_neg hnval, closeServer_eq, setError, World.log, fnWait,
      closeCalls_setErrorWith, List.append_assoc, List.singleton_append]
  rw [h]
  exact ⟨rfl, rfl, rfl, rfl, rfl, issued_append _ _ _ _, rfl⟩

/-- C17, at a concrete input: POLLNVAL on the bound sample listener leaves
descriptor -1. -/
theorem pollnval_tears_down_witness :
    (waitForNewConnection linux (PollResult.ready 32) (Except.ok 7) 0 none
      (boundSample 30)).2.d.listenSocket = -1 :=
  (pollnval_tears_down linux 32 (Except.ok 7) 0 none (boundSample 30) (by decide)).2.1

/-! ## closeServer is idempotent -/

/-- C18: `closeServer` is idempotent.  For every world, closing a second time
gives the same world as closing once: descriptor -1, no notifier, both names
empty; the second call issues no call at all, so no descriptor close and no
file removal.  No notifier is registered in the result, which is what `listen`
asserts on entry. -/
theorem closeServer_idempotent (P : Platform) (w : World) :
    closeServer P (closeServer P w) = closeServer P w ∧
    (closeServer P w).d.listenSocket = -1 ∧
    (closeServer P w).d.socketNotifier = none ∧
    (closeServer P w).d.serverName = "" ∧
    (closeServer P w).d.fullServerName = "" ∧
    issued (closeServer P w) (closeServer P (closeServer P w)) = [] := by
  have h2 : closeServer P (closeServer P w) = closeServer P w := by
    rw [closeServer_eq P (closeServer P w), closeServer_eq P w]
    simp only [closeCalls_tornDown, List.append_nil]
    rfl
  refine ⟨h2, closeServer_listenSocket P w, closeServer_socketNotifier P w,
    closeServer_serverName P w, closeServer_fullServerName P w, ?_⟩
  rw [h2]
  simp [issued]

/-! ## closeServer: the file it removes -/

/-- C19: `closeServer` issues a file removal if and only if the recorded full
path is non-empty and the effective (platform-adjusted) options do not include
AbstractNamespace, and what it removes is the recorded full path.  After a
successful abstract-namespace `listen(name)` it removes nothing; after a
successful filesystem-path `listen(name)` it removes the resolved full path,
the socket file. -/
theorem closeServer_removes_recorded_path (P : Platform) :
    (∀ (w : World) (p : String),
      OsCall.fileRemove p ∈ issued w (closeServer P w) ↔
        (w.d.fullServerName ≠ "" ∧
          testFlag (effectiveOptions P w) P.AbstractNamespaceOption = false ∧
          p = w.d.fullServerName)) ∧
    (∀ (os : ListenOutcomes) (name : String) (w : World),
      (listen P os name w).1 = true →
      testFlag (effectiveOptions P w) P.AbstractNamespaceOption = true →
      ∀ p, OsCall.fileRemove p ∉
        issued (listen P os name w).2 (closeServer P (listen P os name w).2)) ∧
    (∀ (os : ListenOutcomes) (name : String) (w : World),
      (listen P os name w).1 = true →
      testFlag (effectiveOptions P w) P.AbstractNamespaceOption = false →
      OsCall.fileRemove (resolveFullServerName P (effectiveOptions P w) name) ∈
        issued (listen P os name w).2 (closeServer P (listen P os name w).2)) := by
  have hmain : ∀ (w : World) (p : String),
      OsCall.fileRemove p ∈ issued w (closeServer P w) ↔
        (w.d.fullServerName ≠ "" ∧
          testFlag (effectiveOptions P w) P.AbstractNamespaceOption = false ∧
          p = w.d.fullServerName) := by
    intro w p
    rw [closeServer_eq, issued_append]
    unfold closeCalls effectiveOptions
    simp only [List.mem_append]
    by_cases h1 : w.d.listenSocket ≠ -1 <;>
    by_cases h2 : (w.d.fullServerName ≠ "" ∧
      testFlag (optionsForPlatform P w.d.socketOptions) P.AbstractNamespaceOption = false)
    · simp only [if_pos h1, if_pos h2, List.mem_singleton, reduceCtorEq, false_or,
        OsCall.fileRemove.injEq]
      exact ⟨fun h => ⟨h2.1, h2.2, h⟩, fun h => h.2.2⟩
    · simp only [if_pos h1, if_neg h2, List.mem_singleton, reduceCtorEq, false_or,
        List.not_mem_nil, false_iff]
      exact fun h => h2 ⟨h.1, h.2.1⟩
    · simp only [if_neg h1, if_pos h2, List.mem_singleton, List.not_mem_nil, false_or,
        OsCall.fileRemove.injEq]
      exact ⟨fun h => ⟨h2.1, h2.2, h⟩, fun h => h.2.2⟩
    · simp only [if_neg h1, if_neg h2, List.not_mem_nil, false_or, false_iff]
      exact fun h => h2 ⟨h.1, h.2.1⟩
  refine ⟨hmain, ?_, ?_⟩
  · intro os name w hok ha p hp
    obtain ⟨-, hopt⟩ := listen_success_state P os name w hok
    have h := ((hmain _ p).1 hp).2.1
    rw [effectiveOptions, hopt] at h
    rw [effectiveOptions, h] at ha
    cases ha
  · intro os name w hok hna
    obtain ⟨hfull, hopt⟩ := listen_success_state P os name w hok
    rw [hmain]
    refine ⟨?_, ?_, hfull.symm⟩
    · rw [hfull]
      exact resolveFullServerName_ne_empty P _ name hna
    · rw [effectiveOptions, hopt]
      exact hna

/-- C19, at concrete inputs: closing the bound sample listener removes
"/tmp/foo"; closing after an abstract-namespace listen removes nothing. -/
theorem closeServer_removes_recorded_path_witness :
    OsCall.fileRemove "/tmp/foo" ∈
      issued (boundSample 30) (closeServer linux (boundSample 30)) ∧
    (∀ p, OsCall.fileRemove p ∉
      issued (listen linux allSucceed "foo" (initial 8 30 50 0)).2
        (closeServer linux (listen linux allSucceed "foo" (initial 8 30 50 0)).2)) :=
  ⟨((closeServer_removes_recorded_path linux).1 (boundSample 30) "/tmp/foo").2 (by decide),
   (closeServer_removes_recorded_path linux).2.1 allSucceed "foo" (initial 8 30 50 0) (by decide) (by decide)⟩

/-! ## removeServer -/

/-- C20: `removeServer(name)` works on the path that a non-abstract `listen(name)`
resolves: the name itself if it starts with a slash, otherwise the cleaned
temporary-directory path, a slash and the name.  When no file exists there it
returns true and removes nothing; otherwise it removes that file and returns
the result of the removal. -/
theorem removeServer_targets_resolved_path (P : Platform) (name : String) (removed : Bool) (o : Nat)
    (hna : testFlag o P.AbstractNamespaceOption = false) :
    removeServer P false removed name
      = (true, [OsCall.fileExists (resolveFullServerName P o name)]) ∧
    removeServer P true removed name
      = (removed, [OsCall.fileExists (resolveFullServerName P o name),
                   OsCall.fileRemove (resolveFullServerName P o name)]) ∧
    resolveFullServerName P o name
      = (if startsWith name '/' then name else P.tempPath ++ "/" ++ name) := by
  have h : resolveFullServerName P o name
      = (if startsWith name '/' then name else P.tempPath ++ "/" ++ name) := by
    unfold resolveFullServerName
    rw [hna, Bool.false_or]
  refine ⟨?_, ?_, h⟩
  · rw [h]
    simp [removeServer]
  · rw [h]
    simp [removeServer]

/-- C20, at concrete inputs: "foo" is looked up at "/tmp/foo" and found absent;
"/run/foo" exists and the failed removal is reported. -/
theorem removeServer_targets_resolved_path_witness :
    removeServer linux false true "foo" = (true, [OsCall.fileExists "/tmp/foo"]) ∧
    removeServer linux true false "/run/foo"
      = (false, [OsCall.fileExists "/run/foo", OsCall.fileRemove "/run/foo"]) := by
  refine ⟨?_, ?_⟩
  · exact ((removeServer_targets_resolved_path linux "foo" true 0 (by decide)).1).trans (by decide)
  · exact ((removeServer_targets_resolved_path linux "/run/foo" false 0 (by decide)).2.1).trans (by decide)

/-! ## Auxiliary facts about flags, the address buffer and closeServer -/

/-- The bits of `QFlags::setFlag`. -/
theorem setFlag_testBit (i f : Nat) (b : Bool) (k : Nat) :
    (setFlag i f b).testBit k = if b then (i.testBit k || f.testBit k)
      else (i.testBit k && !f.testBit k) := by
  unfold setFlag
  cases b
  · simp only [Bool.false_eq_true, if_false, Nat.testBit_xor, Nat.testBit_land]
    cases i.testBit k <;> cases f.testBit k <;> rfl
  · simp only [if_true, Nat.testBit_lor]

/-- After `setFlag` with a non-zero flag, `testFlag` of that flag is the value set. -/
theorem testFlag_setFlag (i f : Nat) (b : Bool) (hf : f ≠ 0) :
    testFlag (setFlag i f b) f = b := by
  cases b
  · have h : (setFlag i f false) &&& f = 0 := by
      apply Nat.eq_of_testBit_eq
      intro k
      rw [Nat.testBit_land, setFlag_testBit]
      simp only [Bool.false_eq_true, if_false, Nat.zero_testBit]
      cases i.testBit k <;> cases f.testBit k <;> rfl
    simp only [testFlag, h, Bool.and_eq_false_imp, beq_iff_eq]
    intro h0
    exact absurd h0.symm hf
  · have h : (setFlag i f true) &&& f = f := by
      simp only [setFlag, if_true]
      exact lor_land_right i f
    simp [testFlag, h, hf]

/-- The calls of `closeServer` contain no `bind`, whatever its arguments. -/
theorem not_bind_mem_closeCalls (P : Platform) (d : QLocalServerPrivate) (fd : Int)
    (sp : List Nat) (n : Nat) : OsCall.bind fd sp n ∉ closeCalls P d := by
  intro hc
  have := (closeCalls_no_stage_call P d _ hc).1
  simp [OsCall.isBind] at this

/-- Every `bind` issued by `listen(name)` follows the length checks and carries the address of
`bindAddress`. -/
theorem bind_of_issued (P : Platform) (os : ListenOutcomes) (name : String) (w : World)
    (fd : Int) (sp : List Nat) (n : Nat)
    (hcall : OsCall.bind fd sp n ∈ issued w (listen P os name w).2) :
    ∃ tp : List Nat,
      passesLengthChecks P (effectiveOptions P w) tp
        (P.encodeName (resolveFullServerName P (effectiveOptions P w) name)) = true ∧
      sp = (bindAddress P (effectiveOptions P w) tp
        (P.encodeName (resolveFullServerName P (effectiveOptions P w) name))).1 ∧
      n = (bindAddress P (effectiveOptions P w) tp
        (P.encodeName (resolveFullServerName P (effectiveOptions P w) name))).2 ∧
      (∃ s : Nat, os.socket = Except.ok s ∧ fd = (s : Int)) ∧
      (anyFlag (effectiveOptions P w) P.WorldAccessOption = true →
        ∃ dir, os.tempDir = Except.ok dir ∧ tp = P.encodeName (dir ++ "/s")) := by
  have hx := listen_exit P os name w
  generalize listen P os name w = r at hx hcall ⊢
  cases hx with
  | tempDirFailed e hw ht =>
    simp [issued_append] at hcall
  | viaTempDir dir r hw ht hr =>
    cases hr with
    | socketFailed e hs =>
      simp only [World.log, named, List.append_assoc, List.cons_append, List.singleton_append,
        List.nil_append, issued_append, List.mem_cons, List.mem_append, List.mem_singleton,
        List.not_mem_nil, or_false, false_or, reduceCtorEq, OsCall.bind.injEq] at hcall
      exact absurd hcall (not_bind_mem_closeCalls _ _ _ _ _)
    | tooLong fd' hs hlen =>
      simp only [World.log, named, List.append_assoc, List.cons_append, List.singleton_append,
        List.nil_append, issued_append, List.mem_cons, List.mem_append, List.mem_singleton,
        List.not_mem_nil, or_false, false_or, reduceCtorEq, OsCall.bind.injEq] at hcall
      exact absurd hcall (not_bind_mem_closeCalls _ _ _ _ _)
    | bindInUse fd' hs hlen hb =>
      simp only [World.log, named, List.append_assoc, List.cons_append, List.singleton_append,
        List.nil_append, issued_append, List.mem_cons, List.mem_append, List.mem_singleton,
        List.not_mem_nil, or_false, false_or, reduceCtorEq, OsCall.bind.injEq] at hcall
      obtain ⟨h1, h2, h3⟩ := hcall
      exact ⟨_, hlen, h2, h3, ⟨fd', hs, h1⟩, fun _ => ⟨dir, ht, rfl⟩⟩
    | bindFailed fd' e hs hlen hb he =>
      simp only [World.log, named, List.append_assoc, List.cons_append, List.singleton_append,
        List.nil_append, issued_append, List.mem_cons, List.mem_append, List.mem_singleton,
        List.not_mem_nil, or_false, false_or, reduceCtorEq, OsCall.bind.injEq] at hcall
      rcases hcall with ⟨h1, h2, h3⟩ | hcall
      · exact ⟨_, hlen, h2, h3, ⟨fd', hs, h1⟩, fun _ => ⟨dir, ht, rfl⟩⟩
      · exact absurd hcall (not_bind_mem_closeCalls _ _ _ _ _)
    | listenFailed fd' e hs hlen hb hl =>
      simp only [World.log, named, List.append_assoc, List.cons_append, List.singleton_append,
        List.nil_append, issued_append, List.mem_cons, List.mem_append, List.mem_singleton,
        List.not_mem_nil, or_false, false_or, reduceCtorEq, OsCall.bind.injEq] at hcall
      rcases hcall with ⟨h1, h2, h3⟩ | hcall
      · exact ⟨_, hlen, h2, h3, ⟨fd', hs, h1⟩, fun _ => ⟨dir, ht, rfl⟩⟩
      · exact absurd hcall (not_bind_mem_closeCalls _ _ _ _ _)
    | chmodFailed fd' e hs hlen hb hl hw' hc =>
      simp only [World.log, named, List.append_assoc, List.cons_append, List.singleton_append,
        List.nil_append, issued_append, List.mem_cons, List.mem_append, List.mem_singleton,
        List.not_mem_nil, or_false, false_or, reduceCtorEq, OsCall.bind.injEq] at hcall
      rcases hcall with ⟨h1, h2, h3⟩ | hcall
      · exact ⟨_, hlen, h2, h3, ⟨fd', hs, h1⟩, fun _ => ⟨dir, ht, rfl⟩⟩
      · exact absurd hcall (not_bind_mem_closeCalls _ _ _ _ _)
    | renameFailed fd' e hs hlen hb hl hw' hc hr =>
      simp only [World.log, named, List.append_assoc, List.cons_append, List.singleton_append,
        List.nil_append, issued_append, List.mem_cons, List.mem_append, List.mem_singleton,
        List.not_mem_nil, or_false, false_or, reduceCtorEq, OsCall.bind.injEq] at hcall
      rcases hcall with ⟨h1, h2, h3⟩ | hcall
      · exact ⟨_, hlen, h2, h3, ⟨fd', hs, h1⟩, fun _ => ⟨dir, ht, rfl⟩⟩
      · exact absurd hcall (not_bind_mem_closeCalls _ _ _ _ _)
    | published fd' hs hlen hb hl hw' hc hr =>
      simp only [World.log, named, List.append_assoc, List.cons_append, List.singleton_append,
        List.nil_append, issued_append, List.mem_cons, List.mem_append, List.mem_singleton,
        List.not_mem_nil, or_false, false_or, reduceCtorEq, OsCall.bind.injEq] at hcall
      obtain ⟨h1, h2, h3⟩ := hcall
      exact ⟨_, hlen, h2, h3, ⟨fd', hs, h1⟩, fun _ => ⟨dir, ht, rfl⟩⟩
    | listening fd' hs hlen hb hl hw' =>
      simp only [World.log, named, List.append_assoc, List.cons_append, List.singleton_append,
        List.nil_append, issued_append, List.mem_cons, List.mem_append, List.mem_singleton,
        List.not_mem_nil, or_false, false_or, reduceCtorEq, OsCall.bind.injEq] at hcall
      obtain ⟨h1, h2, h3⟩ := hcall
      exact ⟨_, hlen, h2, h3, ⟨fd', hs, h1⟩, fun _ => ⟨dir, ht, rfl⟩⟩
  | direct r hw hr =>
    cases hr with
    | socketFailed e hs =>
      simp only [World.log, named, List.append_assoc, List.cons_append, List.singleton_append,
        List.nil_append, issued_append, List.mem_cons, List.mem_append, List.mem_singleton,
        List.not_mem_nil, or_false, false_or, reduceCtorEq, OsCall.bind.injEq] at hcall
      exact absurd hcall (not_bind_mem_closeCalls _ _ _ _ _)
    | tooLong fd' hs hlen =>
      simp only [World.log, named, List.append_assoc, List.cons_append, List.singleton_append,
        List.nil_append, issued_append, List.mem_cons, List.mem_append, List.mem_singleton,
        List.not_mem_nil, or_false, false_or, reduceCtorEq, OsCall.bind.injEq] at hcall
      exact absurd hcall (not_bind_mem_closeCalls _ _ _ _ _)
    | bindInUse fd' hs hlen hb =>
      simp only [World.log, named, List.append_assoc, List.cons_append, List.singleton_append,
        List.nil_append, issued_append, List.mem_cons, List.mem_append, List.mem_singleton,
        List.not_mem_nil, or_false, false_or, reduceCtorEq, OsCall.bind.injEq] at hcall
      obtain ⟨h1, h2, h3⟩ := hcall
      exact ⟨_, hlen, h2, h3, ⟨fd', hs, h1⟩, fun h => by rw [hw] at h; cases h⟩
    | bindFailed fd' e hs hlen hb he =>
      simp only [World.log, named, List.append_assoc, List.cons_append, List.singleton_append,
        List.nil_append, issued_append, List.mem_cons, List.mem_append, List.mem_singleton,
        List.not_mem_nil, or_false, false_or, reduceCtorEq, OsCall.bind.injEq] at hcall
      rcases hcall with ⟨h1, h2, h3⟩ | hcall
      · exact ⟨_, hlen, h2, h3, ⟨fd', hs, h1⟩, fun h => by rw [hw] at h; cases h⟩
      · exact absurd hcall (not_bind_mem_closeCalls _ _ _ _ _)
    | listenFailed fd' e hs hlen hb hl =>
      simp only [World.log, named, List.append_assoc, List.cons_append, List.singleton_append,
        List.nil_append, issued_append, List.mem_cons, List.mem_append, List.mem_singleton,
        List.not_mem_nil, or_false, false_or, reduceCtorEq, OsCall.bind.injEq] at hcall
      rcases hcall with ⟨h1, h2, h3⟩ | hcall
      · exact ⟨_, hlen, h2, h3, ⟨fd', hs, h1⟩, fun h => by rw [hw] at h; cases h⟩
      · exact absurd hcall (not_bind_mem_closeCalls _ _ _ _ _)
    | chmodFailed fd' e hs hlen hb hl hw' hc =>
      simp only [World.log, named, List.append_assoc, List.cons_append, List.singleton_append,
        List.nil_append, issued_append, List.mem_cons, List.mem_append, List.mem_singleton,
        List.not_mem_nil, or_false, false_or, reduceCtorEq, OsCall.bind.injEq] at hcall
      rcases hcall with ⟨h1, h2, h3⟩ | hcall
      · exact ⟨_, hlen, h2, h3, ⟨fd', hs, h1⟩, fun h => by rw [hw] at h; cases h⟩
      · exact absurd hcall (not_bind_mem_closeCalls _ _ _ _ _)
    | renameFailed fd' e hs hlen hb hl hw' hc hr =>
      simp only [World.log, named, List.append_assoc, List.cons_append, List.singleton_append,
        List.nil_append, issued_append, List.mem_cons, List.mem_append, List.mem_singleton,
        List.not_mem_nil, or_false, false_or, reduceCtorEq, OsCall.bind.injEq] at hcall
      rcases hcall with ⟨h1, h2, h3⟩ | hcall
      · exact ⟨_, hlen, h2, h3, ⟨fd', hs, h1⟩, fun h => by rw [hw] at h; cases h⟩
      · exact absurd hcall (not_bind_mem_closeCalls _ _ _ _ _)
    | published fd' hs hlen hb hl hw' hc hr =>
      simp only [World.log, named, List.append_assoc, List.cons_append, List.singleton_append,
        List.nil_append, issued_append, List.mem_cons, List.mem_append, List.mem_singleton,
        List.not_mem_nil, or_false, false_or, reduceCtorEq, OsCall.bind.injEq] at hcall
      obtain ⟨h1, h2, h3⟩ := hcall
      exact ⟨_, hlen, h2, h3, ⟨fd', hs, h1⟩, fun h => by rw [hw] at h; cases h⟩
    | listening fd' hs hlen hb hl hw' =>
      simp only [World.log, named, List.append_assoc, List.cons_append, List.singleton_append,
        List.nil_append, issued_append, List.mem_cons, List.mem_append, List.mem_singleton,
        List.not_mem_nil, or_false, false_or, reduceCtorEq, OsCall.bind.injEq] at hcall
      obtain ⟨h1, h2, h3⟩ := hcall
      exact ⟨_, hlen, h2, h3, ⟨fd', hs, h1⟩, fun h => by rw [hw] at h; cases h⟩

/-- Where AbstractNamespace is a flag of its own, it is effective only on a platform that
supports it. -/
theorem abstract_requires_support (P : Platform) (hf : P.FlagsSeparate) (o : Nat)
    (ha : testFlag (optionsForPlatform P o) P.AbstractNamespaceOption = true) :
    P.PlatformSupportsAbstractNamespace = true := by
  obtain ⟨h0, hd⟩ := hf
  unfold optionsForPlatform at ha
  by_cases ho : testFlag o P.AbstractNamespaceOption = true
  · rw [if_pos ho] at ha
    by_cases hs : P.PlatformSupportsAbstractNamespace = true
    · exact hs
    · rw [if_neg hs] at ha
      simp only [testFlag, Bool.and_eq_true, beq_iff_eq] at ha
      rw [Nat.land_comm, hd] at ha
      exact absurd ha.1.symm h0
  · rw [if_neg ho] at ha
    exact absurd ha ho

/-- A copy into the zeroed buffer that ends inside it: the layout of the result and its length. -/
theorem memcpy_zeros (cap off : Nat) (src : List Nat) (h : off + src.length ≤ cap) :
    memcpy (List.replicate cap 0) off src
      = List.replicate off 0 ++ src ++ List.replicate (cap - (off + src.length)) 0 ∧
    (memcpy (List.replicate cap 0) off src).length = cap := by
  have h1 : memcpy (List.replicate cap 0) off src
      = List.replicate off 0 ++ src ++ List.replicate (cap - (off + src.length)) 0 := by
    unfold memcpy
    rw [List.take_replicate, List.drop_replicate, Nat.min_eq_left (by omega)]
  refine ⟨h1, ?_⟩
  rw [h1]
  simp only [List.length_append, List.length_replicate]
  omega

/-- A copy of a byte string and its final NUL into the zeroed buffer, ending inside it. -/
theorem memcpy_withNul (cap off : Nat) (body : List Nat) (h : off + body.length + 1 ≤ cap) :
    memcpy (List.replicate cap 0) off (withNul body)
      = List.replicate off 0 ++ body ++ List.replicate (cap - (off + body.length)) 0 ∧
    (memcpy (List.replicate cap 0) off (withNul body)).length = cap := by
  have hl : (withNul body).length = body.length + 1 := by
    simp [withNul]
  obtain ⟨h1, h2⟩ := memcpy_zeros cap off (withNul body) (by rw [hl]; omega)
  refine ⟨?_, h2⟩
  rw [h1, hl]
  have : cap - (off + body.length) = (cap - (off + (body.length + 1))) + 1 := by omega
  rw [this, List.replicate_succ]
  simp [withNul]

/-- What the two length checks guarantee about the lengths. -/
theorem passes_bounds (P : Platform) (o : Nat) (tp fp : List Nat)
    (hlen : passesLengthChecks P o tp fp = true) :
    fp.length + (if P.PlatformSupportsAbstractNamespace then 2 else 1) ≤ P.sunPathSize ∧
    (testFlag o P.AbstractNamespaceOption = false → anyFlag o P.WorldAccessOption = true →
      tp.length + 1 ≤ P.sunPathSize) := by
  simp only [passesLengthChecks, nameTooLong, extraCharacters, Bool.and_eq_true,
    Bool.not_eq_true', decide_eq_false_iff_not, Bool.or_eq_true] at hlen
  obtain ⟨h1, h2⟩ := hlen
  refine ⟨(by omega), fun ha hw => ?_⟩
  rcases h2 with (h2 | h2) | h2
  · rw [ha] at h2; cases h2
  · rw [hw] at h2; cases h2
  · omega

/-- With no descriptor and a recorded filesystem path, `closeServer` issues just the removal. -/
theorem closeCalls_unbound_path (P : Platform) (d : QLocalServerPrivate)
    (hfd : d.listenSocket = -1) (hpath : d.fullServerName ≠ "")
    (hna : testFlag (optionsForPlatform P d.socketOptions) P.AbstractNamespaceOption = false) :
    closeCalls P d = [OsCall.fileRemove d.fullServerName] := by
  unfold closeCalls
  simp [hfd, hpath, hna]

/-- With a descriptor and a recorded filesystem path, `closeServer` closes and removes. -/
theorem closeCalls_bound_path (P : Platform) (d : QLocalServerPrivate)
    (hfd : d.listenSocket ≠ -1) (hpath : d.fullServerName ≠ "")
    (hna : testFlag (optionsForPlatform P d.socketOptions) P.AbstractNamespaceOption = false) :
    closeCalls P d = [OsCall.close d.listenSocket, OsCall.fileRemove d.fullServerName] := by
  unfold closeCalls
  simp [hfd, hpath, hna]

/-! ## listen(descriptor) -/

/-- C21: for every descriptor, `listen(descriptor)` returns true, stores the
descriptor and registers the notifier on it, enabled exactly when
maxPendingConnections > 0.  When the introspection fails (`getsockname` fails
or `parseSockaddr` returns false) the server name, the full path and the
options are left as they were.  When it succeeds the names are the parsed ones,
the AbstractNamespace flag (a non-zero flag) is set exactly when the parsed
address is abstract, and every option bit outside that flag keeps its value. -/
theorem listenDescriptor_adopts (P : Platform) (getsocknameOk : Bool) (parsed : Option ParsedSockaddr)
    (socketDescriptor : Int) (w : World) :
    (listenDescriptor P getsocknameOk parsed socketDescriptor w).1 = true ∧
    (listenDescriptor P getsocknameOk parsed socketDescriptor w).2.d.listenSocket
      = socketDescriptor ∧
    (listenDescriptor P getsocknameOk parsed socketDescriptor w).2.d.socketNotifier
      = some { socket := socketDescriptor, enabled := decide (w.d.maxPendingConnections > 0) } ∧
    ((getsocknameOk = false ∨ parsed = none) →
      (listenDescriptor P getsocknameOk parsed socketDescriptor w).2.d.serverName
        = w.d.serverName ∧
      (listenDescriptor P getsocknameOk parsed socketDescriptor w).2.d.fullServerName
        = w.d.fullServerName ∧
      (listenDescriptor P getsocknameOk parsed socketDescriptor w).2.d.socketOptions
        = w.d.socketOptions) ∧
    (∀ a : ParsedSockaddr, getsocknameOk = true → parsed = some a →
      (listenDescriptor P getsocknameOk parsed socketDescriptor w).2.d.serverName
        = a.serverName ∧
      (listenDescriptor P getsocknameOk parsed socketDescriptor w).2.d.fullServerName
        = a.fullServerName ∧
      (P.AbstractNamespaceOption ≠ 0 →
        testFlag (listenDescriptor P getsocknameOk parsed socketDescriptor w).2.d.socketOptions
          P.AbstractNamespaceOption = a.abstractAddress) ∧
      (∀ k, P.AbstractNamespaceOption.testBit k = false →
        (listenDescriptor P getsocknameOk parsed socketDescriptor w).2.d.socketOptions.testBit k
          = w.d.socketOptions.testBit k)) := by
  refine ⟨rfl, ?_, ?_, ?_, ?_⟩
  · cases getsocknameOk <;> cases parsed <;> rfl
  · cases getsocknameOk <;> cases parsed <;> rfl
  · rintro (h | h)
    · subst h
      exact ⟨rfl, rfl, rfl⟩
    · subst h
      cases getsocknameOk <;> exact ⟨rfl, rfl, rfl⟩
  · intro a hok hp
    subst hok hp
    refine ⟨rfl, rfl, ?_, ?_⟩
    · intro hne
      exact testFlag_setFlag _ _ _ hne
    · intro k hk
      show (setFlag w.d.socketOptions P.AbstractNamespaceOption a.abstractAddress).testBit k = _
      rw [setFlag_testBit, hk]
      cases a.abstractAddress <;> simp

/-- C21, at concrete inputs: adopting a descriptor whose address parses as
abstract sets AbstractNamespace on options 3; a failed introspection leaves
options 3 as they were. -/
theorem listenDescriptor_adopts_witness :
    testFlag (listenDescriptor linux true
        (some { fullServerName := "foo", serverName := "foo", abstractAddress := true }) 9
        (initial 3 30 50 0)).2.d.socketOptions linux.AbstractNamespaceOption = true ∧
    (listenDescriptor linux false none 9 (initial 3 30 50 0)).2.d.socketOptions = 3 :=
  ⟨((listenDescriptor_adopts linux true (some { fullServerName := "foo", serverName := "foo", abstractAddress := true })
      9 (initial 3 30 50 0)).2.2.2.2 _ rfl rfl).2.2.1 (by decide),
   ((listenDescriptor_adopts linux false none 9 (initial 3 30 50 0)).2.2.2.1 (Or.inl rfl)).2.2⟩

/-! ## listen(name): the address handed to bind -/

/-- C22: every `bind` that `listen(name)` issues, hence for every name that passed
the length checks, carries a `sun_path` buffer of exactly the capacity, laid out
as follows.  In the abstract-namespace form byte 0 is zero, bytes 1..n are the n
encoded name bytes, all remaining bytes are zero, and the address length is the
header size plus n plus 1.  In the filesystem form the buffer is the bind path
(the socket path in the temporary directory under WorldAccess, the encoded full
path otherwise) followed by zero bytes, at least one, and the address length is
the size of the whole structure. -/
theorem bind_address_layout (P : Platform) (os : ListenOutcomes) (name : String) (w : World)
    (fd : Int) (sp : List Nat) (n : Nat)
    (hflags : P.FlagsSeparate)
    (hcall : OsCall.bind fd sp n ∈ issued w (listen P os name w).2) :
    (testFlag (effectiveOptions P w) P.AbstractNamespaceOption = true →
      sp = 0 :: P.encodeName (resolveFullServerName P (effectiveOptions P w) name) ++
        List.replicate (P.sunPathSize -
          (1 + (P.encodeName (resolveFullServerName P (effectiveOptions P w) name)).length)) 0 ∧
      n = P.sunPathOffset +
        (P.encodeName (resolveFullServerName P (effectiveOptions P w) name)).length + 1) ∧
    (testFlag (effectiveOptions P w) P.AbstractNamespaceOption = false →
      ∃ path : List Nat,
        (anyFlag (effectiveOptions P w) P.WorldAccessOption = false →
          path = P.encodeName (resolveFullServerName P (effectiveOptions P w) name)) ∧
        (anyFlag (effectiveOptions P w) P.WorldAccessOption = true →
          ∃ dir, os.tempDir = Except.ok dir ∧ path = P.encodeName (dir ++ "/s")) ∧
        sp = path ++ List.replicate (P.sunPathSize - path.length) 0 ∧
        path.length < P.sunPathSize ∧
        n = P.sockaddrSize) ∧
    sp.length = P.sunPathSize := by
  obtain ⟨tp, hlen, hsp, hn, -, htp⟩ := bind_of_issued P os name w fd sp n hcall
  obtain ⟨hb1, hb2⟩ := passes_bounds P _ tp _ hlen
  by_cases ha : testFlag (effectiveOptions P w) P.AbstractNamespaceOption = true
  · have hsup := abstract_requires_support P hflags w.d.socketOptions ha
    rw [hsup, if_pos rfl] at hb1
    obtain ⟨hm1, hm2⟩ := memcpy_withNul P.sunPathSize 1
      (P.encodeName (resolveFullServerName P (effectiveOptions P w) name)) (by omega)
    simp only [bindAddress, ha, if_true] at hsp hn
    refine ⟨fun _ => ⟨?_, hn⟩, fun h => (by rw [ha] at h; cases h), (by rw [hsp]; exact hm2)⟩
    rw [hsp, hm1]
    rfl
  · have ha' : testFlag (effectiveOptions P w) P.AbstractNamespaceOption = false := by
      simpa using ha
    by_cases hw : anyFlag (effectiveOptions P w) P.WorldAccessOption = true
    · have hfit := hb2 ha' hw
      obtain ⟨hm1, hm2⟩ := memcpy_withNul P.sunPathSize 0 tp (by omega)
      simp only [bindAddress, ha', hw, Bool.false_eq_true, if_false, if_true] at hsp hn
      refine ⟨fun h => absurd h ha, fun _ => ⟨tp, fun h => (by rw [hw] at h; cases h),
        fun _ => htp hw, ?_, (by omega), hn⟩, (by rw [hsp]; exact hm2)⟩
      rw [hsp, hm1]
      simp
    · have hw' : anyFlag (effectiveOptions P w) P.WorldAccessOption = false := by
        simpa using hw
      have hfit : (P.encodeName (resolveFullServerName P (effectiveOptions P w) name)).length
          + 1 ≤ P.sunPathSize := by
        split_ifs at hb1 <;> omega
      obtain ⟨hm1, hm2⟩ := memcpy_withNul P.sunPathSize 0
        (P.encodeName (resolveFullServerName P (effectiveOptions P w) name)) (by omega)
      simp only [bindAddress, ha', hw', Bool.false_eq_true, if_false] at hsp hn
      refine ⟨fun h => absurd h ha, fun _ => ⟨_, fun _ => rfl,
        fun h => (by rw [hw'] at h; cases h), ?_, (by omega), hn⟩, (by rw [hsp]; exact hm2)⟩
      rw [hsp, hm1]
      simp

/-- C22, at a concrete input: the abstract-namespace address of "foo" on the
sample platform starts 0, 'f', 'o', 'o', 0, is 108 bytes long, and is bound with
address length 2 + 3 + 1. -/
theorem bind_address_layout_witness :
    ∃ sp : List Nat, OsCall.bind 5 sp 6 ∈
        issued (initial 8 30 50 0) (listen linux allSucceed "foo" (initial 8 30 50 0)).2 ∧
      sp.length = 108 ∧ sp.take 5 = [0, 102, 111, 111, 0] := by
  have hmem : OsCall.bind 5 (memcpy (List.replicate 108 0) 1 (withNul (linux.encodeName "foo"))) 6
      ∈ issued (initial 8 30 50 0) (listen linux allSucceed "foo" (initial 8 30 50 0)).2 := by
    decide
  exact ⟨_, hmem, (bind_address_layout linux allSucceed "foo" (initial 8 30 50 0) 5 _ 6 (by decide) hmem).2.2,
    by decide⟩

/-! ## listen(name): the copies into the address buffer -/

/-- C23: every copy into the address buffer that `listen(name)` makes stays inside
the buffer: the buffer handed to `bind` is the zeroed buffer with `src` copied
at `offset`, where `offset` plus the number of bytes copied does not exceed the
capacity.  The abstract form copies n+1 bytes at offset 1 and n+2 <= capacity
holds, because the abstract form is effective only where the platform supports
it and the length check then used overhead 2; the filesystem form copies n+1
bytes at offset 0 with n+1 <= capacity; the WorldAccess form copies the
temporary path with its final NUL only after its own length check. -/
theorem address_copies_stay_inside (P : Platform) (os : ListenOutcomes) (name : String) (w : World)
    (fd : Int) (sp : List Nat) (n : Nat)
    (hflags : P.FlagsSeparate)
    (hcall : OsCall.bind fd sp n ∈ issued w (listen P os name w).2) :
    ∃ (offset : Nat) (src : List Nat),
      sp = memcpy (List.replicate P.sunPathSize 0) offset src ∧
      offset + src.length ≤ P.sunPathSize ∧
      sp.length = P.sunPathSize ∧
      (testFlag (effectiveOptions P w) P.AbstractNamespaceOption = true →
        P.PlatformSupportsAbstractNamespace = true ∧ offset = 1 ∧
        src = withNul (P.encodeName (resolveFullServerName P (effectiveOptions P w) name)) ∧
        (P.encodeName (resolveFullServerName P (effectiveOptions P w) name)).length + 2
          ≤ P.sunPathSize) ∧
      (testFlag (effectiveOptions P w) P.AbstractNamespaceOption = false →
        anyFlag (effectiveOptions P w) P.WorldAccessOption = false →
        offset = 0 ∧
        src = withNul (P.encodeName (resolveFullServerName P (effectiveOptions P w) name)) ∧
        (P.encodeName (resolveFullServerName P (effectiveOptions P w) name)).length + 1
          ≤ P.sunPathSize) ∧
      (testFlag (effectiveOptions P w) P.AbstractNamespaceOption = false →
        anyFlag (effectiveOptions P w) P.WorldAccessOption = true →
        offset = 0 ∧
        ∃ dir, os.tempDir = Except.ok dir ∧ src = withNul (P.encodeName (dir ++ "/s")) ∧
          (P.encodeName (dir ++ "/s")).length + 1 ≤ P.sunPathSize) := by
  obtain ⟨tp, hlen, hsp, hn, -, htp⟩ := bind_of_issued P os name w fd sp n hcall
  obtain ⟨hb1, hb2⟩ := passes_bounds P _ tp _ hlen
  have hl : ∀ body : List Nat, (withNul body).length = body.length + 1 := by
    intro body; simp [withNul]
  by_cases ha : testFlag (effectiveOptions P w) P.AbstractNamespaceOption = true
  · have hsup := abstract_requires_support P hflags w.d.socketOptions ha
    rw [hsup, if_pos rfl] at hb1
    simp only [bindAddress, ha, if_true] at hsp
    refine ⟨1, _, hsp, (by rw [hl]; omega), ?_, fun _ => ⟨hsup, rfl, rfl, hb1⟩,
      fun h => (by rw [ha] at h; cases h), fun h => (by rw [ha] at h; cases h)⟩
    rw [hsp]
    exact (memcpy_withNul _ _ _ (by omega)).2
  · have ha' : testFlag (effectiveOptions P w) P.AbstractNamespaceOption = false := by
      simpa using ha
    by_cases hw : anyFlag (effectiveOptions P w) P.WorldAccessOption = true
    · have hfit := hb2 ha' hw
      obtain ⟨dir, hdir, htp'⟩ := htp hw
      simp only [bindAddress, ha', hw, Bool.false_eq_true, if_false, if_true] at hsp
      refine ⟨0, _, hsp, (by rw [hl]; omega), ?_, fun h => absurd h ha,
        fun _ h => (by rw [hw] at h; cases h),
        fun _ _ => ⟨rfl, dir, hdir, by rw [htp'], by rw [← htp']; exact hfit⟩⟩
      rw [hsp]
      exact (memcpy_withNul _ _ _ (by omega)).2
    · have hw' : anyFlag (effectiveOptions P w) P.WorldAccessOption = false := by
        simpa using hw
      have hfit : (P.encodeName (resolveFullServerName P (effectiveOptions P w) name)).length
          + 1 ≤ P.sunPathSize := by
        split_ifs at hb1 <;> omega
      simp only [bindAddress, ha', hw', Bool.false_eq_true, if_false] at hsp
      refine ⟨0, _, hsp, (by rw [hl]; omega), ?_, fun h => absurd h ha,
        fun _ _ => ⟨rfl, rfl, hfit⟩, fun _ h => (by rw [hw'] at h; cases h)⟩
      rw [hsp]
      exact (memcpy_withNul _ _ _ (by omega)).2

/-- C23, at a concrete input: the copy behind the `bind` of "/tmp/foo" on the
sample platform ends inside the 108-byte buffer. -/
theorem address_copies_stay_inside_witness :
    ∃ (sp : List Nat) (offset : Nat) (src : List Nat),
      OsCall.bind 5 sp 110 ∈
        issued (initial 0 30 50 0) (listen linux allSucceed "foo" (initial 0 30 50 0)).2 ∧
      sp = memcpy (List.replicate linux.sunPathSize 0) offset src ∧
      offset + src.length ≤ linux.sunPathSize := by
  have hmem : OsCall.bind 5
      (memcpy (List.replicate 108 0) 0 (withNul (linux.encodeName "/tmp/foo"))) 110
      ∈ issued (initial 0 30 50 0) (listen linux allSucceed "foo" (initial 0 30 50 0)).2 := by
    decide
  obtain ⟨offset, src, h1, h2, -⟩ :=
    address_copies_stay_inside linux allSucceed "foo" (initial 0 30 50 0) 5 _ 110 (by decide) hmem
  exact ⟨_, offset, src, hmem, h1, h2⟩

/-! ## _q_onNewConnection: accept fails with EAGAIN -/

/-- C24: when the accept in `_q_onNewConnection` fails with errno EAGAIN on a
bound listener, `closeServer` still runs: the descriptor is closed and absent,
both names are cleared and the notifier is released, while the last-error kind
and message are exactly what they were before the call. -/
theorem accept_eagain_tears_down_silently (P : Platform) (w : World) (hbound : w.d.listenSocket ≠ -1) :
    (_q_onNewConnection P (Except.error P.EAGAIN) w).d = tornDown w.d ∧
    (_q_onNewConnection P (Except.error P.EAGAIN) w).d.listenSocket = -1 ∧
    (_q_onNewConnection P (Except.error P.EAGAIN) w).d.socketNotifier = none ∧
    (_q_onNewConnection P (Except.error P.EAGAIN) w).d.serverName = "" ∧
    (_q_onNewConnection P (Except.error P.EAGAIN) w).d.fullServerName = "" ∧
    (_q_onNewConnection P (Except.error P.EAGAIN) w).d.error = w.d.error ∧
    (_q_onNewConnection P (Except.error P.EAGAIN) w).d.errorString = w.d.errorString ∧
    OsCall.close w.d.listenSocket ∈ issued w (_q_onNewConnection P (Except.error P.EAGAIN) w) := by
  have h : _q_onNewConnection P (Except.error P.EAGAIN) w
      = { d := tornDown w.d
          errno := P.EAGAIN
          calls := w.calls ++ OsCall.accept w.d.listenSocket :: closeCalls P w.d } := by
    unfold _q_onNewConnection
    rw [if_neg hbound]
    simp only [closeServer_eq, setError, setErrorWith, World.log, if_true, List.append_assoc,
      List.singleton_append]
  rw [h]
  refine ⟨rfl, rfl, rfl, rfl, rfl, rfl, rfl, ?_⟩
  rw [issued_append]
  simp [closeCalls, hbound]

/-- C24, at a concrete input: errno 11 on the bound sample listener leaves
descriptor -1 and the empty error message it had. -/
theorem accept_eagain_tears_down_silently_witness :
    (_q_onNewConnection linux (Except.error 11) (boundSample 30)).d.listenSocket = -1 ∧
    (_q_onNewConnection linux (Except.error 11) (boundSample 30)).d.errorString = "" :=
  ⟨(accept_eagain_tears_down_silently linux (boundSample 30) (by decide)).2.1,
   (accept_eagain_tears_down_silently linux (boundSample 30) (by decide)).2.2.2.2.2.2.1.trans (by decide)⟩

/-! ## After a bind that failed with EADDRINUSE -/

/-- C25: with non-abstract effective options, after `listen(name)` failed at
`bind` with EADDRINUSE the descriptor is absent, the server name is the
requested name and the full path is the resolved one; a `closeServer` made in
that state issues exactly one call, the removal of the file at the resolved full
path.  Outside the WorldAccess form this is the very path the failed `bind`
was aimed at, the entry some other listener owns. -/
theorem names_kept_after_bind_in_use (P : Platform) (os : ListenOutcomes) (name : String) (w : World)
    (hna : testFlag (effectiveOptions P w) P.AbstractNamespaceOption = false)
    (hb : os.bind = some P.EADDRINUSE)
    (hreach : ∃ c ∈ issued w (listen P os name w).2, c.isBind = true) :
    (listen P os name w).1 = false ∧
    (listen P os name w).2.d.listenSocket = -1 ∧
    (listen P os name w).2.d.serverName = name ∧
    (listen P os name w).2.d.fullServerName
      = resolveFullServerName P (effectiveOptions P w) name ∧
    issued (listen P os name w).2 (closeServer P (listen P os name w).2)
      = [OsCall.fileRemove (resolveFullServerName P (effectiveOptions P w) name)] ∧
    (anyFlag (effectiveOptions P w) P.WorldAccessOption = false →
      ∃ fd : Nat, os.socket = Except.ok fd ∧
        OsCall.bind fd
          (memcpy (List.replicate P.sunPathSize 0) 0
            (withNul (P.encodeName (resolveFullServerName P (effectiveOptions P w) name))))
          P.sockaddrSize ∈ issued w (listen P os name w).2) := by
  have hne := resolveFullServerName_ne_empty P (effectiveOptions P w) name hna
  have hx := listen_exit P os name w
  generalize listen P os name w = r at hx hreach ⊢
  have hfin : ∀ (fd : Nat) (tail : List OsCall),
      issued
        { d := { setErrorWith P P.EADDRINUSE fnListen
                  { (named P name w).d with listenSocket := (fd : Int) } with listenSocket := -1 }
          errno := P.EADDRINUSE
          calls := tail }
        (closeServer P
          { d := { setErrorWith P P.EADDRINUSE fnListen
                    { (named P name w).d with listenSocket := (fd : Int) } with
                      listenSocket := -1 }
            errno := P.EADDRINUSE
            calls := tail })
        = [OsCall.fileRemove (resolveFullServerName P (effectiveOptions P w) name)] := by
    intro fd tail
    rw [closeServer_eq, issued_append]
    obtain ⟨-, -, -, h4, h5, -⟩ := setErrorWith_frame P P.EADDRINUSE fnListen
      { (named P name w).d with listenSocket := (fd : Int) }
    rw [closeCalls_unbound_path P _ rfl]
    · show [OsCall.fileRemove (setErrorWith P P.EADDRINUSE fnListen _).fullServerName] = _
      rw [h4]
      rfl
    · show (setErrorWith P P.EADDRINUSE fnListen _).fullServerName ≠ ""
      rw [h4]
      exact hne
    · show testFlag (optionsForPlatform P
        (setErrorWith P P.EADDRINUSE fnListen _).socketOptions) _ = false
      rw [h5]
      exact hna
  cases hx with
  | tempDirFailed e hw ht =>
    simp [issued_append, OsCall.isBind] at hreach
  | viaTempDir dir r hw ht hr =>
    cases hr with
    | bindInUse fd hs hlen hb' =>
      refine ⟨rfl, rfl, (setErrorWith_frame _ _ _ _).2.2.1, (setErrorWith_frame _ _ _ _).2.2.2.1,
        ?_, fun h => (by rw [hw] at h; cases h)⟩
      exact hfin fd _
    | socketFailed e hs =>
      exfalso
      simp only [World.log, named, List.append_assoc, List.cons_append, List.singleton_append,
        List.nil_append, issued_append] at hreach
      simp only [List.mem_cons, List.mem_append, List.mem_singleton, List.not_mem_nil,
        or_false] at hreach
      obtain ⟨c, hc, hcb⟩ := hreach
      rcases hc with hc | hc | hc | hc
      · subst hc; simp [OsCall.isBind] at hcb
      · subst hc; simp [OsCall.isBind] at hcb
      · exact not_isBind_of_mem_closeCalls P _ ⟨c, hc, hcb⟩
      · subst hc; simp [OsCall.isBind] at hcb
    | tooLong fd hs hlen =>
      exfalso
      simp only [World.log, named, List.append_assoc, List.cons_append, List.singleton_append,
        List.nil_append, issued_append] at hreach
      simp only [List.mem_cons, List.mem_append, List.mem_singleton, List.not_mem_nil,
        or_false] at hreach
      obtain ⟨c, hc, hcb⟩ := hreach
      rcases hc with hc | hc | hc | hc
      · subst hc; simp [OsCall.isBind] at hcb
      · subst hc; simp [OsCall.isBind] at hcb
      · exact not_isBind_of_mem_closeCalls P _ ⟨c, hc, hcb⟩
      · subst hc; simp [OsCall.isBind] at hcb
    | bindFailed fd e hs hlen hb' he => rw [hb] at hb'; exact absurd (Option.some.inj hb').symm he
    | listenFailed fd e hs hlen hb' hl => rw [hb] at hb'; cases hb'
    | chmodFailed fd e hs hlen hb' hl hw hc => rw [hb] at hb'; cases hb'
    | renameFailed fd e hs hlen hb' hl hw hc hr => rw [hb] at hb'; cases hb'
    | published fd hs hlen hb' hl hw hc hr => rw [hb] at hb'; cases hb'
    | listening fd hs hlen hb' hl hw => rw [hb] at hb'; cases hb'
  | direct r hw hr =>
    cases hr with
    | bindInUse fd hs hlen hb' =>
      refine ⟨rfl, rfl, (setErrorWith_frame _ _ _ _).2.2.1, (setErrorWith_frame _ _ _ _).2.2.2.1,
        ?_, fun _ => ⟨fd, hs, ?_⟩⟩
      · exact hfin fd _
      · simp only [World.log, named, List.append_assoc, List.cons_append,
          List.singleton_append, List.nil_append, issued_append, bindAddress, hna, hw,
          Bool.false_eq_true, if_false]
        simp
    | socketFailed e hs =>
      exfalso
      simp only [World.log, named, List.append_assoc, List.cons_append, List.singleton_append,
        List.nil_append, issued_append] at hreach
      simp only [List.mem_cons, List.mem_append, List.mem_singleton, List.not_mem_nil,
        or_false] at hreach
      obtain ⟨c, hc, hcb⟩ := hreach
      rcases hc with hc | hc
      · subst hc; simp [OsCall.isBind] at hcb
      · exact not_isBind_of_mem_closeCalls P _ ⟨c, hc, hcb⟩
    | tooLong fd hs hlen =>
      exfalso
      simp only [World.log, named, List.append_assoc, List.cons_append, List.singleton_append,
        List.nil_append, issued_append] at hreach
      simp only [List.mem_cons, List.mem_append, List.mem_singleton, List.not_mem_nil,
        or_false] at hreach
      obtain ⟨c, hc, hcb⟩ := hreach
      rcases hc with hc | hc
      · subst hc; simp [OsCall.isBind] at hcb
      · exact not_isBind_of_mem_closeCalls P _ ⟨c, hc, hcb⟩
    | bindFailed fd e hs hlen hb' he => rw [hb] at hb'; exact absurd (Option.some.inj hb').symm he
    | listenFailed fd e hs hlen hb' hl => rw [hb] at hb'; cases hb'
    | chmodFailed fd e hs hlen hb' hl hw hc => rw [hb] at hb'; cases hb'
    | renameFailed fd e hs hlen hb' hl hw hc hr => rw [hb] at hb'; cases hb'
    | published fd hs hlen hb' hl hw hc hr => rw [hb] at hb'; cases hb'
    | listening fd hs hlen hb' hl hw => rw [hb] at hb'; cases hb'

/-- C25, at a concrete input: after the failed `listen("foo")` of the sample
platform, `closeServer` removes the resolved path. -/
theorem names_kept_after_bind_in_use_witness :
    (listen linux { allSucceed with bind := some 98 } "foo" (initial 0 30 50 0)).2.d.fullServerName
      = resolveFullServerName linux (effectiveOptions linux (initial 0 30 50 0)) "foo" ∧
    issued (listen linux { allSucceed with bind := some 98 } "foo" (initial 0 30 50 0)).2
      (closeServer linux
        (listen linux { allSucceed with bind := some 98 } "foo" (initial 0 30 50 0)).2)
      = [OsCall.fileRemove
          (resolveFullServerName linux (effectiveOptions linux (initial 0 30 50 0)) "foo")] :=
  ⟨(names_kept_after_bind_in_use linux { allSucceed with bind := some 98 } "foo" (initial 0 30 50 0) (by decide) rfl
      (by decide)).2.2.2.1,
   (names_kept_after_bind_in_use linux { allSucceed with bind := some 98 } "foo" (initial 0 30 50 0) (by decide) rfl
      (by decide)).2.2.2.2.1⟩

/-! ## listen(name): failures before bind -/

/-- C26: with non-abstract effective options, when `listen(name)` fails because
`socket` fails, or because the name is too long, it has called `closeServer`
with the resolved full path recorded: it returns false, it has issued a removal
of the file at the resolved full path, and it has issued no `bind`.  When it
fails at the temporary-directory step the only call issued is the creation
attempt, so nothing is removed, and both names stay recorded. -/
theorem early_failure_removes_unowned_path (P : Platform) (os : ListenOutcomes) (name : String) (w : World)
    (hna : testFlag (effectiveOptions P w) P.AbstractNamespaceOption = false) :
    (∀ e, os.socket = Except.error e → OsCall.socket ∈ issued w (listen P os name w).2 →
      (listen P os name w).1 = false ∧
      OsCall.fileRemove (resolveFullServerName P (effectiveOptions P w) name)
        ∈ issued w (listen P os name w).2 ∧
      (¬ ∃ c ∈ issued w (listen P os name w).2, c.isBind = true) ∧
      (listen P os name w).2.d.listenSocket = -1) ∧
    (∀ fd : Nat, os.socket = Except.ok fd → OsCall.socket ∈ issued w (listen P os name w).2 →
      nameTooLong P (P.encodeName (resolveFullServerName P (effectiveOptions P w) name)) = true →
      (listen P os name w).1 = false ∧
      OsCall.fileRemove (resolveFullServerName P (effectiveOptions P w) name)
        ∈ issued w (listen P os name w).2 ∧
      (¬ ∃ c ∈ issued w (listen P os name w).2, c.isBind = true) ∧
      (listen P os name w).2.d.listenSocket = -1) ∧
    (∀ e, anyFlag (effectiveOptions P w) P.WorldAccessOption = true →
      os.tempDir = Except.error e →
      (listen P os name w).1 = false ∧
      issued w (listen P os name w).2
        = [OsCall.tempDirCreate
            (P.absolutePath (resolveFullServerName P (effectiveOptions P w) name) ++ "/")] ∧
      (listen P os name w).2.d.serverName = name ∧
      (listen P os name w).2.d.fullServerName
        = resolveFullServerName P (effectiveOptions P w) name) := by
  have hne := resolveFullServerName_ne_empty P (effectiveOptions P w) name hna
  have hx := listen_exit P os name w
  generalize listen P os name w = r at hx ⊢
  have hcc1 : closeCalls P { (named P name w).d with listenSocket := -1 }
      = [OsCall.fileRemove (resolveFullServerName P (effectiveOptions P w) name)] :=
    closeCalls_unbound_path P _ rfl hne hna
  have hcc2 : ∀ fd : Nat, closeCalls P { (named P name w).d with listenSocket := (fd : Int) }
      = [OsCall.close fd,
          OsCall.fileRemove (resolveFullServerName P (effectiveOptions P w) name)] :=
    fun fd => closeCalls_bound_path P _ (show (fd : Int) ≠ -1 by omega) hne hna
  have hpass : ∀ tp, nameTooLong P
        (P.encodeName (resolveFullServerName P (effectiveOptions P w) name)) = true →
      passesLengthChecks P (effectiveOptions P w) tp
        (P.encodeName (named P name w).d.fullServerName) = true → False := by
    intro tp h1 h2
    simp only [passesLengthChecks, named, Bool.and_eq_true, Bool.not_eq_true'] at h2
    rw [h1] at h2
    cases h2.1
  refine ⟨?_, ?_, ?_⟩
  · intro e hs0 hreach
    cases hx with
    | tempDirFailed e' hw ht =>
      simp [issued_append] at hreach
    | viaTempDir dir r hw ht hr =>
      cases hr with
      | socketFailed e' hs =>
        have hc' := hcc1
        simp only [named] at hc'
        refine ⟨rfl, ?_, ?_, rfl⟩ <;>
          simp only [World.log, named, List.append_assoc, List.cons_append,
            List.singleton_append, List.nil_append, issued_append, hc'] <;>
          simp [OsCall.isBind]
      | tooLong fd hs hlen => rw [hs0] at hs; cases hs
      | bindInUse fd hs hlen hb => rw [hs0] at hs; cases hs
      | bindFailed fd e' hs hlen hb he => rw [hs0] at hs; cases hs
      | listenFailed fd e' hs hlen hb hl => rw [hs0] at hs; cases hs
      | chmodFailed fd e' hs hlen hb hl hw' hc => rw [hs0] at hs; cases hs
      | renameFailed fd e' hs hlen hb hl hw' hc hr => rw [hs0] at hs; cases hs
      | published fd hs hlen hb hl hw' hc hr => rw [hs0] at hs; cases hs
      | listening fd hs hlen hb hl hw' => rw [hs0] at hs; cases hs
    | direct r hw hr =>
      cases hr with
      | socketFailed e' hs =>
        have hc' := hcc1
        simp only [named] at hc'
        refine ⟨rfl, ?_, ?_, rfl⟩ <;>
          simp only [World.log, named, List.append_assoc, List.cons_append,
            List.singleton_append, List.nil_append, issued_append, hc'] <;>
          simp [OsCall.isBind]
      | tooLong fd hs hlen => rw [hs0] at hs; cases hs
      | bindInUse fd hs hlen hb => rw [hs0] at hs; cases hs
      | bindFailed fd e' hs hlen hb he => rw [hs0] at hs; cases hs
      | listenFailed fd e' hs hlen hb hl => rw [hs0] at hs; cases hs
      | chmodFailed fd e' hs hlen hb hl hw' hc => rw [hs0] at hs; cases hs
      | renameFailed fd e' hs hlen hb hl hw' hc hr => rw [hs0] at hs; cases hs
      | published fd hs hlen hb hl hw' hc hr => rw [hs0] at hs; cases hs
      | listening fd hs hlen hb hl hw' => rw [hs0] at hs; cases hs
  · intro fd0 hs0 hreach hlong
    cases hx with
    | tempDirFailed e' hw ht =>
      simp [issued_append] at hreach
    | viaTempDir dir r hw ht hr =>
      cases hr with
      | socketFailed e' hs => rw [hs0] at hs; cases hs
      | tooLong fd hs hlen =>
        have hc' := hcc2 fd
        simp only [named] at hc'
        refine ⟨rfl, ?_, ?_, rfl⟩ <;>
          simp only [World.log, named, List.append_assoc, List.cons_append,
            List.singleton_append, List.nil_append, issued_append, hc'] <;>
          simp [OsCall.isBind]
      | bindInUse fd hs hlen hb => exact absurd hlen (fun h => hpass _ hlong h)
      | bindFailed fd e' hs hlen hb he => exact absurd hlen (fun h => hpass _ hlong h)
      | listenFailed fd e' hs hlen hb hl => exact absurd hlen (fun h => hpass _ hlong h)
      | chmodFailed fd e' hs hlen hb hl hw' hc => exact absurd hlen (fun h => hpass _ hlong h)
      | renameFailed fd e' hs hlen hb hl hw' hc hr => exact absurd hlen (fun h => hpass _ hlong h)
      | published fd hs hlen hb hl hw' hc hr => exact absurd hlen (fun h => hpass _ hlong h)
      | listening fd hs hlen hb hl hw' => exact absurd hlen (fun h => hpass _ hlong h)
    | direct r hw hr =>
      cases hr with
      | socketFailed e' hs => rw [hs0] at hs; cases hs
      | tooLong fd hs hlen =>
        have hc' := hcc2 fd
        simp only [named] at hc'
        refine ⟨rfl, ?_, ?_, rfl⟩ <;>
          simp only [World.log, named, List.append_assoc, List.cons_append,
            List.singleton_append, List.nil_append, issued_append, hc'] <;>
          simp [OsCall.isBind]
      | bindInUse fd hs hlen hb => exact absurd hlen (fun h => hpass _ hlong h)
      | bindFailed fd e' hs hlen hb he => exact absurd hlen (fun h => hpass _ hlong h)
      | listenFailed fd e' hs hlen hb hl => exact absurd hlen (fun h => hpass _ hlong h)
      | chmodFailed fd e' hs hlen hb hl hw' hc => exact absurd hlen (fun h => hpass _ hlong h)
      | renameFailed fd e' hs hlen hb hl hw' hc hr => exact absurd hlen (fun h => hpass _ hlong h)
      | published fd hs hlen hb hl hw' hc hr => exact absurd hlen (fun h => hpass _ hlong h)
      | listening fd hs hlen hb hl hw' => exact absurd hlen (fun h => hpass _ hlong h)
  · intro e hw0 ht0
    cases hx with
    | tempDirFailed e' hw ht =>
      refine ⟨rfl, ?_, (setErrorWith_frame _ _ _ _).2.2.1, (setErrorWith_frame _ _ _ _).2.2.2.1⟩
      rw [issued_append]
      rfl
    | viaTempDir dir r hw ht hr => rw [ht0] at ht; cases ht
    | direct r hw hr => rw [hw0] at hw; cases hw

/-- C26, at concrete inputs: `socket` failing with errno 24 makes `listen("foo")`
issue the removal of the resolved path; a failing temporary directory leaves
the server name "foo" recorded. -/
theorem early_failure_removes_unowned_path_witness :
    OsCall.fileRemove (resolveFullServerName linux (effectiveOptions linux (initial 0 30 50 0))
        "foo")
      ∈ issued (initial 0 30 50 0)
        (listen linux { allSucceed with socket := Except.error 24 } "foo" (initial 0 30 50 0)).2 ∧
    (listen linux { allSucceed with tempDir := Except.error 13 } "foo"
      (initial 7 30 50 0)).2.d.serverName = "foo" :=
  ⟨((early_failure_removes_unowned_path linux { allSucceed with socket := Except.error 24 } "foo" (initial 0 30 50 0)
      (by decide)).1 24 rfl (by decide)).2.1,
   ((early_failure_removes_unowned_path linux { allSucceed with tempDir := Except.error 13 } "foo" (initial 7 30 50 0)
      (by decide)).2.2 13 (by decide) rfl).2.2.1⟩

end QLocalServer

/-! ## QJUnitTestLogger: the stored result never improves -/

namespace QJUnitTestLogger

/-- The result attribute after `addIncident` is `storeResult` of the one before. -/
theorem addIncident_result (type : IncidentTypes) (description : String)
    (tag gtag : Option String) (s : Logger) :
    (addIncident type description tag gtag s).result = storeResult s.result type := by
  unfold addIncident addMessage
  cases type <;> simp [countsAsFailure, toSystemError]

/-- On a stored result the code keeps the worse of the stored and the new result. -/
theorem storeResult_some (old type : IncidentTypes) :
    storeResult (some (typeBuf old)) type
      = some (if severity old < severity type then typeBuf type else typeBuf old) := by
  cases old <;> cases type <;> decide

/-- The invariant of a run: the stored result is that of an incident seen, of maximal severity. -/
theorem addIncident_keeps_max (seen : List IncidentTypes) (type : IncidentTypes)
    (description : String) (tag gtag : Option String) (s : Logger)
    (h : ∃ t' ∈ seen, s.result = some (typeBuf t') ∧ ∀ t ∈ seen, severity t ≤ severity t') :
    ∃ t' ∈ seen ++ [type], (addIncident type description tag gtag s).result = some (typeBuf t') ∧
      ∀ t ∈ seen ++ [type], severity t ≤ severity t' := by
  obtain ⟨t', hmem, hres, hmax⟩ := h
  rw [addIncident_result, hres, storeResult_some]
  by_cases hlt : severity t' < severity type
  · refine ⟨type, by simp, by rw [if_pos hlt], ?_⟩
    intro t ht
    simp only [List.mem_append, List.mem_singleton] at ht
    rcases ht with ht | ht
    · exact Nat.le_of_lt (Nat.lt_of_le_of_lt (hmax t ht) hlt)
    · rw [ht]
  · refine ⟨t', by simp [hmem], by rw [if_neg hlt], ?_⟩
    intro t ht
    simp only [List.mem_append, List.mem_singleton] at ht
    rcases ht with ht | ht
    · exact hmax t ht
    · rw [ht]; omega

/-- The invariant of a run, carried along a whole list of incidents. -/
theorem addIncidents_keeps_max (incidents : List (IncidentTypes × String))
    (tag gtag : Option String) :
    ∀ (seen : List IncidentTypes) (s : Logger),
      (∃ t' ∈ seen, s.result = some (typeBuf t') ∧ ∀ t ∈ seen, severity t ≤ severity t') →
      ∃ t' ∈ seen ++ incidents.map Prod.fst,
        (addIncidents incidents tag gtag s).result = some (typeBuf t') ∧
        ∀ t ∈ seen ++ incidents.map Prod.fst, severity t ≤ severity t' := by
  induction incidents with
  | nil =>
    intro seen s h
    simpa [addIncidents] using h
  | cons i rest ih =>
    intro seen s h
    have h1 := addIncident_keeps_max seen i.1 i.2 tag gtag s h
    have h2 := ih (seen ++ [i.1]) _ h1
    simpa [addIncidents, List.append_assoc] using h2

/-- C27: in `addIncident`, when the test case already carries a result, the
stored result becomes the new one if the new one ranks strictly higher in
pass < bpass = bxfail < bfail = bxpass < xfail < xpass < fail, and stays what it
was otherwise; the first incident of a test case stores its own result.  So for
every sequence of incidents of a test case the stored result is the result of
one of the incidents reported, of the maximal rank reported so far; its rank
never decreases and a stored "fail" is never replaced.  The flag `overwrite`
itself is set exactly when the new result ranks strictly higher or the stored
one is "pass" (a "pass" written over "pass" changes nothing). -/
theorem addIncident_keeps_worst_result (tag gtag : Option String) :
    (∀ (old type : IncidentTypes) (description : String) (s : Logger),
      s.result = some (typeBuf old) →
      (addIncident type description tag gtag s).result
        = some (if severity old < severity type then typeBuf type else typeBuf old)) ∧
    (∀ (type : IncidentTypes) (description : String) (s : Logger),
      s.result = none →
      (addIncident type description tag gtag s).result = some (typeBuf type)) ∧
    (∀ (i : IncidentTypes × String) (rest : List (IncidentTypes × String)) (s : Logger),
      s.result = none →
      ∃ t' ∈ (i :: rest).map Prod.fst,
        (addIncidents (i :: rest) tag gtag s).result = some (typeBuf t') ∧
        ∀ t ∈ (i :: rest).map Prod.fst, severity t ≤ severity t') ∧
    (∀ (type : IncidentTypes) (description : String) (s : Logger),
      s.result = some "fail" →
      (addIncident type description tag gtag s).result = some "fail") ∧
    (∀ old type : IncidentTypes,
      overwrite (typeBuf old) type = true ↔
        (severity old < severity type ∨ old = IncidentTypes.Pass)) := by
  refine ⟨?_, ?_, ?_, ?_, ?_⟩
  · intro old type description s h
    rw [addIncident_result, h, storeResult_some]
  · intro type description s h
    rw [addIncident_result, h]
    rfl
  · intro i rest s h
    have h0 : ∃ t' ∈ [i.1], (addIncident i.1 i.2 tag gtag s).result = some (typeBuf t') ∧
        ∀ t ∈ [i.1], severity t ≤ severity t' := by
      refine ⟨i.1, by simp, ?_, ?_⟩
      · rw [addIncident_result, h]
        rfl
      · intro t ht
        simp only [List.mem_singleton] at ht
        rw [ht]
    have h1 := addIncidents_keeps_max rest tag gtag [i.1] _ h0
    simpa [addIncidents] using h1
  · intro type description s h
    rw [addIncident_result, h]
    cases type <;> decide
  · intro old type
    cases old <;> cases type <;> decide

/-- C27, at concrete inputs: of pass, xfail, bfail, pass the stored result is
"xfail"; an xpass reported after a fail leaves "fail" stored. -/
theorem addIncident_keeps_worst_result_witness :
    (addIncidents [(IncidentTypes.Pass, "ok"), (IncidentTypes.XFail, "known"),
        (IncidentTypes.BlacklistedFail, "ignored"), (IncidentTypes.Pass, "ok")]
      none none (entered 0 0)).result = some "xfail" ∧
    (addIncident IncidentTypes.XPass "late" none none
      (addIncident IncidentTypes.Fail "broken" none none (entered 0 0))).result = some "fail" :=
  ⟨by decide,
   (addIncident_keeps_worst_result none none).2.2.2.1 IncidentTypes.XPass "late"
     (addIncident IncidentTypes.Fail "broken" none none (entered 0 0)) (by decide)⟩

end QJUnitTestLogger
